import Mathlib

/-!
# Deep gradient compression kernels (`horovod/common/dgc.h`, `dgc_kernel.cu.cc`)

A shallow embedding of the device kernels `sample_kernel`, `select_kernel`,
`select_kernel2`, `pad_kernel` and `loop_kernel`, of the sentinel table
`PreDefinedValues` / `isValid` and of the defaults of `DgcConfig`. The host code
that sizes the buffers and merges the selections is not among the sources; the
sizing formulas (`target_count`, `sample_count`) and the reconstruction by scatter
(`scatter`) follow the specification and are marked as such.

Modelling conventions.

* Device arrays are functions `Nat → T` (raw pointers carry no length).
* Sizes, positions and the counter are natural numbers, and the steps of the loops
  (`i += STRIDE`, `thread_output + s_block_output_start`) are done in `Nat`, as for
  template parameters `SizeT`, `IndexT`, `CounterT` wide enough for the sizes
  involved. Width specific (`IntTy`) are the all-ones sentinels, which sit at the
  edge of their type, and the conversion of the `CounterT` counter to `SizeT` in
  the initialisation of the loop variable of `pad_kernel` (`pad_start`).
* The element type `T` is abstract: `abs`, the comparisons with the threshold and
  the division by `global_num_gpus` are the fields of an `ElemOps` record, so every
  result stated for an arbitrary record holds for any arithmetic, IEEE rounding,
  NaN and integer overflow included. `ElemOps.int32` is the record of `int32_t`
  elements with the `float` threshold of `select_kernel`.
* Concurrency is explicit. A kernel takes a schedule and is a total function of
  it. For the kernels without barriers a schedule is the list of thread ids in the
  order in which threads perform loop iterations. For the selectors, whose blocks
  synchronise with `__syncthreads`, a schedule lists block rounds (one trip of a
  block through its `while` loop) in the order of their global `atomicAdd`, each
  with the order in which the threads of the block are served. After the listed
  steps every thread (block) is given as many further turns as its loop can need,
  so each run is a complete execution and each interleaving of that granularity
  is the run of some schedule.
* Within a trip of a block the threads make their stores in the order in which they
  were served. The stores of `select_kernel` go to pairwise different slots (each
  slot is stored to at most once in a run), so their order does not show in the
  result. The threads of a block of `select_kernel2` can store to the same slot;
  what is proved about `select_kernel2` does not depend on which store comes last.
* Fields `stores` and `loads` are instrumentation: `stores p` counts the stores
  made to output slot `p`, `loads` lists the element reads.
-/

namespace horovod.dgc

/-! ## Numeric types and sentinels (`dgc.h`) -/

/-- The integer types for which `PreDefinedValues` is specialised. -/
inductive IntTy where
  | int32
  | uint32
  | int64
  | uint64
deriving DecidableEq, Repr

/-- Width in bits. -/
def IntTy.bits : IntTy → Nat
  | .int32 => 32
  | .uint32 => 32
  | .int64 => 64
  | .uint64 => 64

/-- Signedness. -/
def IntTy.signed : IntTy → Bool
  | .int32 => true
  | .uint32 => false
  | .int64 => true
  | .uint64 => false

/-- Conversion of an integer value to the type `ty`: reduction modulo `2 ^ bits`
into the range of `ty` (two's complement for the signed types). -/
def IntTy.conv (ty : IntTy) (x : Int) : Int :=
  let m := x % (2 ^ ty.bits : Int)
  if ty.signed && decide ((2 ^ (ty.bits - 1) : Int) ≤ m) then m - (2 ^ ty.bits : Int) else m

/-- The constant `AllZeros = (T)0` of the integer specialisations. -/
def IntTy.AllZeros (ty : IntTy) : Int := ty.conv 0

/-- The constant `AllOnes = ~AllZeros` of the integer specialisations. -/
def IntTy.AllOnes (ty : IntTy) : Int := ty.conv (~~~ ty.AllZeros)

/-- The constant `InvalidValue = AllOnes` of the integer specialisations. -/
def IntTy.InvalidValue (ty : IntTy) : Int := ty.AllOnes

/-- An IEEE-754 binary value given by its sign, biased exponent and mantissa
fields; only its classification is used. -/
structure IEEE (ebits mbits : Nat) where
  sign : Bool
  exponent : Nat
  mantissa : Nat
deriving DecidableEq, Repr

/-- The classification `isnan`: exponent field all ones, mantissa field non-zero. -/
def isnan {ebits mbits : Nat} (x : IEEE ebits mbits) : Bool :=
  x.exponent == 2 ^ ebits - 1 && x.mantissa != 0

/-- The type `float`. -/
abbrev float : Type := IEEE 8 23

/-- The type `double`. -/
abbrev double : Type := IEEE 11 52

/-- The constant `NAN` of `math.h`, a quiet NaN of type `float`. -/
def NAN : float := ⟨false, 255, 2 ^ 22⟩

/-- Conversion of `NAN` to `double` (a quiet NaN again). -/
def NAN_double : double := ⟨false, 2047, 2 ^ 51⟩

/-- The member `InvalidValue` of a specialisation `PreDefinedValues<T>`, with the
validity test `isValid<T>` that goes with the type. -/
structure PreDefinedValues (T : Type) where
  InvalidValue : T
  isValid : T → Bool

/-- `PreDefinedValues<float>` and `isValid(const float&)`. -/
def PreDefinedValues.ofFloat : PreDefinedValues float where
  InvalidValue := NAN
  isValid := fun val => !isnan val

/-- `PreDefinedValues<double>` and `isValid(const double&)`. -/
def PreDefinedValues.ofDouble : PreDefinedValues double where
  InvalidValue := NAN_double
  isValid := fun val => !isnan val

/-- `PreDefinedValues<ty>` for an integer type, with the generic `isValid`:
`val != PreDefinedValues<T>::InvalidValue`. -/
def PreDefinedValues.ofInt (ty : IntTy) : PreDefinedValues Int where
  InvalidValue := ty.InvalidValue
  isValid := fun val => val != ty.InvalidValue

/-- The generic template `isValid`. -/
def isValid {T : Type} (P : PreDefinedValues T) (val : T) : Bool := P.isValid val

/-! ## Launch configuration and element arithmetic -/

/-- A launch configuration `<<<gridDim.x, blockDim.x>>>`. -/
structure Launch where
  gridDim : Nat
  blockDim : Nat
deriving DecidableEq, Repr

/-- The constant `STRIDE = gridDim.x * blockDim.x` of every kernel. -/
def Launch.STRIDE (L : Launch) : Nat := L.gridDim * L.blockDim

/-- The arithmetic of the element type `T` that the kernels use; `F` is the type
of the threshold (`float` in the source). -/
structure ElemOps (T F : Type) where
  /-- the literal `0` of `T element = 0` -/
  zero : T
  /-- `abs(x)` -/
  abs : T → T
  /-- `a < threshold` for the `float` threshold of `select_kernel` -/
  lt : T → F → Bool
  /-- the conversion in `const T threshold = threshold_[0]` -/
  ofThreshold : F → T
  /-- `a > b` in `T` -/
  gt : T → T → Bool
  /-- `x / global_num_gpus` -/
  div : T → Int → T

/-- Arithmetic of a linearly ordered numeric type without NaN whose `abs` and
comparisons are exact and whose threshold has the element type, as for the numbers
that `float` represents. The division, which a floating-point type rounds, is a
parameter. -/
def ElemOps.ordered (T : Type) [LinearOrderedField T] (div : T → Int → T) : ElemOps T T where
  zero := 0
  abs := fun x => |x|
  lt := fun a b => decide (a < b)
  ofThreshold := fun t => t
  gt := fun a b => decide (a > b)
  div := div

/-- Integer arithmetic: `/` truncates towards zero. -/
def ElemOps.int : ElemOps Int Int where
  zero := 0
  abs := fun x => |x|
  lt := fun a b => decide (a < b)
  ofThreshold := fun t => t
  gt := fun a b => decide (a > b)
  div := fun x n => x.tdiv n

/-! ## Arithmetic of `int32_t` elements with the `float` threshold -/

/-- The significand of a finite IEEE value, hidden bit included (none for a
subnormal). -/
def IEEE.significand {ebits mbits : Nat} (x : IEEE ebits mbits) : Nat :=
  if x.exponent = 0 then x.mantissa else 2 ^ mbits + x.mantissa

/-- The binary exponent of a finite IEEE value before the bias is taken off: the
exponent field, `1` for a subnormal. -/
def IEEE.scale {ebits mbits : Nat} (x : IEEE ebits mbits) : Nat :=
  if x.exponent = 0 then 1 else x.exponent

/-- The integer `± significand * 2 ^ scale` of a finite IEEE value; the value is
this integer over `2 ^ (bias + mbits)` with `bias = 2 ^ (ebits - 1) - 1`. -/
def IEEE.numerator {ebits mbits : Nat} (x : IEEE ebits mbits) : Int :=
  if x.sign then -((x.significand * 2 ^ x.scale : Nat) : Int)
  else ((x.significand * 2 ^ x.scale : Nat) : Int)

/-- The number a finite IEEE value stands for. -/
def IEEE.toRat {ebits mbits : Nat} (x : IEEE ebits mbits) : ℚ :=
  (x.numerator : ℚ) / ((2 ^ (2 ^ (ebits - 1) - 1 + mbits) : Nat) : ℚ)

/-- The number of low bits that the conversion of a magnitude `n < 2 ^ (24 + fuel)`
to `float` rounds away: the least `e` with `n < 2 ^ (24 + e)`. -/
def float_shift : Nat → Nat → Nat
  | 0, _ => 0
  | fuel + 1, n => if n < 2 ^ 24 then 0 else float_shift fuel (n / 2) + 1

/-- The conversion of an integer of at most 64 bits to `float`, round to nearest
with ties to even, given by the integer the resulting `float` stands for: 24
significant bits are kept, `e` low bits are rounded away. -/
def float_of_int (x : Int) : Int :=
  let n := x.natAbs
  let e := float_shift 40 n
  let q := n / 2 ^ e
  let r := n % 2 ^ e
  let q1 := if 2 ^ e < 2 * r ∨ (2 * r = 2 ^ e ∧ q % 2 = 1) then q + 1 else q
  if x < 0 then -((q1 * 2 ^ e : Nat) : Int) else ((q1 * 2 ^ e : Nat) : Int)

/-- The comparison `a < threshold` of an `int32_t` with a `float`: `a` is converted
to `float` and the two are compared as `float`s (false against a NaN); for a
finite threshold both sides are scaled by `2 ^ 150`, `150 = bias + mbits`. -/
def int_lt_float (a : Int) (threshold : float) : Bool :=
  if isnan threshold then false
  else if threshold.exponent = 255 then !threshold.sign
  else decide (float_of_int a * ((2 ^ 150 : Nat) : Int) < threshold.numerator)

/-- The conversion `const int32_t threshold = threshold_[0]` of a `float` to
`int32_t`: towards zero; out of the range of `int32_t` the conversion of the device
saturates, and a NaN gives `0`. -/
def int32_of_float (threshold : float) : Int :=
  if isnan threshold then 0
  else if threshold.exponent = 255 then (if threshold.sign then -2147483648 else 2147483647)
  else max (-2147483648) (min (threshold.numerator.tdiv ((2 ^ 150 : Nat) : Int)) 2147483647)

/-- The arithmetic of `T = int32_t` with the `float` threshold of the kernels.
`abs` wraps at the edge of the type (`abs(INT32_MIN)` is `INT32_MIN`), the
comparison with the threshold is made in `float`, `/` truncates towards zero and
wraps. -/
def ElemOps.int32 : ElemOps Int float where
  zero := 0
  abs := fun x => IntTy.int32.conv |x|
  lt := int_lt_float
  ofThreshold := int32_of_float
  gt := fun a b => decide (a > b)
  div := fun x n => IntTy.int32.conv (x.tdiv n)

/-! ## Threads that loop independently -/

/-- The order in which the threads `0 .. blockDim-1` of a block are served, read
off a list: the listed thread ids that exist, without repetition, then the threads
not listed, in increasing order. -/
def threadOrder (blockDim : Nat) (order : List Nat) : List Nat :=
  (order.filter (fun t => decide (t < blockDim))).dedup ++
    (List.range blockDim).filter (fun t => !order.contains t)

/-- The loop variable `i` of every thread (by thread id
`blockDim.x * blockIdx.x + threadIdx.x`) and the memory the threads share. -/
structure Grid (σ : Type) where
  i : Nat → Nat
  mem : σ

/-- One trip of thread `thread_id` through `while (i < bound) { body; i += STRIDE; }`;
nothing happens once the loop condition is false. -/
def thread_step {σ : Type} (STRIDE bound : Nat) (body : Nat → Nat → σ → σ)
    (thread_id : Nat) (st : Grid σ) : Grid σ :=
  if st.i thread_id < bound then
    { i := Function.update st.i thread_id (st.i thread_id + STRIDE)
      mem := body thread_id (st.i thread_id) st.mem }
  else st

/-- The turns that end a run: every thread gets `bound` further turns, which is at
least the number of trips its loop has left. -/
def thread_completion (L : Launch) (bound : Nat) : List Nat :=
  (List.range (L.gridDim * L.blockDim)).flatMap (fun thread_id => List.replicate bound thread_id)

/-- One schedule entry: the named thread makes a trip through its loop; ids of
threads that do not exist are skipped. -/
def sched_step {σ : Type} (L : Launch) (bound : Nat) (body : Nat → Nat → σ → σ)
    (s : Grid σ) (thread_id : Nat) : Grid σ :=
  if thread_id < L.gridDim * L.blockDim then thread_step L.STRIDE bound body thread_id s else s

/-- A grid of threads, each running `while (i < bound) { body; i += STRIDE; }`,
interleaved as `sched` says and run to completion. -/
def run_threads {σ : Type} (L : Launch) (bound : Nat) (body : Nat → Nat → σ → σ)
    (sched : List Nat) (st : Grid σ) : Grid σ :=
  (sched ++ thread_completion L bound).foldl (sched_step L bound body) st

/-- The calls `(thread_id, i)` of the loop body made by a run, in the order in which
they are made: the run of the logging body. -/
def thread_calls (L : Launch) (bound i0 : Nat) (sched : List Nat) : List (Nat × Nat) :=
  (run_threads L bound (fun thread_id i log => log ++ [(thread_id, i)]) sched
    { i := fun thread_id => i0 + thread_id, mem := [] }).mem

/-! ## `loop_kernel` -/

/-- The kernel `loop_kernel(loop_size, op)`: thread `thread_id` starts at
`i = blockDim.x * blockIdx.x + threadIdx.x` and calls `op(i)` while `i < loop_size`.
The operation acts on a state `σ`. -/
def loop_kernel {σ : Type} (L : Launch) (loop_size : Nat) (op : Nat → σ → σ)
    (sched : List Nat) (s : σ) : σ :=
  (run_threads L loop_size (fun _ i m => op i m) sched
    { i := fun thread_id => thread_id, mem := s }).mem

/-! ## Output buffers of the selectors and of `pad_kernel` -/

/-- The arrays `selected_elements`, `selected_indices` and the cell
`selected_count[0]`, with the instrumentation `stores` and `loads`
(`(blockIdx, threadIdx, index)` of every read of `elements`). -/
structure Output (T : Type) where
  selected_elements : Nat → T
  selected_indices : Nat → Int
  selected_count : Nat
  stores : Nat → Nat
  loads : List (Nat × Nat × Nat)

/-- The two stores `selected_elements[p] = v; selected_indices[p] = ix;`. -/
def Output.store {T : Type} (m : Output T) (p : Nat) (v : T) (ix : Int) : Output T :=
  { m with
    selected_elements := Function.update m.selected_elements p v
    selected_indices := Function.update m.selected_indices p ix
    stores := Function.update m.stores p (m.stores p + 1) }

/-! ## `pad_kernel` -/

/-- The loop body of `pad_kernel`:
`selected_elements[i] = PreDefinedValues<T>::InvalidValue;`
`selected_indices[i] = PreDefinedValues<SizeT>::InvalidValue;` (converted to
`IndexT`). -/
def pad_body {T : Type} (P : PreDefinedValues T) (IndexT SizeT : IntTy)
    (i : Nat) (m : Output T) : Output T :=
  m.store i P.InvalidValue (IndexT.conv SizeT.InvalidValue)

/-- The counter as the loop variable of `pad_kernel` sees it. In
`SizeT i = selected_count[0] + ...` the sum is converted to `SizeT`, so the
`CounterT` counter enters reduced modulo `2 ^ bits` into the range of `SizeT` (a
counter of `2 ^ 32 + 1` is `1` for `SizeT = uint32_t`). For a signed `SizeT` the
reduced value can be negative; the threads then step up from below the arrays in
steps of `STRIDE`, and the slots of the arrays they reach are exactly those from
index `0` on, each by one thread, so within the arrays the padding starts at `0`. -/
def pad_start (SizeT : IntTy) (selected_count : Nat) : Nat :=
  (SizeT.conv (selected_count : Int)).toNat

/-- The kernel `pad_kernel(selected_elements, selected_indices, target_num,
selected_count)`: thread `thread_id` starts at
`SizeT i = selected_count[0] + thread_id`, the counter converted to `SizeT`
(`pad_start`) plus the thread id, and pads while `i < target_num`. -/
def pad_kernel {T : Type} (P : PreDefinedValues T) (IndexT SizeT : IntTy) (L : Launch)
    (target_num : Nat) (sched : List Nat) (m : Output T) : Output T :=
  (run_threads L target_num (fun _ i mem => pad_body P IndexT SizeT i mem) sched
    { i := fun thread_id => pad_start SizeT m.selected_count + thread_id, mem := m }).mem

/-! ## `sample_kernel` -/

/-- The array `samples` and the array `rand_states` (one generator state per
thread), with instrumentation: `stores` counts the stores to each sample slot and
`loads` lists the positions read from `elements`. -/
structure SampleMem (T R : Type) where
  samples : Nat → T
  rand_states : Nat → R
  stores : Nat → Nat
  loads : List Nat

/-- The lines `SizeT pos = curand_uniform(..) * num_elements; if (pos >= num_elements)
pos -= num_elements;` for a draw `u`: the product is truncated to `SizeT`. -/
def sample_pos (u : ℚ) (num_elements : Nat) : Nat :=
  let pos := (Rat.floor (u * (num_elements : ℚ))).toNat
  if pos ≥ num_elements then pos - num_elements else pos

/-- The loop body of `sample_kernel`; `curand_uniform` returns a draw and the
advanced generator state. -/
def sample_body {T F R : Type} (ops : ElemOps T F) (curand_uniform : R → ℚ × R)
    (elements : Nat → T) (num_elements : Nat) (thread_id i : Nat)
    (m : SampleMem T R) : SampleMem T R :=
  let draw := curand_uniform (m.rand_states thread_id)
  let pos := sample_pos draw.1 num_elements
  { samples := Function.update m.samples i (ops.abs (elements pos))
    rand_states := Function.update m.rand_states thread_id draw.2
    stores := Function.update m.stores i (m.stores i + 1)
    loads := m.loads ++ [pos] }

/-- The kernel `sample_kernel(elements, num_elements, samples, num_samples,
rand_states)`: thread `thread_id` starts at `i = thread_id` and samples while
`i < num_samples`. -/
def sample_kernel {T F R : Type} (ops : ElemOps T F) (curand_uniform : R → ℚ × R) (L : Launch)
    (elements : Nat → T) (num_elements num_samples : Nat)
    (sched : List Nat) (m : SampleMem T R) : SampleMem T R :=
  (run_threads L num_samples (sample_body ops curand_uniform elements num_elements) sched
    { i := fun thread_id => thread_id, mem := m }).mem


/-! ## `select_kernel` -/

/-- The inputs of the selectors: `elements`, `num_elements`, `global_num_gpus`,
`threshold_[0]` and `target_num`. -/
structure SelectArgs (T F : Type) where
  elements : Nat → T
  num_elements : Nat
  global_num_gpus : Int
  threshold : F
  target_num : Nat

/-- The registers of a thread of `select_kernel` in one trip through the loop. -/
structure SelectThread (T : Type) where
  threadIdx : Nat
  thread_input : Nat
  thread_output : Nat
  thread_to_select : Bool
  element : T

/-- The test `!(abs(element) < threshold)` of `select_kernel` on element `i`. -/
def select_pass {T F : Type} (ops : ElemOps T F) (a : SelectArgs T F) (i : Nat) : Bool :=
  !(ops.lt (ops.abs (a.elements i)) a.threshold)

/-- Lines 66-78 for one thread, given the current value of the shared
`s_block_output_count`: the registers of the thread and the new value of the
counter (`atomicAdd(&s_block_output_count, 1)` returns the old value). -/
def select_scan {T F : Type} (ops : ElemOps T F) (a : SelectArgs T F)
    (block_input_start threadIdx s_block_output_count : Nat) : SelectThread T × Nat :=
  let thread_input := block_input_start + threadIdx
  if thread_input < a.num_elements then
    let element := a.elements thread_input
    if !(ops.lt (ops.abs element) a.threshold) then
      ({ threadIdx := threadIdx, thread_input := thread_input
         thread_output := s_block_output_count, thread_to_select := true, element := element },
        s_block_output_count + 1)
    else
      ({ threadIdx := threadIdx, thread_input := thread_input
         thread_output := 0, thread_to_select := false, element := element },
        s_block_output_count)
  else
    ({ threadIdx := threadIdx, thread_input := thread_input
       thread_output := 0, thread_to_select := false, element := ops.zero },
      s_block_output_count)

/-- Lines 66-78 for the threads of a block, served in the order of the list, up to
the barrier of line 79. -/
def select_scan_all {T F : Type} (ops : ElemOps T F) (a : SelectArgs T F)
    (block_input_start : Nat) : List Nat → Nat → List (SelectThread T) × Nat
  | [], s_block_output_count => ([], s_block_output_count)
  | threadIdx :: rest, s_block_output_count =>
    let r := select_scan ops a block_input_start threadIdx s_block_output_count
    let rs := select_scan_all ops a block_input_start rest r.2
    (r.1 :: rs.1, rs.2)

/-- Lines 88-93 for one thread: `thread_output += s_block_output_start;` and the
guarded stores. -/
def select_store {T F : Type} (ops : ElemOps T F) (a : SelectArgs T F)
    (s_block_output_start : Nat) (m : Output T) (th : SelectThread T) : Output T :=
  let thread_output := th.thread_output + s_block_output_start
  if th.thread_to_select && decide (thread_output < a.target_num) then
    m.store thread_output (ops.div th.element a.global_num_gpus) (th.thread_input : Int)
  else m

/-- The loop variable and the shared variables of a block of `select_kernel`. -/
structure SelectBlock where
  block_input_start : Nat
  s_block_output_count : Nat
  s_block_output_start : Nat

/-- The blocks of a running `select_kernel` and the output buffers. -/
structure SelectState (T : Type) where
  blocks : Nat → SelectBlock
  mem : Output T

/-- The reads of `elements` made in one trip, as `(blockIdx, threadIdx, index)`. -/
def select_loads {T : Type} (blockIdx : Nat) (num_elements : Nat) (ths : List (SelectThread T)) :
    List (Nat × Nat × Nat) :=
  (ths.filter (fun th => decide (th.thread_input < num_elements))).map
    (fun th => (blockIdx, th.threadIdx, th.thread_input))

/-- One trip of block `blockIdx` through `while (block_input_start < num_elements)`,
its threads served in the order `order`; nothing happens once the loop condition is
false. -/
def select_round {T F : Type} (ops : ElemOps T F) (L : Launch) (a : SelectArgs T F)
    (blockIdx : Nat) (order : List Nat) (st : SelectState T) : SelectState T :=
  let blk := st.blocks blockIdx
  if blk.block_input_start < a.num_elements then
    -- lines 66-79
    let scan := select_scan_all ops a blk.block_input_start order blk.s_block_output_count
    -- lines 82-87: thread 0 claims the slots of the block
    let claim := scan.2 != 0
    let s_block_output_start := if claim then st.mem.selected_count else blk.s_block_output_start
    let mem1 : Output T :=
      { st.mem with
        selected_count := if claim then st.mem.selected_count + scan.2 else st.mem.selected_count
        loads := st.mem.loads ++ select_loads blockIdx a.num_elements scan.1 }
    -- lines 88-93
    let mem2 := scan.1.foldl (select_store ops a s_block_output_start) mem1
    -- line 95
    { blocks := Function.update st.blocks blockIdx
        { block_input_start := blk.block_input_start + L.STRIDE
          s_block_output_count := if claim then 0 else scan.2
          s_block_output_start := s_block_output_start }
      mem := mem2 }
  else st

/-- One schedule entry `(blockIdx, order)`: the named block makes a trip through its
loop; ids of blocks that do not exist are skipped. -/
def select_step {T F : Type} (ops : ElemOps T F) (L : Launch) (a : SelectArgs T F)
    (st : SelectState T) (entry : Nat × List Nat) : SelectState T :=
  if entry.1 < L.gridDim then
    select_round ops L a entry.1 (threadOrder L.blockDim entry.2) st
  else st

/-- The turns that end a run of a selector: every block gets `num_elements` further
turns, which is at least the number of trips its loop has left. -/
def block_completion (L : Launch) (num_elements : Nat) : List (Nat × List Nat) :=
  (List.range L.gridDim).flatMap (fun blockIdx => List.replicate num_elements (blockIdx, []))

/-- The state in which `select_kernel` enters its loop (lines 51-62):
`block_input_start = blockDim.x * blockIdx.x`, `s_block_output_count = 0`, and
`s_block_output_start` not initialised (`shared0` gives what it happens to hold). -/
def select_init {T : Type} (L : Launch) (shared0 : Nat → Nat) (m : Output T) : SelectState T :=
  { blocks := fun blockIdx =>
      { block_input_start := L.blockDim * blockIdx
        s_block_output_count := 0
        s_block_output_start := shared0 blockIdx }
    mem := m }

/-- The state in which `select_kernel` ends under the schedule `sched`: the listed
trips, then the closing turns. -/
def select_final {T F : Type} (ops : ElemOps T F) (L : Launch) (a : SelectArgs T F)
    (sched : List (Nat × List Nat)) (shared0 : Nat → Nat) (m : Output T) : SelectState T :=
  (sched ++ block_completion L a.num_elements).foldl (select_step ops L a)
    (select_init L shared0 m)

/-- The kernel `select_kernel(elements, num_elements, global_num_gpus, threshold_,
target_num, selected_elements, selected_indices, selected_count)` under the
schedule `sched`, run to completion: the output buffers it leaves. -/
def select_kernel {T F : Type} (ops : ElemOps T F) (L : Launch) (a : SelectArgs T F)
    (sched : List (Nat × List Nat)) (shared0 : Nat → Nat) (m : Output T) : Output T :=
  (select_final ops L a sched shared0 m).mem

/-! ## `select_kernel2` -/

/-- The constant `num_local_slots`. -/
def num_local_slots : Nat := 4

/-- The test `abs(element) > threshold` of `select_kernel2` on element `i`, with
`const T threshold = threshold_[0]`. -/
def select2_pass {T F : Type} (ops : ElemOps T F) (a : SelectArgs T F) (i : Nat) : Bool :=
  ops.gt (ops.abs (a.elements i)) (ops.ofThreshold a.threshold)

/-- The inner loop (lines 134-146) of one thread:
`while (thread_pos < num_elements && thread_num_output < num_local_slots)`. The
local arrays `thread_elements`, `thread_indices` are the list `slots` of pairs,
`thread_num_output` is its length; `reads` collects the positions read. The loop
variable grows by `STRIDE` in each trip, so `fuel = num_elements` trips are enough
when `STRIDE ≥ 1`. Returns the final `thread_pos`, the slots and the reads. -/
def select2_scan {T F : Type} (ops : ElemOps T F) (a : SelectArgs T F) (STRIDE : Nat) :
    Nat → Nat → List (T × Nat) → List Nat → Nat × List (T × Nat) × List Nat
  | 0, thread_pos, slots, reads => (thread_pos, slots, reads)
  | fuel + 1, thread_pos, slots, reads =>
    if thread_pos < a.num_elements ∧ slots.length < num_local_slots then
      let element := a.elements thread_pos
      if ops.gt (ops.abs element) (ops.ofThreshold a.threshold) then
        select2_scan ops a STRIDE fuel (thread_pos + STRIDE) (slots ++ [(element, thread_pos)])
          (reads ++ [thread_pos])
      else
        select2_scan ops a STRIDE fuel (thread_pos + STRIDE) slots (reads ++ [thread_pos])
    else (thread_pos, slots, reads)

/-- The registers of a thread of `select_kernel2` at the barrier of line 151. -/
structure Select2Thread (T : Type) where
  threadIdx : Nat
  slots : List (T × Nat)

/-- The state of the scan phase of a block: the registers of the threads served so
far, the `thread_pos` of every thread (by thread id), the shared
`s_block_output_count` and the reads made. -/
structure Select2Scan (T : Type) where
  threads : List (Select2Thread T)
  thread_pos : Nat → Nat
  s_block_output_count : Nat
  loads : List (Nat × Nat × Nat)

/-- Lines 134-150 for thread `threadIdx` of block `blockIdx`: the inner loop, then
`if (thread_num_output != 0) atomicAdd(&s_block_output_count, thread_num_output);`
(the value returned by `atomicAdd` is dropped). -/
def select2_scan_thread {T F : Type} (ops : ElemOps T F) (L : Launch) (a : SelectArgs T F)
    (blockIdx : Nat) (acc : Select2Scan T) (threadIdx : Nat) : Select2Scan T :=
  let thread_id := L.blockDim * blockIdx + threadIdx
  let r := select2_scan ops a L.STRIDE a.num_elements (acc.thread_pos thread_id) [] []
  { threads := acc.threads ++ [{ threadIdx := threadIdx, slots := r.2.1 }]
    thread_pos := Function.update acc.thread_pos thread_id r.1
    s_block_output_count :=
      if r.2.1.length != 0 then acc.s_block_output_count + r.2.1.length
      else acc.s_block_output_count
    loads := acc.loads ++ r.2.2.map (fun i => (blockIdx, threadIdx, i)) }

/-- The loop of lines 169-176 from `output_pos` on, over the local slots that are
left: `if (output_pos >= target_num) break;`, the two stores, `output_pos++`. -/
def select2_store {T F : Type} (ops : ElemOps T F) (a : SelectArgs T F) :
    Nat → List (T × Nat) → Output T → Output T
  | _, [], m => m
  | output_pos, slot :: rest, m =>
    if output_pos ≥ a.target_num then m
    else
      select2_store ops a (output_pos + 1) rest
        (m.store output_pos (ops.div slot.1 a.global_num_gpus) (slot.2 : Int))

/-- The shared variables of a block of `select_kernel2`. -/
structure Select2Block where
  s_to_continue : Bool
  s_block_output_count : Nat
  s_block_output_start : Nat

/-- The blocks and threads of a running `select_kernel2` and the output buffers. -/
structure Select2State (T : Type) where
  blocks : Nat → Select2Block
  thread_pos : Nat → Nat
  mem : Output T

/-- One trip of block `blockIdx` through `while (s_to_continue)`, its threads served
in the order `order`; nothing happens once `s_to_continue` is false. -/
def select2_round {T F : Type} (ops : ElemOps T F) (L : Launch) (a : SelectArgs T F)
    (blockIdx : Nat) (order : List Nat) (st : Select2State T) : Select2State T :=
  let blk := st.blocks blockIdx
  if blk.s_to_continue then
    -- lines 134-151
    let scan := order.foldl (select2_scan_thread ops L a blockIdx)
      { threads := [], thread_pos := st.thread_pos
        s_block_output_count := blk.s_block_output_count, loads := [] }
    -- lines 153-166: thread 0
    let claim := scan.s_block_output_count != 0
    let s_block_output_start := if claim then st.mem.selected_count else blk.s_block_output_start
    let s_to_continue := if claim then !(decide (s_block_output_start ≥ a.target_num)) else false
    let mem1 : Output T :=
      { st.mem with
        selected_count :=
          if claim then st.mem.selected_count + scan.s_block_output_count
          else st.mem.selected_count
        loads := st.mem.loads ++ scan.loads }
    -- lines 148, 168-177: `thread_output_start` is `0` in every thread
    let thread_output_start := 0
    let mem2 := scan.threads.foldl
      (fun m th => select2_store ops a (s_block_output_start + thread_output_start) th.slots m)
      mem1
    { blocks := Function.update st.blocks blockIdx
        { s_to_continue := s_to_continue
          s_block_output_count := if claim then 0 else scan.s_block_output_count
          s_block_output_start := s_block_output_start }
      thread_pos := scan.thread_pos
      mem := mem2 }
  else st

/-- One schedule entry `(blockIdx, order)` of `select_kernel2`. -/
def select2_step {T F : Type} (ops : ElemOps T F) (L : Launch) (a : SelectArgs T F)
    (st : Select2State T) (entry : Nat × List Nat) : Select2State T :=
  if entry.1 < L.gridDim then
    select2_round ops L a entry.1 (threadOrder L.blockDim entry.2) st
  else st

/-- The state in which `select_kernel2` enters its loop (lines 111-131):
`s_to_continue = true`, `s_block_output_count = 0`, `s_block_output_start` not
initialised, `thread_pos = blockDim.x * blockIdx.x + threadIdx.x`. -/
def select2_init {T : Type} (shared0 : Nat → Nat) (m : Output T) : Select2State T :=
  { blocks := fun blockIdx =>
      { s_to_continue := true
        s_block_output_count := 0
        s_block_output_start := shared0 blockIdx }
    thread_pos := fun thread_id => thread_id
    mem := m }

/-- The state in which `select_kernel2` ends under the schedule `sched`: the listed
trips, then `num_elements + 1` closing turns for every block (a trip that does not
clear `s_to_continue` has read an element, so a block makes at most
`num_elements + 1` trips). -/
def select2_final {T F : Type} (ops : ElemOps T F) (L : Launch) (a : SelectArgs T F)
    (sched : List (Nat × List Nat)) (shared0 : Nat → Nat) (m : Output T) : Select2State T :=
  (sched ++ block_completion L (a.num_elements + 1)).foldl (select2_step ops L a)
    (select2_init shared0 m)

/-- The kernel `select_kernel2(elements, num_elements, global_num_gpus, threshold_,
target_num, selected_elements, selected_indices, selected_count)` under the
schedule `sched`, run to completion: the output buffers it leaves. -/
def select_kernel2 {T F : Type} (ops : ElemOps T F) (L : Launch) (a : SelectArgs T F)
    (sched : List (Nat × List Nat)) (shared0 : Nat → Nat) (m : Output T) : Output T :=
  (select2_final ops L a sched shared0 m).mem

/-! ## `DgcConfig` and the sizes derived from it -/

/-- The numeric fields of `struct DgcConfig` with their default member
initialisers (`dgc.h`); the `double` and `float` defaults are the decimal fractions
written in the source. -/
structure DgcConfig where
  warmup_epochs : ℚ := 5
  num_examples_per_epoch : Int := 1000000
  batch_size_per_gpu : Int := 32
  init_sparsity : ℚ := 75 / 100
  final_sparsity : ℚ := 999 / 1000
  sampling_rate : ℚ := 1 / 100
  rand_seed : Nat := 2800
  grid_size : Int := 32
  block_size : Int := 512
  global_num_gpus : Int := 1
  global_gpu_rank : Int := 0
  global_num_nodes : Int := 1
  global_node_rank : Int := 0
  local_num_gpus : Int := 1
  local_gpu_rank : Int := 0
  configured : Bool := false
  min_sampling_num : Nat := 4000
  min_gradients_comm_per_layer : Nat := 10
  min_selected_samples_per_layer : Nat := 5
  momentum : ℚ := 9 / 10
  local_gradient_clipping : Bool := true
  clipping_threshold : ℚ := 6
  use_allReduce : Bool := true
  use_hierarchical_allreduce : Bool := true
  cross_comm_inited : Bool := false

/-- A default-initialised `DgcConfig`. -/
def DgcConfig.default : DgcConfig := {}

/-- Rounding of a non-negative value to the nearest integer, halves upwards
(`round` of `math.h` on non-negative arguments). -/
def round_nearest (x : ℚ) : Nat := (Rat.floor (x + 1 / 2)).toNat

/-- Modelled from the spec: the per-layer target count of section 4.1,
`target = max(min_gradients_comm_per_layer, round(layer_size * (1 - sparsity)))`;
the host code that computes it is not among the sources. -/
def target_count (config : DgcConfig) (layer_size : Nat) (sparsity : ℚ) : Nat :=
  max config.min_gradients_comm_per_layer (round_nearest ((layer_size : ℚ) * (1 - sparsity)))

/-- Modelled from the spec: the sample count of section 4.2,
`M = max(min_sampling_num, min_selected_samples_per_layer, round(sampling_rate * N))`,
capped at `N`; the host code that computes it is not among the sources. -/
def sample_count (config : DgcConfig) (N : Nat) : Nat :=
  min N (max (max config.min_sampling_num config.min_selected_samples_per_layer)
    (round_nearest (config.sampling_rate * (N : ℚ))))

/-! ## Reconstruction by scatter -/

/-- Modelled from the spec: the reconstruction of a dense buffer from the
`(index, value)` pairs in the slots `[0, count)` of the output buffers, "by scatter
using (index, value) pairs and zero-filling everything else" (section 8); the code
that does it is not among the sources. -/
def scatter {T : Type} (zero : T) (m : Output T) (count : Nat) : Nat → T :=
  (List.range count).foldl
    (fun dense p => Function.update dense (m.selected_indices p).toNat (m.selected_elements p))
    (fun _ => zero)

/-! ## Auxiliary notions used in the statements and proofs -/

/-- The body that replays a logged call. -/
def replay {σ : Type} (body : Nat → Nat → σ → σ) (m : σ) (c : Nat × Nat) : σ := body c.1 c.2 m

/-- The body that logs its call. -/
def log_body (thread_id i : Nat) (log : List (Nat × Nat)) : List (Nat × Nat) :=
  log ++ [(thread_id, i)]

/-- What holds of the loop variables `pos` and of the calls made so far, at each
point of a run of `S` independent threads that started at `i0 + thread_id`. -/
structure ThreadsInv (S bound i0 : Nat) (pos : Nat → Nat) (calls : List (Nat × Nat)) : Prop where
  shape : ∀ tid, tid < S → ∃ k, pos tid = i0 + tid + k * S
  nodup : (calls.map Prod.snd).Nodup
  made : ∀ c ∈ calls, c.1 < S ∧ c.2 < bound ∧ c.2 < pos c.1 ∧ ∃ k, c.2 = i0 + c.1 + k * S
  cover : ∀ tid, tid < S → ∀ k, i0 + tid + k * S < bound → i0 + tid + k * S < pos tid →
    (tid, i0 + tid + k * S) ∈ calls

/-- The specialisations of `PreDefinedValues` that `dgc.h` declares: `pad_kernel`
can only be instantiated at one of them. -/
inductive Specialised : (T : Type) → PreDefinedValues T → Prop where
  | float : Specialised float PreDefinedValues.ofFloat
  | double : Specialised double PreDefinedValues.ofDouble
  | int (ty : IntTy) : Specialised Int (PreDefinedValues.ofInt ty)

/-! ## Example inputs -/

/-- A launch with two blocks of two threads. -/
def exLaunch : Launch := { gridDim := 2, blockDim := 2 }

/-- A generator that always draws `1/2` and counts its calls. -/
def exRand (s : Nat) : ℚ × Nat := ((1 : ℚ) / 2, s + 1)

/-- The layer `0, -1, -2, ...`. -/
def exElements (i : Nat) : Int := -(i : Int)

/-- A sample buffer filled with `7`. -/
def exSampleMem : SampleMem Int Nat :=
  { samples := fun _ => 7, rand_states := fun _ => 0, stores := fun _ => 0, loads := [] }

/-- The selector inputs for the layer `5, -7, 0, 3, -9, 1`, threshold `3`, two
workers and a target of four slots. -/
def exArgs : SelectArgs Int Int :=
  { elements := fun i => [5, -7, 0, 3, -9, 1].getD i 0
    num_elements := 6
    global_num_gpus := 2
    threshold := 3
    target_num := 4 }

/-- Output buffers that hold `-1` everywhere (values and indices), counter `0`. -/
def exOutput : Output Int :=
  { selected_elements := fun _ => -1
    selected_indices := fun _ => -1
    selected_count := 0
    stores := fun _ => 0
    loads := [] }

/-- The indices that the threads of a block, served in the order `order`, read and
select in the trip that starts at `block_input_start`, in that order. -/
def round_selected {T F : Type} (ops : ElemOps T F) (a : SelectArgs T F)
    (block_input_start : Nat) (order : List Nat) : List Nat :=
  ((order.filter (fun t => decide (block_input_start + t < a.num_elements))).map
    (fun t => block_input_start + t)).filter (select_pass ops a)

/-- The indices read so far. -/
def read_indices (reads : List (Nat × Nat × Nat)) : List Nat := reads.map (fun r => r.2.2)

/-- What holds at each point of a run of `select_kernel` that started from the
buffers `m0`, of the state `st` and of the reads `reads` made so far. -/
structure SelectInv {T F : Type} (ops : ElemOps T F) (L : Launch) (a : SelectArgs T F)
    (m0 : Output T) (st : SelectState T) (reads : List (Nat × Nat × Nat)) : Prop where
  shape : ∀ b, b < L.gridDim →
    (∃ k, (st.blocks b).block_input_start = L.blockDim * (b + k * L.gridDim)) ∧
    (st.blocks b).s_block_output_count = 0
  loads : st.mem.loads = m0.loads ++ reads
  nodup : (read_indices reads).Nodup
  seen : ∀ r ∈ reads, r.1 < L.gridDim ∧ r.2.1 < L.blockDim ∧ r.2.2 < a.num_elements ∧
    r.2.2 < (st.blocks r.1).block_input_start ∧
    ∃ k, r.2.2 = L.blockDim * (r.1 + k * L.gridDim) + r.2.1
  cover : ∀ b t k, b < L.gridDim → t < L.blockDim →
    L.blockDim * (b + k * L.gridDim) + t < a.num_elements →
    L.blockDim * (b + k * L.gridDim) + t < (st.blocks b).block_input_start →
    (b, t, L.blockDim * (b + k * L.gridDim) + t) ∈ reads
  count : st.mem.selected_count =
    m0.selected_count + ((read_indices reads).filter (select_pass ops a)).length
  slots : ∀ (j x : Nat), ((read_indices reads).filter (select_pass ops a))[j]? = some x →
    m0.selected_count + j < a.target_num →
    st.mem.selected_indices (m0.selected_count + j) = (x : Int) ∧
    st.mem.selected_elements (m0.selected_count + j) = ops.div (a.elements x) a.global_num_gpus ∧
    st.mem.stores (m0.selected_count + j) = m0.stores (m0.selected_count + j) + 1
  frame : ∀ p, (p < m0.selected_count ∨ st.mem.selected_count ≤ p ∨ a.target_num ≤ p) →
    st.mem.selected_indices p = m0.selected_indices p ∧
    st.mem.selected_elements p = m0.selected_elements p ∧
    st.mem.stores p = m0.stores p

/-- The calls `(thread id, index)` that a list of reads stands for. -/
def read_calls (L : Launch) (reads : List (Nat × Nat × Nat)) : List (Nat × Nat) :=
  reads.map (fun r => (L.blockDim * r.1 + r.2.1, r.2.2))

/-- What holds at each point of a run of `select_kernel2` that started from the
buffers `m0`, of the state `st` and of the reads `reads` made so far. -/
structure Select2Inv {T F : Type} (ops : ElemOps T F) (L : Launch) (a : SelectArgs T F)
    (m0 : Output T) (st : Select2State T) (reads : List (Nat × Nat × Nat)) : Prop where
  threads : ThreadsInv (L.gridDim * L.blockDim) a.num_elements 0 st.thread_pos (read_calls L reads)
  shared : ∀ b, b < L.gridDim → (st.blocks b).s_block_output_count = 0
  loads : st.mem.loads = m0.loads ++ reads
  count : st.mem.selected_count =
    m0.selected_count + ((read_indices reads).filter (select2_pass ops a)).length
  frame : ∀ p, a.target_num ≤ p →
    st.mem.selected_indices p = m0.selected_indices p ∧
    st.mem.selected_elements p = m0.selected_elements p ∧
    st.mem.stores p = m0.stores p

/-- The layer `5, -7`, threshold `3`, one worker and a target of two slots. -/
def exArgs2 : SelectArgs Int Int :=
  { elements := fun i => [5, -7].getD i 0
    num_elements := 2
    global_num_gpus := 1
    threshold := 3
    target_num := 2 }

/-- A launch with one block of two threads. -/
def exLaunch2 : Launch := { gridDim := 1, blockDim := 2 }

/-- The layer `5, -7`, threshold `3`, one worker and a target of one slot. -/
def exArgs3 : SelectArgs Int Int :=
  { elements := fun i => [5, -7].getD i 0
    num_elements := 2
    global_num_gpus := 1
    threshold := 3
    target_num := 1 }

/-- The layer `5, -7, 0, 3, -9, 1` of `int32_t` elements with threshold `6.0f`
(exponent field `129`, mantissa field `2 ^ 22`), two workers and a target of four
slots: two elements pass, so two slots are left to the padding. -/
def exArgsSparse : SelectArgs Int float :=
  { elements := fun i => [5, -7, 0, 3, -9, 1].getD i 0
    num_elements := 6
    global_num_gpus := 2
    threshold := ⟨false, 129, 4194304⟩
    target_num := 4 }

/-- Output buffers that hold the value `7` and the index `9` everywhere, counter
`0`. -/
def exOutputStale : Output Int :=
  { selected_elements := fun _ => 7
    selected_indices := fun _ => 9
    selected_count := 0
    stores := fun _ => 0
    loads := [] }

/-! ## The two selection predicates in the words of the specification -/

/-- Selection of values whose magnitude is at least the threshold ("values exactly
at the threshold are selected"). -/
def selects_greater_or_equal {T : Type} [LinearOrderedField T] (x t : T) : Prop := t ≤ |x|

/-- Selection of values whose magnitude is above the threshold ("values exactly at
the threshold are excluded"). -/
def selects_greater {T : Type} [LinearOrderedField T] (x t : T) : Prop := t < |x|

/-- An all-zero layer of three `int32_t` elements with threshold `0.0f`, one worker
and a target of one slot. -/
def exArgsZero : SelectArgs Int float :=
  { elements := fun _ => 0
    num_elements := 3
    global_num_gpus := 1
    threshold := ⟨false, 0, 0⟩
    target_num := 1 }

/-- The layer of the single `int32_t` element `INT32_MIN = -2147483648` with
threshold `3.0f` (exponent field `128`, mantissa field `2 ^ 22`), one worker and a
target of one slot. -/
def exArgsMin : SelectArgs Int float :=
  { elements := fun _ => -2147483648
    num_elements := 1
    global_num_gpus := 1
    threshold := ⟨false, 128, 4194304⟩
    target_num := 1 }

/-- Why a block of `select_kernel2` has left its loop: the counter is above
`target_num`, or every thread of the block is past the end of the layer. -/
def Select2Stopped {T F : Type} (L : Launch) (a : SelectArgs T F) (st : Select2State T) : Prop :=
  ∀ b, b < L.gridDim → (st.blocks b).s_to_continue = false →
    a.target_num < st.mem.selected_count ∨
    ∀ t, t < L.blockDim → a.num_elements ≤ st.thread_pos (L.blockDim * b + t)

/-! # Properties -/

/-! ## Independent threads: every index is visited exactly once -/

theorem thread_calls_eq (L : Launch) (bound i0 : Nat) (sched : List Nat) :
    thread_calls L bound i0 sched =
      (run_threads L bound log_body sched { i := fun thread_id => i0 + thread_id, mem := [] }).mem := rfl

theorem strided_residue {S a b k k' : Nat} (ha : a < S) (hb : b < S)
    (h : a + k * S = b + k' * S) : a = b := by
  have h1 : (a + k * S) % S = (b + k' * S) % S := by rw [h]
  rw [Nat.add_mul_mod_self_right, Nat.add_mul_mod_self_right, Nat.mod_eq_of_lt ha,
    Nat.mod_eq_of_lt hb] at h1
  exact h1

/-- A run with any body is the replay of the calls logged by the logging run. -/
theorem foldl_sched_step_replay {σ : Type} (L : Launch) (bound : Nat) (body : Nat → Nat → σ → σ)
    (m0 : σ) (l : List Nat) :
    ∀ (pos : Nat → Nat) (log : List (Nat × Nat)),
      l.foldl (sched_step L bound body) { i := pos, mem := log.foldl (replay body) m0 } =
        { i := (l.foldl (sched_step L bound log_body) { i := pos, mem := log }).i
          mem := (l.foldl (sched_step L bound log_body) { i := pos, mem := log }).mem.foldl
            (replay body) m0 } := by
  induction l with
  | nil => intro pos log; rfl
  | cons t l ih =>
    intro pos log
    simp only [List.foldl_cons]
    by_cases ht : t < L.gridDim * L.blockDim
    · by_cases hb : pos t < bound
      · have e1 : sched_step L bound body { i := pos, mem := log.foldl (replay body) m0 } t =
            { i := Function.update pos t (pos t + L.STRIDE)
              mem := (log ++ [(t, pos t)]).foldl (replay body) m0 } := by
          simp [sched_step, thread_step, ht, hb, List.foldl_append, replay]
        have e2 : sched_step L bound log_body { i := pos, mem := log } t =
            { i := Function.update pos t (pos t + L.STRIDE), mem := log ++ [(t, pos t)] } := by
          simp [sched_step, thread_step, ht, hb, log_body]
        rw [e1, e2]
        exact ih _ _
      · have e1 : sched_step L bound body { i := pos, mem := log.foldl (replay body) m0 } t =
            { i := pos, mem := log.foldl (replay body) m0 } := by
          simp [sched_step, thread_step, ht, hb]
        have e2 : sched_step L bound log_body { i := pos, mem := log } t =
            { i := pos, mem := log } := by
          simp [sched_step, thread_step, ht, hb]
        rw [e1, e2]
        exact ih _ _
    · have e1 : sched_step L bound body { i := pos, mem := log.foldl (replay body) m0 } t =
          { i := pos, mem := log.foldl (replay body) m0 } := by
        simp [sched_step, ht]
      have e2 : sched_step L bound log_body { i := pos, mem := log } t =
          { i := pos, mem := log } := by
        simp [sched_step, ht]
      rw [e1, e2]
      exact ih _ _

/-- The memory after a run is the replay of `thread_calls`. -/
theorem run_threads_mem {σ : Type} (L : Launch) (bound i0 : Nat) (body : Nat → Nat → σ → σ)
    (sched : List Nat) (m0 : σ) :
    (run_threads L bound body sched { i := fun thread_id => i0 + thread_id, mem := m0 }).mem =
      (thread_calls L bound i0 sched).foldl (replay body) m0 := by
  have h := foldl_sched_step_replay L bound body m0 (sched ++ thread_completion L bound)
    (fun thread_id => i0 + thread_id) []
  simp only [List.foldl_nil] at h
  rw [thread_calls_eq]
  unfold run_threads
  rw [h]

/-- A thread that is inside its loop makes a call and moves on: the invariant is
kept. -/
theorem threads_inv_advance (S bound i0 : Nat) (pos : Nat → Nat) (log : List (Nat × Nat))
    (t : Nat) (ht : t < S) (hb : pos t < bound) (h : ThreadsInv S bound i0 pos log) :
    ThreadsInv S bound i0 (Function.update pos t (pos t + S)) (log ++ [(t, pos t)]) := by
  have hS : 0 < S := lt_of_le_of_lt (Nat.zero_le _) ht
  obtain ⟨k0, hk0⟩ := h.shape t ht
  have hnew : ∀ c ∈ log, c.2 ≠ pos t := by
    intro c hc heq
    obtain ⟨h1, _, h3, k, hk⟩ := h.made c hc
    have e : c.1 + k * S = t + k0 * S := by omega
    have : c.1 = t := strided_residue h1 ht e
    rw [this] at h3
    omega
  refine ⟨?_, ?_, ?_, ?_⟩
  · intro tid htid
    by_cases e : tid = t
    · subst e
      refine ⟨k0 + 1, ?_⟩
      simp only [Function.update_same]
      rw [hk0, Nat.add_mul]
      omega
    · simp only [Function.update_noteq e]
      exact h.shape tid htid
  · simp only [List.map_append, List.map_cons, List.map_nil]
    rw [List.nodup_append]
    refine ⟨h.nodup, List.nodup_singleton _, ?_⟩
    intro x hx hx'
    simp only [List.mem_singleton] at hx'
    obtain ⟨c, hc, hcx⟩ := List.mem_map.1 hx
    exact hnew c hc (by rw [hcx, hx'])
  · intro c hc
    rcases List.mem_append.1 hc with hc | hc
    · obtain ⟨h1, h2, h3, h4⟩ := h.made c hc
      refine ⟨h1, h2, ?_, h4⟩
      by_cases e : c.1 = t
      · rw [e, Function.update_same]
        rw [e] at h3
        omega
      · rw [Function.update_noteq e]
        exact h3
    · simp only [List.mem_singleton] at hc
      subst hc
      refine ⟨ht, hb, ?_, k0, hk0⟩
      simp only [Function.update_same]
      omega
  · intro tid htid k hk1 hk2
    by_cases e : tid = t
    · subst e
      simp only [Function.update_same] at hk2
      by_cases hlt : i0 + tid + k * S < pos tid
      · exact List.mem_append_left _ (h.cover tid htid k hk1 hlt)
      · have h1 : k * S < (k0 + 1) * S := by
          rw [Nat.add_mul]
          omega
        have h2 : k0 * S ≤ k * S := by omega
        have h3 : k < k0 + 1 := Nat.lt_of_mul_lt_mul_right h1
        have h4 : k0 ≤ k := Nat.le_of_mul_le_mul_right h2 hS
        have h5 : k = k0 := by omega
        subst h5
        rw [← hk0]
        exact List.mem_append_right _ (List.mem_singleton_self _)
    · simp only [Function.update_noteq e] at hk2
      exact List.mem_append_left _ (h.cover tid htid k hk1 hk2)

/-- One schedule entry keeps the invariant. -/
theorem sched_step_inv (L : Launch) (bound i0 : Nat) (pos : Nat → Nat) (log : List (Nat × Nat))
    (t : Nat) (h : ThreadsInv (L.gridDim * L.blockDim) bound i0 pos log) :
    ThreadsInv (L.gridDim * L.blockDim) bound i0
      (sched_step L bound log_body { i := pos, mem := log } t).i
      (sched_step L bound log_body { i := pos, mem := log } t).mem := by
  by_cases ht : t < L.gridDim * L.blockDim
  · by_cases hb : pos t < bound
    · have e2 : sched_step L bound log_body { i := pos, mem := log } t =
          { i := Function.update pos t (pos t + L.gridDim * L.blockDim)
            mem := log ++ [(t, pos t)] } := by
        simp [sched_step, thread_step, ht, hb, log_body, Launch.STRIDE]
      rw [e2]
      exact threads_inv_advance _ bound i0 pos log t ht hb h
    · have e2 : sched_step L bound log_body { i := pos, mem := log } t =
          { i := pos, mem := log } := by
        simp [sched_step, thread_step, ht, hb]
      rw [e2]
      exact h
  · have e2 : sched_step L bound log_body { i := pos, mem := log } t =
        { i := pos, mem := log } := by
      simp [sched_step, ht]
    rw [e2]
    exact h

/-- Any sequence of schedule entries keeps the invariant. -/
theorem foldl_sched_step_inv (L : Launch) (bound i0 : Nat) (l : List Nat) :
    ∀ (st : Grid (List (Nat × Nat))),
      ThreadsInv (L.gridDim * L.blockDim) bound i0 st.i st.mem →
      ThreadsInv (L.gridDim * L.blockDim) bound i0
        (l.foldl (sched_step L bound log_body) st).i
        (l.foldl (sched_step L bound log_body) st).mem := by
  induction l with
  | nil => intro st h; exact h
  | cons t l ih =>
    intro st h
    simp only [List.foldl_cons]
    exact ih _ (sched_step_inv L bound i0 st.i st.mem t h)

/-- A schedule entry never moves a loop variable backwards. -/
theorem sched_step_mono {σ : Type} (L : Launch) (bound : Nat) (body : Nat → Nat → σ → σ)
    (st : Grid σ) (t tid : Nat) : st.i tid ≤ (sched_step L bound body st t).i tid := by
  unfold sched_step thread_step
  split
  · split
    · dsimp only
      by_cases e : tid = t
      · subst e; simp
      · rw [Function.update_noteq e]
    · exact le_rfl
  · exact le_rfl

theorem foldl_sched_step_mono {σ : Type} (L : Launch) (bound : Nat) (body : Nat → Nat → σ → σ)
    (l : List Nat) (tid : Nat) :
    ∀ st : Grid σ, st.i tid ≤ (l.foldl (sched_step L bound body) st).i tid := by
  induction l with
  | nil => intro st; exact le_rfl
  | cons t l ih =>
    intro st
    simp only [List.foldl_cons]
    exact le_trans (sched_step_mono L bound body st t tid) (ih _)

/-- After `n` turns a thread has left its loop or advanced by `n` at least. -/
theorem foldl_replicate_progress {σ : Type} (L : Launch) (bound : Nat)
    (body : Nat → Nat → σ → σ) (tid : Nat) (htid : tid < L.gridDim * L.blockDim) (n : Nat) :
    ∀ st : Grid σ,
      bound ≤ ((List.replicate n tid).foldl (sched_step L bound body) st).i tid ∨
      st.i tid + n ≤ ((List.replicate n tid).foldl (sched_step L bound body) st).i tid := by
  induction n with
  | zero => intro st; right; simp
  | succ n ih =>
    intro st
    simp only [List.replicate_succ, List.foldl_cons]
    rcases ih (sched_step L bound body st tid) with h | h
    · exact Or.inl h
    · by_cases hb : st.i tid < bound
      · right
        have e : (sched_step L bound body st tid).i tid = st.i tid + L.gridDim * L.blockDim := by
          simp [sched_step, thread_step, htid, hb, Launch.STRIDE]
        rw [e] at h
        omega
      · left
        have := foldl_sched_step_mono L bound body (List.replicate n tid) tid
          (sched_step L bound body st tid)
        have := sched_step_mono L bound body st tid tid
        omega

/-- After the closing turns every thread has left its loop. -/
theorem foldl_completion_done {σ : Type} (L : Launch) (bound : Nat) (body : Nat → Nat → σ → σ)
    (n : Nat) (hn : n ≤ L.gridDim * L.blockDim) :
    ∀ st : Grid σ, ∀ tid, tid < n →
      bound ≤ (((List.range n).flatMap (fun t => List.replicate bound t)).foldl
        (sched_step L bound body) st).i tid := by
  induction n with
  | zero => intro st tid h; omega
  | succ n ih =>
    intro st tid htid
    rw [List.range_succ, List.flatMap_append, List.foldl_append]
    simp only [List.flatMap_cons, List.flatMap_nil, List.append_nil]
    by_cases e : tid = n
    · subst e
      rcases foldl_replicate_progress L bound body tid (by omega) bound
        (((List.range tid).flatMap (fun t => List.replicate bound t)).foldl
          (sched_step L bound body) st) with h | h
      · exact h
      · omega
    · have h1 := ih (by omega) st tid (by omega)
      exact le_trans h1 (foldl_sched_step_mono L bound body _ tid _)

theorem run_threads_done {σ : Type} (L : Launch) (bound : Nat) (body : Nat → Nat → σ → σ)
    (sched : List Nat) (st : Grid σ) (tid : Nat) (htid : tid < L.gridDim * L.blockDim) :
    bound ≤ (run_threads L bound body sched st).i tid := by
  unfold run_threads thread_completion
  rw [List.foldl_append]
  exact foldl_completion_done L bound body _ le_rfl _ tid htid

/-- The invariant holds of the calls of a complete run. -/
theorem thread_calls_inv (L : Launch) (bound i0 : Nat) (sched : List Nat) :
    ThreadsInv (L.gridDim * L.blockDim) bound i0
      (run_threads L bound log_body sched { i := fun thread_id => i0 + thread_id, mem := [] }).i
      (thread_calls L bound i0 sched) := by
  rw [thread_calls_eq]
  unfold run_threads
  apply foldl_sched_step_inv
  refine ⟨?_, ?_, ?_, ?_⟩
  · intro tid _; exact ⟨0, by simp⟩
  · simp
  · intro c hc; simp at hc
  · intro tid _ k _ h2
    dsimp only at h2
    have : 0 ≤ k * (L.gridDim * L.blockDim) := Nat.zero_le _
    omega

/-- The indices visited are exactly those of `[i0, bound)`. -/
theorem mem_thread_calls (L : Launch) (hS : 0 < L.gridDim * L.blockDim) (bound i0 : Nat)
    (sched : List Nat) (x : Nat) :
    x ∈ (thread_calls L bound i0 sched).map Prod.snd ↔ i0 ≤ x ∧ x < bound := by
  have inv := thread_calls_inv L bound i0 sched
  constructor
  · intro hx
    obtain ⟨c, hc, rfl⟩ := List.mem_map.1 hx
    obtain ⟨_, h2, _, k, hk⟩ := inv.made c hc
    exact ⟨by omega, h2⟩
  · rintro ⟨h1, h2⟩
    have hmod : (x - i0) % (L.gridDim * L.blockDim) < L.gridDim * L.blockDim := Nat.mod_lt _ hS
    have hx : x = i0 + (x - i0) % (L.gridDim * L.blockDim) +
        ((x - i0) / (L.gridDim * L.blockDim)) * (L.gridDim * L.blockDim) := by
      have := Nat.div_add_mod' (x - i0) (L.gridDim * L.blockDim)
      omega
    have hdone := run_threads_done L bound log_body sched
      { i := fun thread_id => i0 + thread_id, mem := [] } _ hmod
    have := inv.cover _ hmod ((x - i0) / (L.gridDim * L.blockDim)) (by omega) (by omega)
    rw [← hx] at this
    exact List.mem_map.2 ⟨_, this, rfl⟩

/-- Every index of `[i0, bound)` is visited exactly once. -/
theorem thread_calls_perm (L : Launch) (hS : 0 < L.gridDim * L.blockDim) (bound i0 : Nat)
    (sched : List Nat) :
    ((thread_calls L bound i0 sched).map Prod.snd).Perm (List.range' i0 (bound - i0)) := by
  rw [List.perm_ext_iff_of_nodup (thread_calls_inv L bound i0 sched).nodup (List.nodup_range' _ _)]
  intro x
  rw [mem_thread_calls L hS, List.mem_range'_1]
  omega

/-- Without threads nothing is called. -/
theorem thread_calls_nil (L : Launch) (hS : L.gridDim * L.blockDim = 0) (bound i0 : Nat)
    (sched : List Nat) : thread_calls L bound i0 sched = [] := by
  have inv := thread_calls_inv L bound i0 sched
  cases h : thread_calls L bound i0 sched with
  | nil => rfl
  | cons c l =>
    have := (inv.made c (by rw [h]; exact List.mem_cons_self _ _)).1
    omega

/-! ## `loop_kernel` -/

theorem replay_foldl_snd {σ : Type} (f : Nat → σ → σ) (calls : List (Nat × Nat)) :
    ∀ s : σ, calls.foldl (replay (fun _ i m => f i m)) s =
      (calls.map Prod.snd).foldl (fun m i => f i m) s := by
  induction calls with
  | nil => intro s; rfl
  | cons c l ih => intro s; simp only [List.foldl_cons, List.map_cons]; exact ih _

/-- C9. With at least one block and one thread per block, `loop_kernel` calls `op`
exactly once on each index of `[0, loop_size)` and on no other index, whatever the
interleaving: the calls `(lane, i)` made, which do not depend on `op`, list the
indices as a permutation of `0 .. loop_size-1`, the index set of a lane is its
residue class modulo `STRIDE` (so the sets of two lanes are disjoint), and the final
state is `op` folded over these calls. -/
theorem loop_kernel_once_per_index (L : Launch) (hG : 1 ≤ L.gridDim) (hB : 1 ≤ L.blockDim)
    (loop_size : Nat) (sched : List Nat) :
    ∃ calls : List (Nat × Nat),
      (calls.map Prod.snd).Perm (List.range loop_size) ∧
      (∀ c ∈ calls, c.1 < L.STRIDE ∧ c.2 % L.STRIDE = c.1) ∧
      ∀ (σ : Type) (op : Nat → σ → σ) (s : σ),
        loop_kernel L loop_size op sched s = (calls.map Prod.snd).foldl (fun m i => op i m) s := by
  have hS : 0 < L.gridDim * L.blockDim := Nat.mul_pos hG hB
  refine ⟨thread_calls L loop_size 0 sched, ?_, ?_, ?_⟩
  · have h := thread_calls_perm L hS loop_size 0 sched
    rw [Nat.sub_zero, ← List.range_eq_range'] at h
    exact h
  · intro c hc
    obtain ⟨h1, _, _, k, hk⟩ := (thread_calls_inv L loop_size 0 sched).made c hc
    refine ⟨h1, ?_⟩
    unfold Launch.STRIDE
    rw [hk, Nat.zero_add, Nat.add_mul_mod_self_right, Nat.mod_eq_of_lt h1]
  · intro σ op s
    unfold loop_kernel
    have h := run_threads_mem L loop_size 0 (fun _ i m => op i m) sched s
    simp only [Nat.zero_add] at h
    rw [h, replay_foldl_snd]

theorem loop_kernel_once_per_index_witness :
    ∃ calls : List (Nat × Nat),
      (calls.map Prod.snd).Perm (List.range 5) ∧
      (∀ c ∈ calls, c.1 < (Launch.mk 2 2).STRIDE ∧ c.2 % (Launch.mk 2 2).STRIDE = c.1) ∧
      ∀ (σ : Type) (op : Nat → σ → σ) (s : σ),
        loop_kernel (Launch.mk 2 2) 5 op [3, 3, 0, 1] s =
          (calls.map Prod.snd).foldl (fun m i => op i m) s :=
  loop_kernel_once_per_index (Launch.mk 2 2) (by decide) (by decide) 5 [3, 3, 0, 1]

/-! ## `pad_kernel` -/

/-- The effect of a sequence of padding stores. -/
theorem foldl_pad_body {T : Type} (P : PreDefinedValues T) (IndexT SizeT : IntTy) (l : List Nat) :
    ∀ m : Output T,
      (∀ p, (l.foldl (fun m i => pad_body P IndexT SizeT i m) m).selected_elements p =
        if p ∈ l then P.InvalidValue else m.selected_elements p) ∧
      (∀ p, (l.foldl (fun m i => pad_body P IndexT SizeT i m) m).selected_indices p =
        if p ∈ l then IndexT.conv SizeT.InvalidValue else m.selected_indices p) ∧
      (∀ p, (l.foldl (fun m i => pad_body P IndexT SizeT i m) m).stores p =
        m.stores p + l.count p) ∧
      (l.foldl (fun m i => pad_body P IndexT SizeT i m) m).selected_count = m.selected_count ∧
      (l.foldl (fun m i => pad_body P IndexT SizeT i m) m).loads = m.loads := by
  induction l with
  | nil => intro m; simp
  | cons a l ih =>
    intro m
    simp only [List.foldl_cons]
    obtain ⟨h1, h2, h3, h4, h5⟩ := ih (pad_body P IndexT SizeT a m)
    refine ⟨?_, ?_, ?_, ?_, ?_⟩
    · intro p
      rw [h1]
      by_cases hp : p ∈ l
      · simp [hp]
      · by_cases e : p = a
        · subst e; simp [hp, pad_body, Output.store]
        · simp [hp, e, pad_body, Output.store, Function.update_noteq e]
    · intro p
      rw [h2]
      by_cases hp : p ∈ l
      · simp [hp]
      · by_cases e : p = a
        · subst e; simp [hp, pad_body, Output.store]
        · simp [hp, e, pad_body, Output.store, Function.update_noteq e]
    · intro p
      rw [h3]
      by_cases e : p = a
      · subst e; simp [pad_body, Output.store]; omega
      · have e' : a ≠ p := fun h => e h.symm
        simp [pad_body, Output.store, Function.update_noteq e, List.count_cons, e']
    · rw [h4]; rfl
    · rw [h5]; rfl

/-- The conversion to `SizeT` never raises the counter. -/
theorem pad_start_le (SizeT : IntTy) (c : Nat) : pad_start SizeT c ≤ c := by
  unfold pad_start IntTy.conv
  cases SizeT <;> simp only [IntTy.bits, IntTy.signed] <;> split <;> omega

/-- The run of `pad_kernel` as a sequence of padding stores. -/
theorem pad_kernel_eq {T : Type} (P : PreDefinedValues T) (IndexT SizeT : IntTy) (L : Launch)
    (target_num : Nat) (sched : List Nat) (m : Output T) :
    pad_kernel P IndexT SizeT L target_num sched m =
      ((thread_calls L target_num (pad_start SizeT m.selected_count) sched).map Prod.snd).foldl
        (fun m i => pad_body P IndexT SizeT i m) m := by
  unfold pad_kernel
  rw [run_threads_mem, replay_foldl_snd]

/-- What `pad_kernel` leaves in memory, for a launch with at least one thread. -/
theorem pad_kernel_spec {T : Type} (P : PreDefinedValues T) (IndexT SizeT : IntTy) (L : Launch)
    (hS : 0 < L.gridDim * L.blockDim) (target_num : Nat) (sched : List Nat) (m : Output T) :
    (∀ p, (pad_kernel P IndexT SizeT L target_num sched m).selected_elements p =
      if pad_start SizeT m.selected_count ≤ p ∧ p < target_num then P.InvalidValue
      else m.selected_elements p) ∧
    (∀ p, (pad_kernel P IndexT SizeT L target_num sched m).selected_indices p =
      if pad_start SizeT m.selected_count ≤ p ∧ p < target_num then IndexT.conv SizeT.InvalidValue
      else m.selected_indices p) ∧
    (∀ p, (pad_kernel P IndexT SizeT L target_num sched m).stores p =
      m.stores p + if pad_start SizeT m.selected_count ≤ p ∧ p < target_num then 1 else 0) ∧
    (pad_kernel P IndexT SizeT L target_num sched m).selected_count = m.selected_count ∧
    (pad_kernel P IndexT SizeT L target_num sched m).loads = m.loads := by
  rw [pad_kernel_eq]
  obtain ⟨h1, h2, h3, h4, h5⟩ := foldl_pad_body P IndexT SizeT
    ((thread_calls L target_num (pad_start SizeT m.selected_count) sched).map Prod.snd) m
  have hm := mem_thread_calls L hS target_num (pad_start SizeT m.selected_count) sched
  have hnd := (thread_calls_inv L target_num (pad_start SizeT m.selected_count) sched).nodup
  refine ⟨?_, ?_, ?_, h4, h5⟩
  · intro p; rw [h1]; simp only [hm]
  · intro p; rw [h2]; simp only [hm]
  · intro p
    rw [h3]
    by_cases hp : pad_start SizeT m.selected_count ≤ p ∧ p < target_num
    · rw [if_pos hp, List.count_eq_one_of_mem hnd ((hm p).2 hp)]
    · rw [if_neg hp, List.count_eq_zero_of_not_mem (fun h => hp ((hm p).1 h))]

/-- Without threads `pad_kernel` does nothing. -/
theorem pad_kernel_no_thread {T : Type} (P : PreDefinedValues T) (IndexT SizeT : IntTy)
    (L : Launch) (hS : L.gridDim * L.blockDim = 0) (target_num : Nat) (sched : List Nat)
    (m : Output T) : pad_kernel P IndexT SizeT L target_num sched m = m := by
  rw [pad_kernel_eq, thread_calls_nil L hS]
  rfl

theorem isValid_InvalidValue {T : Type} (P : PreDefinedValues T) (hP : Specialised T P) :
    isValid P P.InvalidValue = false := by
  cases hP with
  | float => decide
  | double => decide
  | int ty => simp [isValid, PreDefinedValues.ofInt]

/-- C6. For a launch with at least one block and one thread per block, a counter
value `c = selected_count[0]` and any previous contents, after `pad_kernel` every
slot `i` with `c ≤ i < target_num` of `selected_elements` holds
`PreDefinedValues<T>::InvalidValue`, and `isValid` is false on it, for each of the
types `T` that have a specialisation. -/
theorem pad_kernel_fills_values {T : Type} (P : PreDefinedValues T) (hP : Specialised T P)
    (IndexT SizeT : IntTy) (L : Launch) (hG : 1 ≤ L.gridDim) (hB : 1 ≤ L.blockDim)
    (target_num : Nat) (sched : List Nat) (m : Output T) (i : Nat)
    (hlo : m.selected_count ≤ i) (hhi : i < target_num) :
    (pad_kernel P IndexT SizeT L target_num sched m).selected_elements i = P.InvalidValue ∧
    isValid P ((pad_kernel P IndexT SizeT L target_num sched m).selected_elements i) = false := by
  have h := (pad_kernel_spec P IndexT SizeT L (Nat.mul_pos hG hB) target_num sched m).1 i
  rw [if_pos ⟨le_trans (pad_start_le SizeT m.selected_count) hlo, hhi⟩] at h
  rw [h]
  exact ⟨rfl, isValid_InvalidValue P hP⟩

theorem pad_kernel_fills_values_witness :
    (pad_kernel PreDefinedValues.ofFloat IntTy.uint32 IntTy.uint64 (Launch.mk 2 2) 5 [3, 3, 0, 1]
        (Output.mk (fun _ => (⟨false, 127, 0⟩ : float)) (fun _ => 9) 2 (fun _ => 0) [])).selected_elements 4
      = NAN ∧
    isValid PreDefinedValues.ofFloat
      ((pad_kernel PreDefinedValues.ofFloat IntTy.uint32 IntTy.uint64 (Launch.mk 2 2) 5 [3, 3, 0, 1]
        (Output.mk (fun _ => (⟨false, 127, 0⟩ : float)) (fun _ => 9) 2 (fun _ => 0) [])).selected_elements 4)
      = false :=
  pad_kernel_fills_values PreDefinedValues.ofFloat Specialised.float IntTy.uint32 IntTy.uint64
    (Launch.mk 2 2) (by decide) (by decide) 5 [3, 3, 0, 1]
    (Output.mk (fun _ => (⟨false, 127, 0⟩ : float)) (fun _ => 9) 2 (fun _ => 0) []) 4
    (by decide) (by decide)

/-- C8. Padding is idempotent: for every state, target and launch configuration,
and whatever the two interleavings, a second run of `pad_kernel` leaves the value
array, the index array and the counter exactly as the first run left them. -/
theorem pad_kernel_idempotent {T : Type} (P : PreDefinedValues T) (IndexT SizeT : IntTy)
    (L : Launch) (target_num : Nat) (sched1 sched2 : List Nat) (m : Output T) :
    (pad_kernel P IndexT SizeT L target_num sched2
        (pad_kernel P IndexT SizeT L target_num sched1 m)).selected_elements =
      (pad_kernel P IndexT SizeT L target_num sched1 m).selected_elements ∧
    (pad_kernel P IndexT SizeT L target_num sched2
        (pad_kernel P IndexT SizeT L target_num sched1 m)).selected_indices =
      (pad_kernel P IndexT SizeT L target_num sched1 m).selected_indices ∧
    (pad_kernel P IndexT SizeT L target_num sched2
        (pad_kernel P IndexT SizeT L target_num sched1 m)).selected_count =
      (pad_kernel P IndexT SizeT L target_num sched1 m).selected_count := by
  rcases Nat.eq_zero_or_pos (L.gridDim * L.blockDim) with hS | hS
  · rw [pad_kernel_no_thread P IndexT SizeT L hS, pad_kernel_no_thread P IndexT SizeT L hS]
    exact ⟨rfl, rfl, rfl⟩
  · obtain ⟨a1, a2, _, a4, _⟩ := pad_kernel_spec P IndexT SizeT L hS target_num sched1 m
    obtain ⟨b1, b2, _, b4, _⟩ := pad_kernel_spec P IndexT SizeT L hS target_num sched2
      (pad_kernel P IndexT SizeT L target_num sched1 m)
    refine ⟨?_, ?_, b4⟩
    · funext p
      rw [b1, a4, a1]
      split <;> rfl
    · funext p
      rw [b2, a4, a2]
      split <;> rfl

/-! ## `sample_kernel` -/

/-- A draw of at most `1` gives a position inside the layer. -/
theorem sample_pos_lt (u : ℚ) (num_elements : Nat) (hN : 1 ≤ num_elements)
    (h1 : u ≤ 1) : sample_pos u num_elements < num_elements := by
  have hN0 : (0 : ℚ) ≤ (num_elements : ℚ) := Nat.cast_nonneg _
  have hle : Rat.floor (u * (num_elements : ℚ)) ≤ (num_elements : Int) := by
    have h2 : ((Rat.floor (u * (num_elements : ℚ)) : Int) : ℚ) ≤ u * (num_elements : ℚ) :=
      Rat.le_floor.1 le_rfl
    have h3 : u * (num_elements : ℚ) ≤ (num_elements : ℚ) := by
      calc u * (num_elements : ℚ) ≤ 1 * (num_elements : ℚ) :=
            mul_le_mul_of_nonneg_right h1 hN0
        _ = (num_elements : ℚ) := one_mul _
    have h4 : ((Rat.floor (u * (num_elements : ℚ)) : Int) : ℚ) ≤ ((num_elements : Int) : ℚ) := by
      rw [Int.cast_natCast]
      exact le_trans h2 h3
    exact Int.cast_le.1 h4
  unfold sample_pos
  dsimp only
  split <;> omega

/-- The effect of a sequence of calls of the body of `sample_kernel`. -/
theorem foldl_sample_body {T F R : Type} (ops : ElemOps T F) (curand_uniform : R → ℚ × R)
    (elements : Nat → T) (num_elements : Nat) (hN : 1 ≤ num_elements)
    (hdraw : ∀ s, 0 < (curand_uniform s).1 ∧ (curand_uniform s).1 ≤ 1)
    (l : List (Nat × Nat)) :
    ∀ m : SampleMem T R,
      (∃ reads, (l.foldl (replay (sample_body ops curand_uniform elements num_elements)) m).loads =
          m.loads ++ reads ∧ reads.length = l.length ∧ ∀ pos ∈ reads, pos < num_elements) ∧
      (∀ p, (l.foldl (replay (sample_body ops curand_uniform elements num_elements)) m).stores p =
          m.stores p + (l.map Prod.snd).count p) ∧
      (∀ p, p ∉ l.map Prod.snd →
        (l.foldl (replay (sample_body ops curand_uniform elements num_elements)) m).samples p =
          m.samples p) ∧
      ((l.map Prod.snd).Nodup → ∀ p, p ∈ l.map Prod.snd → ∃ pos, pos < num_elements ∧
        (l.foldl (replay (sample_body ops curand_uniform elements num_elements)) m).samples p =
          ops.abs (elements pos)) := by
  induction l with
  | nil =>
    intro m
    refine ⟨⟨[], by simp, rfl, by simp⟩, by simp, by simp, by simp⟩
  | cons c l ih =>
    intro m
    simp only [List.foldl_cons]
    obtain ⟨⟨reads, hr1, hr2, hr3⟩, h2, h3, h4⟩ :=
      ih (replay (sample_body ops curand_uniform elements num_elements) m c)
    have hpos := sample_pos_lt (curand_uniform (m.rand_states c.1)).1 num_elements hN
      (hdraw _).2
    refine ⟨⟨sample_pos (curand_uniform (m.rand_states c.1)).1 num_elements :: reads, ?_, ?_, ?_⟩,
      ?_, ?_, ?_⟩
    · rw [hr1]
      simp [replay, sample_body]
    · simp [hr2]
    · intro pos hp
      rcases List.mem_cons.1 hp with hp | hp
      · rw [hp]; exact hpos
      · exact hr3 pos hp
    · intro p
      rw [h2]
      by_cases e : p = c.2
      · subst e; simp [replay, sample_body]; omega
      · have e' : c.2 ≠ p := fun h => e h.symm
        simp [replay, sample_body, Function.update_noteq e, List.count_cons, e']
    · intro p hp
      simp only [List.map_cons, List.mem_cons, not_or] at hp
      rw [h3 p hp.2]
      simp [replay, sample_body, Function.update_noteq hp.1]
    · intro hnd p hp
      simp only [List.map_cons, List.nodup_cons] at hnd
      simp only [List.map_cons, List.mem_cons] at hp
      by_cases hpl : p ∈ l.map Prod.snd
      · exact h4 hnd.2 p hpl
      · rcases hp with hp | hp
        · refine ⟨sample_pos (curand_uniform (m.rand_states c.1)).1 num_elements, hpos, ?_⟩
          rw [h3 p hpl, hp]
          simp [replay, sample_body]
        · exact absurd hp hpl

/-- What `sample_kernel` leaves in memory. -/
theorem sample_kernel_spec {T F R : Type} (ops : ElemOps T F) (curand_uniform : R → ℚ × R)
    (L : Launch) (hG : 1 ≤ L.gridDim) (hB : 1 ≤ L.blockDim)
    (elements : Nat → T) (num_elements num_samples : Nat) (hN : 1 ≤ num_elements)
    (hdraw : ∀ s, 0 < (curand_uniform s).1 ∧ (curand_uniform s).1 ≤ 1)
    (sched : List Nat) (m : SampleMem T R) :
    (∃ reads,
      (sample_kernel ops curand_uniform L elements num_elements num_samples sched m).loads =
        m.loads ++ reads ∧ reads.length = num_samples ∧ ∀ pos ∈ reads, pos < num_elements) ∧
    (∀ i, i < num_samples →
      (sample_kernel ops curand_uniform L elements num_elements num_samples sched m).stores i =
        m.stores i + 1 ∧
      ∃ pos, pos < num_elements ∧
        (sample_kernel ops curand_uniform L elements num_elements num_samples sched m).samples i =
          ops.abs (elements pos)) ∧
    (∀ i, num_samples ≤ i →
      (sample_kernel ops curand_uniform L elements num_elements num_samples sched m).stores i =
        m.stores i ∧
      (sample_kernel ops curand_uniform L elements num_elements num_samples sched m).samples i =
        m.samples i) := by
  have hS : 0 < L.gridDim * L.blockDim := Nat.mul_pos hG hB
  have hk : sample_kernel ops curand_uniform L elements num_elements num_samples sched m =
      (thread_calls L num_samples 0 sched).foldl
        (replay (sample_body ops curand_uniform elements num_elements)) m := by
    unfold sample_kernel
    have h := run_threads_mem L num_samples 0
      (sample_body ops curand_uniform elements num_elements) sched m
    simp only [Nat.zero_add] at h
    exact h
  rw [hk]
  obtain ⟨⟨reads, hr1, hr2, hr3⟩, h2, h3, h4⟩ := foldl_sample_body ops curand_uniform elements
    num_elements hN hdraw (thread_calls L num_samples 0 sched) m
  have hm := mem_thread_calls L hS num_samples 0 sched
  have hnd := (thread_calls_inv L num_samples 0 sched).nodup
  have hperm := thread_calls_perm L hS num_samples 0 sched
  refine ⟨⟨reads, hr1, ?_, hr3⟩, ?_, ?_⟩
  · rw [hr2, ← List.length_map (thread_calls L num_samples 0 sched) Prod.snd, hperm.length_eq]
    simp
  · intro i hi
    have hmem : i ∈ (thread_calls L num_samples 0 sched).map Prod.snd :=
      (hm i).2 ⟨Nat.zero_le _, hi⟩
    exact ⟨by rw [h2, List.count_eq_one_of_mem hnd hmem], h4 hnd i hmem⟩
  · intro i hi
    have hmem : i ∉ (thread_calls L num_samples 0 sched).map Prod.snd :=
      fun h => absurd ((hm i).1 h).2 (by omega)
    exact ⟨by rw [h2, List.count_eq_zero_of_not_mem hmem]; rfl, h3 i hmem⟩

/-- In ordered arithmetic with an exact `abs` the samples are non-negative. -/
theorem sample_kernel_nonneg {T R : Type} [LinearOrderedField T] (div : T → Int → T)
    (curand_uniform : R → ℚ × R)
    (L : Launch) (hG : 1 ≤ L.gridDim) (hB : 1 ≤ L.blockDim)
    (elements : Nat → T) (num_elements num_samples : Nat) (hN : 1 ≤ num_elements)
    (hdraw : ∀ s, 0 < (curand_uniform s).1 ∧ (curand_uniform s).1 ≤ 1)
    (sched : List Nat) (m : SampleMem T R) (i : Nat) (hi : i < num_samples) :
    0 ≤ (sample_kernel (ElemOps.ordered T div) curand_uniform L elements num_elements num_samples
      sched m).samples i := by
  obtain ⟨pos, _, hval⟩ := ((sample_kernel_spec (ElemOps.ordered T div) curand_uniform L hG hB
    elements num_elements num_samples hN hdraw sched m).2.1 i hi).2
  rw [hval]
  exact abs_nonneg _

/-- C10. For a layer of `num_elements ≥ 1` elements, any `num_samples`, a launch with
at least one block and one thread per block, any interleaving and a generator whose
draws lie in `(0, 1]`: every position read from `elements` is in
`[0, num_elements)` and exactly `num_samples` reads are made; every slot
`i < num_samples` is stored to exactly once and holds `abs(elements[pos])` for a
position `pos < num_elements`, so that whatever holds of all values of `abs`
(non-negativity, in ordered arithmetic) holds of the slot; slots at positions
`≥ num_samples` are not stored to and keep their contents. -/
theorem sample_kernel_in_range {T F R : Type} (ops : ElemOps T F) (curand_uniform : R → ℚ × R)
    (L : Launch) (hG : 1 ≤ L.gridDim) (hB : 1 ≤ L.blockDim)
    (elements : Nat → T) (num_elements num_samples : Nat) (hN : 1 ≤ num_elements)
    (hdraw : ∀ s, 0 < (curand_uniform s).1 ∧ (curand_uniform s).1 ≤ 1)
    (sched : List Nat) (m : SampleMem T R) :
    (∃ reads,
      (sample_kernel ops curand_uniform L elements num_elements num_samples sched m).loads =
        m.loads ++ reads ∧ reads.length = num_samples ∧ ∀ pos ∈ reads, pos < num_elements) ∧
    (∀ i, i < num_samples →
      (sample_kernel ops curand_uniform L elements num_elements num_samples sched m).stores i =
        m.stores i + 1 ∧
      (∃ pos, pos < num_elements ∧
        (sample_kernel ops curand_uniform L elements num_elements num_samples sched m).samples i =
          ops.abs (elements pos)) ∧
      ∀ nonneg : T → Prop, (∀ x, nonneg (ops.abs x)) →
        nonneg ((sample_kernel ops curand_uniform L elements num_elements num_samples
          sched m).samples i)) ∧
    (∀ i, num_samples ≤ i →
      (sample_kernel ops curand_uniform L elements num_elements num_samples sched m).stores i =
        m.stores i ∧
      (sample_kernel ops curand_uniform L elements num_elements num_samples sched m).samples i =
        m.samples i) := by
  obtain ⟨h1, h2, h3⟩ := sample_kernel_spec ops curand_uniform L hG hB elements num_elements
    num_samples hN hdraw sched m
  refine ⟨h1, ?_, h3⟩
  intro i hi
  obtain ⟨hs, pos, hpos, hval⟩ := h2 i hi
  refine ⟨hs, ⟨pos, hpos, hval⟩, ?_⟩
  intro nonneg hnn
  rw [hval]
  exact hnn _

theorem sample_kernel_in_range_witness :
    (∃ reads,
      (sample_kernel ElemOps.int exRand exLaunch exElements 6 5 [3, 0, 3] exSampleMem).loads =
        exSampleMem.loads ++ reads ∧ reads.length = 5 ∧ ∀ pos ∈ reads, pos < 6) ∧
    (∀ i, i < 5 →
      (sample_kernel ElemOps.int exRand exLaunch exElements 6 5 [3, 0, 3] exSampleMem).stores i =
        exSampleMem.stores i + 1 ∧
      (∃ pos, pos < 6 ∧
        (sample_kernel ElemOps.int exRand exLaunch exElements 6 5 [3, 0, 3] exSampleMem).samples i =
          ElemOps.int.abs (exElements pos)) ∧
      ∀ nonneg : Int → Prop, (∀ x, nonneg (ElemOps.int.abs x)) →
        nonneg ((sample_kernel ElemOps.int exRand exLaunch exElements 6 5 [3, 0, 3]
          exSampleMem).samples i)) ∧
    (∀ i, 5 ≤ i →
      (sample_kernel ElemOps.int exRand exLaunch exElements 6 5 [3, 0, 3] exSampleMem).stores i =
        exSampleMem.stores i ∧
      (sample_kernel ElemOps.int exRand exLaunch exElements 6 5 [3, 0, 3] exSampleMem).samples i =
        exSampleMem.samples i) :=
  sample_kernel_in_range ElemOps.int exRand exLaunch (by decide) (by decide) exElements 6 5
    (by decide) (fun _ => ⟨by norm_num [exRand], by norm_num [exRand]⟩) [3, 0, 3] exSampleMem

/-! ## `select_kernel` -/

theorem threadOrder_nodup (blockDim : Nat) (order : List Nat) :
    (threadOrder blockDim order).Nodup := by
  unfold threadOrder
  rw [List.nodup_append]
  refine ⟨List.nodup_dedup _, (List.nodup_range _).filter _, ?_⟩
  intro t h1 h2
  rw [List.mem_dedup, List.mem_filter] at h1
  rw [List.mem_filter] at h2
  simp [h1.1] at h2

theorem mem_threadOrder (blockDim : Nat) (order : List Nat) (t : Nat) :
    t ∈ threadOrder blockDim order ↔ t < blockDim := by
  unfold threadOrder
  rw [List.mem_append, List.mem_dedup, List.mem_filter, List.mem_filter, List.mem_range]
  constructor
  · rintro (⟨_, h⟩ | ⟨h, _⟩)
    · simpa using h
    · exact h
  · intro h
    by_cases ho : t ∈ order
    · exact Or.inl ⟨ho, by simpa using h⟩
    · exact Or.inr ⟨h, by simpa using ho⟩

theorem round_selected_nil {T F : Type} (ops : ElemOps T F) (a : SelectArgs T F) (start : Nat) :
    round_selected ops a start [] = [] := rfl

theorem round_selected_cons {T F : Type} (ops : ElemOps T F) (a : SelectArgs T F)
    (start t : Nat) (ts : List Nat) :
    round_selected ops a start (t :: ts) =
      if start + t < a.num_elements ∧ select_pass ops a (start + t) = true then
        (start + t) :: round_selected ops a start ts
      else round_selected ops a start ts := by
  unfold round_selected
  by_cases h1 : start + t < a.num_elements
  · by_cases h2 : select_pass ops a (start + t) = true
    · simp [List.filter_cons, h1, h2]
    · simp [List.filter_cons, h1, h2]
  · simp [List.filter_cons, h1]

/-- The value of `s_block_output_count` at the barrier. -/
theorem select_scan_all_count {T F : Type} (ops : ElemOps T F) (a : SelectArgs T F)
    (start : Nat) (order : List Nat) :
    ∀ c, (select_scan_all ops a start order c).2 = c + (round_selected ops a start order).length := by
  induction order with
  | nil => intro c; rfl
  | cons t ts ih =>
    intro c
    rw [round_selected_cons]
    simp only [select_scan_all]
    rw [ih]
    unfold select_scan
    by_cases h1 : start + t < a.num_elements
    · by_cases h2 : select_pass ops a (start + t) = true
      · have h2' : (!(ops.lt (ops.abs (a.elements (start + t))) a.threshold)) = true := h2
        simp [h1, h2, h2']
        omega
      · have h2' : ¬ (!(ops.lt (ops.abs (a.elements (start + t))) a.threshold)) = true := h2
        simp [h1, h2, h2']
    · simp [h1]

/-- The reads made in one trip. -/
theorem select_loads_scan_all {T F : Type} (ops : ElemOps T F) (a : SelectArgs T F)
    (b start : Nat) (order : List Nat) :
    ∀ c, select_loads b a.num_elements (select_scan_all ops a start order c).1 =
      (order.filter (fun t => decide (start + t < a.num_elements))).map
        (fun t => (b, t, start + t)) := by
  induction order with
  | nil => intro c; rfl
  | cons t ts ih =>
    intro c
    simp only [select_scan_all]
    have ih' := ih (select_scan ops a start t c).2
    unfold select_loads at ih' ⊢
    rw [List.filter_cons, List.filter_cons]
    have hin : (select_scan ops a start t c).1.thread_input = start + t := by
      unfold select_scan; dsimp only; split
      · split <;> rfl
      · rfl
    have hid : (select_scan ops a start t c).1.threadIdx = t := by
      unfold select_scan; dsimp only; split
      · split <;> rfl
      · rfl
    rw [hin]
    by_cases h1 : start + t < a.num_elements
    · simp only [h1, decide_True, if_true, List.map_cons, hin, hid]
      rw [ih']
    · simp only [h1, decide_False, Bool.false_eq_true, if_false]
      rw [ih']

theorem store_other {T : Type} (m : Output T) (q : Nat) (v : T) (ix : Int) (p : Nat) (h : p ≠ q) :
    (m.store q v ix).selected_indices p = m.selected_indices p ∧
    (m.store q v ix).selected_elements p = m.selected_elements p ∧
    (m.store q v ix).stores p = m.stores p := by
  simp [Output.store, Function.update_noteq h]

theorem store_same {T : Type} (m : Output T) (q : Nat) (v : T) (ix : Int) :
    (m.store q v ix).selected_indices q = ix ∧
    (m.store q v ix).selected_elements q = v ∧
    (m.store q v ix).stores q = m.stores q + 1 := by
  simp [Output.store]

theorem select_store_other {T F : Type} (ops : ElemOps T F) (a : SelectArgs T F) (g : Nat)
    (m : Output T) (th : SelectThread T) (p : Nat) (h : p ≠ th.thread_output + g) :
    (select_store ops a g m th).selected_indices p = m.selected_indices p ∧
    (select_store ops a g m th).selected_elements p = m.selected_elements p ∧
    (select_store ops a g m th).stores p = m.stores p := by
  unfold select_store
  dsimp only
  split
  · exact store_other _ _ _ _ _ h
  · exact ⟨rfl, rfl, rfl⟩

theorem select_store_guard {T F : Type} (ops : ElemOps T F) (a : SelectArgs T F) (g : Nat)
    (m : Output T) (th : SelectThread T)
    (h : th.thread_to_select = false ∨ a.target_num ≤ th.thread_output + g) :
    select_store ops a g m th = m := by
  unfold select_store
  dsimp only
  rw [if_neg]
  rcases h with h | h
  · simp [h]
  · simp only [Bool.and_eq_true, decide_eq_true_eq, not_and]
    intro _
    omega

theorem select_store_hit {T F : Type} (ops : ElemOps T F) (a : SelectArgs T F) (g : Nat)
    (m : Output T) (th : SelectThread T) (h1 : th.thread_to_select = true)
    (h2 : th.thread_output + g < a.target_num) :
    (select_store ops a g m th).selected_indices (th.thread_output + g) = (th.thread_input : Int) ∧
    (select_store ops a g m th).selected_elements (th.thread_output + g) =
      ops.div th.element a.global_num_gpus ∧
    (select_store ops a g m th).stores (th.thread_output + g) =
      m.stores (th.thread_output + g) + 1 := by
  unfold select_store
  dsimp only
  rw [if_pos (by simp [h1, h2])]
  exact store_same _ _ _ _

theorem select_store_count {T F : Type} (ops : ElemOps T F) (a : SelectArgs T F) (g : Nat)
    (m : Output T) (th : SelectThread T) :
    (select_store ops a g m th).selected_count = m.selected_count ∧
    (select_store ops a g m th).loads = m.loads := by
  unfold select_store
  dsimp only
  split
  · exact ⟨rfl, rfl⟩
  · exact ⟨rfl, rfl⟩

/-- The stores of one trip (lines 88-93), for threads that took their slots from
the value `c` of `s_block_output_count` on and a block start `g`: the `j`-th
selected index lands in slot `c + j + g` if that is below `target_num`, and no
other slot changes. -/
theorem select_store_scan_all {T F : Type} (ops : ElemOps T F) (a : SelectArgs T F)
    (start g : Nat) (order : List Nat) :
    ∀ (c : Nat) (m r : Output T),
      r = (select_scan_all ops a start order c).1.foldl (select_store ops a g) m →
      (∀ (j x : Nat), (round_selected ops a start order)[j]? = some x →
        c + j + g < a.target_num →
        r.selected_indices (c + j + g) = (x : Int) ∧
        r.selected_elements (c + j + g) = ops.div (a.elements x) a.global_num_gpus ∧
        r.stores (c + j + g) = m.stores (c + j + g) + 1) ∧
      (∀ p, (p < c + g ∨ c + (round_selected ops a start order).length + g ≤ p ∨
          a.target_num ≤ p) →
        r.selected_indices p = m.selected_indices p ∧
        r.selected_elements p = m.selected_elements p ∧
        r.stores p = m.stores p) ∧
      r.selected_count = m.selected_count ∧ r.loads = m.loads := by
  induction order with
  | nil =>
    intro c m r hr
    subst hr
    simp [select_scan_all, round_selected_nil]
  | cons t ts ih =>
    intro c m r hr
    simp only [select_scan_all, List.foldl_cons] at hr
    rw [round_selected_cons]
    obtain ⟨ih1, ih2, ih3, ih4⟩ := ih _ _ r hr
    have hcl := select_store_count ops a g m (select_scan ops a start t c).1
    by_cases hsel : start + t < a.num_elements ∧ select_pass ops a (start + t) = true
    · have h2' : (!(ops.lt (ops.abs (a.elements (start + t))) a.threshold)) = true := hsel.2
      have hscan : select_scan ops a start t c =
          ({ threadIdx := t, thread_input := start + t, thread_output := c,
             thread_to_select := true, element := a.elements (start + t) }, c + 1) := by
        unfold select_scan
        simp [hsel.1, h2']
      rw [hscan] at ih1 ih2 ih3 ih4 hcl
      dsimp only at ih1 ih2 ih3 ih4 hcl
      rw [if_pos hsel]
      refine ⟨?_, ?_, ?_, ?_⟩
      · intro j x hj hlt
        cases j with
        | zero =>
          simp only [List.getElem?_cons_zero, Option.some.injEq] at hj
          subst hj
          simp only [Nat.add_zero] at hlt ⊢
          obtain ⟨f1, f2, f3⟩ := ih2 (c + g) (Or.inl (by omega))
          rw [f1, f2, f3]
          exact select_store_hit ops a g m _ rfl hlt
        | succ j =>
          simp only [List.getElem?_cons_succ] at hj
          have e : c + (j + 1) + g = c + 1 + j + g := by omega
          rw [e] at hlt ⊢
          obtain ⟨f1, f2, f3⟩ := ih1 j x hj hlt
          refine ⟨f1, f2, ?_⟩
          rw [f3, (select_store_other ops a g m _ (c + 1 + j + g) (by dsimp only; omega)).2.2]
      · intro p hp
        simp only [List.length_cons] at hp
        obtain ⟨f1, f2, f3⟩ := ih2 p (by omega)
        rw [f1, f2, f3]
        by_cases hpe : p = c + g
        · subst hpe
          rw [select_store_guard ops a g m _ (Or.inr (by dsimp only; omega))]
          exact ⟨rfl, rfl, rfl⟩
        · exact select_store_other ops a g m _ p hpe
      · rw [ih3, hcl.1]
      · rw [ih4, hcl.2]
    · have hscan : (select_scan ops a start t c).2 = c ∧
          (select_scan ops a start t c).1.thread_to_select = false := by
        unfold select_scan
        by_cases h1 : start + t < a.num_elements
        · have h2 : ¬ (!(ops.lt (ops.abs (a.elements (start + t))) a.threshold)) = true :=
            fun h => hsel ⟨h1, h⟩
          simp [h1, h2]
        · simp [h1]
      rw [hscan.1] at ih1 ih2
      rw [select_store_guard ops a g m _ (Or.inl hscan.2)] at ih1 ih2 ih3 ih4
      rw [if_neg hsel]
      exact ⟨ih1, ih2, ih3, ih4⟩

theorem chunk_eq {B x y t t' : Nat} (ht : t < B) (ht' : t' < B) (h : B * x + t = B * y + t') :
    x = y ∧ t = t' := by
  have hB : 0 < B := by omega
  have h1 : (B * x + t) / B = (B * y + t') / B := by rw [h]
  rw [Nat.mul_add_div hB, Nat.mul_add_div hB, Nat.div_eq_of_lt ht, Nat.div_eq_of_lt ht'] at h1
  have h2 : x = y := by omega
  subst h2
  exact ⟨rfl, by omega⟩

theorem chunk_le {B x y t : Nat} (ht : t < B) (h : B * x ≤ B * y + t) : x ≤ y := by
  by_contra hc
  have h1 : y + 1 ≤ x := by omega
  have h2 : B * (y + 1) ≤ B * x := Nat.mul_le_mul_left B h1
  rw [Nat.mul_add, Nat.mul_one] at h2
  omega

theorem chunk_lt {B x y t : Nat} (h : B * x + t < B * y) : x < y := by
  by_contra hc
  have h1 : y ≤ x := by omega
  have h2 : B * y ≤ B * x := Nat.mul_le_mul_left B h1
  omega

/-- The state after a trip of a block whose loop condition holds and whose
`s_block_output_count` is `0` on entry. -/
theorem select_round_pos {T F : Type} (ops : ElemOps T F) (L : Launch) (a : SelectArgs T F)
    (b : Nat) (order : List Nat) (st : SelectState T)
    (hlt : (st.blocks b).block_input_start < a.num_elements)
    (hc0 : (st.blocks b).s_block_output_count = 0) :
    ∃ g, (round_selected ops a (st.blocks b).block_input_start order ≠ [] →
        g = st.mem.selected_count) ∧
      select_round ops L a b order st =
      { blocks := Function.update st.blocks b
          { block_input_start := (st.blocks b).block_input_start + L.STRIDE
            s_block_output_count := 0
            s_block_output_start := g }
        mem := (select_scan_all ops a (st.blocks b).block_input_start order 0).1.foldl
          (select_store ops a g)
          { st.mem with
            selected_count := st.mem.selected_count +
              (round_selected ops a (st.blocks b).block_input_start order).length
            loads := st.mem.loads ++
              (order.filter (fun t => decide ((st.blocks b).block_input_start + t <
                a.num_elements))).map (fun t => (b, t, (st.blocks b).block_input_start + t)) } } := by
  have hcount := select_scan_all_count ops a (st.blocks b).block_input_start order 0
  have hloads := select_loads_scan_all ops a b (st.blocks b).block_input_start order 0
  rw [Nat.zero_add] at hcount
  unfold select_round
  simp only [hlt, if_true, hc0, hcount, hloads]
  by_cases hz : (round_selected ops a (st.blocks b).block_input_start order).length = 0
  · refine ⟨(st.blocks b).s_block_output_start, ?_, ?_⟩
    · intro hne
      exact absurd (List.length_eq_zero.1 hz) hne
    · simp [hz]
  · refine ⟨st.mem.selected_count, fun _ => rfl, ?_⟩
    simp [hz]

/-- One trip of a block keeps the invariant. -/
theorem select_round_inv {T F : Type} (ops : ElemOps T F) (L : Launch) (a : SelectArgs T F)
    (m0 : Output T) (b : Nat) (hb : b < L.gridDim) (order : List Nat) (hnd : order.Nodup)
    (hmem : ∀ t, t ∈ order ↔ t < L.blockDim) (st : SelectState T)
    (reads : List (Nat × Nat × Nat)) (h : SelectInv ops L a m0 st reads) :
    ∃ reads', SelectInv ops L a m0 (select_round ops L a b order st) reads' := by
  by_cases hlt : (st.blocks b).block_input_start < a.num_elements
  swap
  · refine ⟨reads, ?_⟩
    have e : select_round ops L a b order st = st := by
      unfold select_round
      simp [hlt]
    rw [e]
    exact h
  obtain ⟨⟨k0, hk0⟩, hc0⟩ := h.shape b hb
  obtain ⟨g, hg, hround⟩ := select_round_pos ops L a b order st hlt hc0
  rw [hround]
  obtain ⟨start, hstart⟩ : ∃ s, (st.blocks b).block_input_start = s := ⟨_, rfl⟩
  rw [hstart] at hlt hk0 hg ⊢
  obtain ⟨s1, s2, s3, s4⟩ := select_store_scan_all ops a start g order 0
    { st.mem with
      selected_count := st.mem.selected_count + (round_selected ops a start order).length
      loads := st.mem.loads ++
        (order.filter (fun t => decide (start + t < a.num_elements))).map
          (fun t => (b, t, start + t)) } _ rfl
  dsimp only at s1 s2 s3 s4
  have hri : read_indices (reads ++ (order.filter (fun t => decide (start + t < a.num_elements))).map
      (fun t => (b, t, start + t))) = read_indices reads ++
      (order.filter (fun t => decide (start + t < a.num_elements))).map (fun t => start + t) := by
    simp [read_indices, List.map_append, List.map_map, Function.comp_def]
  have hfil : (read_indices (reads ++ (order.filter (fun t => decide (start + t <
      a.num_elements))).map (fun t => (b, t, start + t)))).filter (select_pass ops a) =
      (read_indices reads).filter (select_pass ops a) ++ round_selected ops a start order := by
    rw [hri, List.filter_append]
    rfl
  have hG : 0 < L.gridDim := by omega
  have hstride : start + L.STRIDE = L.blockDim * (b + (k0 + 1) * L.gridDim) := by
    rw [hk0]
    unfold Launch.STRIDE
    ring
  have hcnt := h.count
  refine ⟨reads ++ (order.filter (fun t => decide (start + t < a.num_elements))).map
      (fun t => (b, t, start + t)), ?_, ?_, ?_, ?_, ?_, ?_, ?_, ?_⟩
  · -- shape
    intro b' hb'
    dsimp only
    by_cases e : b' = b
    · subst e
      rw [Function.update_same]
      exact ⟨⟨k0 + 1, hstride⟩, rfl⟩
    · rw [Function.update_noteq e]
      exact h.shape b' hb'
  · -- loads
    dsimp only
    rw [s4, h.loads, List.append_assoc]
  · -- nodup
    rw [hri, List.nodup_append]
    refine ⟨h.nodup, ?_, ?_⟩
    · apply List.Nodup.map
      · intro x y hxy
        dsimp only at hxy
        omega
      · exact hnd.filter _
    · intro x hx hx'
      obtain ⟨r, hr, hrx⟩ := List.mem_map.1 hx
      obtain ⟨t, ht, htx⟩ := List.mem_map.1 hx'
      have htB : t < L.blockDim := (hmem t).1 (List.mem_filter.1 ht).1
      obtain ⟨r1, r2, _, r4, k, hk⟩ := h.seen r hr
      have e1 : L.blockDim * (r.1 + k * L.gridDim) + r.2.1 =
          L.blockDim * (b + k0 * L.gridDim) + t := by
        rw [← hk, ← hk0, hrx, htx]
      have e2 := (chunk_eq r2 htB e1).1
      have e3 : r.1 = b := strided_residue r1 hb e2
      rw [e3, hstart] at r4
      omega
  · -- seen
    intro r hr
    dsimp only
    rcases List.mem_append.1 hr with hr | hr
    · obtain ⟨r1, r2, r3, r4, r5⟩ := h.seen r hr
      refine ⟨r1, r2, r3, ?_, r5⟩
      by_cases e : r.1 = b
      · rw [e, Function.update_same]
        rw [e, hstart] at r4
        dsimp only
        omega
      · rw [Function.update_noteq e]
        exact r4
    · obtain ⟨t, ht, rfl⟩ := List.mem_map.1 hr
      have htB : t < L.blockDim := (hmem t).1 (List.mem_filter.1 ht).1
      have htN : start + t < a.num_elements := by
        simpa using (List.mem_filter.1 ht).2
      dsimp only
      rw [Function.update_same]
      dsimp only
      refine ⟨hb, htB, htN, ?_, k0, by rw [hk0]⟩
      have : L.blockDim ≤ L.STRIDE := by
        unfold Launch.STRIDE
        exact Nat.le_mul_of_pos_left _ hG
      omega
  · -- cover
    intro b' t k hb' ht hN hlt'
    dsimp only at hlt'
    by_cases e : b' = b
    · subst e
      rw [Function.update_same] at hlt'
      dsimp only at hlt'
      by_cases hold : L.blockDim * (b' + k * L.gridDim) + t < start
      · exact List.mem_append_left _ (h.cover b' t k hb' ht hN (by rw [hstart]; exact hold))
      · rw [hstride] at hlt'
        have h1 : b' + k * L.gridDim < b' + (k0 + 1) * L.gridDim := chunk_lt hlt'
        have h2 : b' + k0 * L.gridDim ≤ b' + k * L.gridDim := by
          apply chunk_le ht
          rw [← hk0]
          omega
        have h3 : k < k0 + 1 := Nat.lt_of_mul_lt_mul_right (a := L.gridDim) (by omega)
        have h4 : k0 ≤ k := Nat.le_of_mul_le_mul_right (by omega) hG
        have h5 : k = k0 := by omega
        subst h5
        apply List.mem_append_right
        rw [← hk0]
        rw [← hk0] at hN
        exact List.mem_map.2 ⟨t, List.mem_filter.2 ⟨(hmem t).2 ht, by simpa using hN⟩, rfl⟩
    · rw [Function.update_noteq e] at hlt'
      exact List.mem_append_left _ (h.cover b' t k hb' ht hN hlt')
  · -- count
    dsimp only
    rw [s3, hfil, List.length_append, hcnt]
    omega
  · -- slots
    intro j x hj hlt'
    dsimp only
    rw [hfil] at hj
    by_cases hjl : j < ((read_indices reads).filter (select_pass ops a)).length
    · rw [List.getElem?_append_left hjl] at hj
      obtain ⟨o1, o2, o3⟩ := h.slots j x hj hlt'
      have hframe := s2 (m0.selected_count + j) (by
        by_cases hne : round_selected ops a start order = []
        · rw [hne]
          simp only [List.length_nil]
          omega
        · rw [hg hne, hcnt]
          omega)
      rw [hframe.1, hframe.2.1, hframe.2.2]
      exact ⟨o1, o2, o3⟩
    · have hjl' : ((read_indices reads).filter (select_pass ops a)).length ≤ j := by omega
      rw [List.getElem?_append_right hjl'] at hj
      have hne : round_selected ops a start order ≠ [] := by
        intro hnil
        rw [hnil] at hj
        simp at hj
      have hgv := hg hne
      have hslot : m0.selected_count + j =
          0 + (j - ((read_indices reads).filter (select_pass ops a)).length) + g := by
        rw [hgv, hcnt]
        omega
      rw [hslot] at hlt' ⊢
      obtain ⟨n1, n2, n3⟩ := s1 _ x hj hlt'
      refine ⟨n1, n2, ?_⟩
      rw [n3]
      have := (h.frame (0 + (j - ((read_indices reads).filter (select_pass ops a)).length) + g)
        (Or.inr (Or.inl (by rw [hgv]; omega)))).2.2
      rw [this]
  · -- frame
    intro p hp
    dsimp only at hp ⊢
    rw [s3] at hp
    have hframe := s2 p (by
      by_cases hne : round_selected ops a start order = []
      · rw [hne]
        simp only [List.length_nil]
        omega
      · rw [hg hne]
        omega)
    rw [hframe.1, hframe.2.1, hframe.2.2]
    exact h.frame p (by omega)

/-- A schedule entry keeps the invariant. -/
theorem select_step_inv {T F : Type} (ops : ElemOps T F) (L : Launch) (a : SelectArgs T F)
    (m0 : Output T) (entry : Nat × List Nat) (st : SelectState T)
    (h : ∃ reads, SelectInv ops L a m0 st reads) :
    ∃ reads, SelectInv ops L a m0 (select_step ops L a st entry) reads := by
  obtain ⟨reads, h⟩ := h
  unfold select_step
  split
  · next hb =>
    exact select_round_inv ops L a m0 entry.1 hb _ (threadOrder_nodup _ _)
      (mem_threadOrder _ _) st reads h
  · exact ⟨reads, h⟩

theorem foldl_select_step_inv {T F : Type} (ops : ElemOps T F) (L : Launch) (a : SelectArgs T F)
    (m0 : Output T) (l : List (Nat × List Nat)) :
    ∀ st : SelectState T, (∃ reads, SelectInv ops L a m0 st reads) →
      ∃ reads, SelectInv ops L a m0 (l.foldl (select_step ops L a) st) reads := by
  induction l with
  | nil => intro st h; exact h
  | cons e l ih =>
    intro st h
    simp only [List.foldl_cons]
    exact ih _ (select_step_inv ops L a m0 e st h)

/-- The invariant holds when the kernel enters its loop. -/
theorem select_init_inv {T F : Type} (ops : ElemOps T F) (L : Launch) (a : SelectArgs T F)
    (shared0 : Nat → Nat) (m0 : Output T) :
    SelectInv ops L a m0 (select_init L shared0 m0) [] := by
  refine ⟨?_, ?_, ?_, ?_, ?_, ?_, ?_, ?_⟩
  · intro b _
    exact ⟨⟨0, by simp [select_init]⟩, rfl⟩
  · simp [select_init]
  · simp [read_indices]
  · intro r hr; simp at hr
  · intro b t k _ _ _ hlt
    simp only [select_init] at hlt
    have := chunk_lt hlt
    have : 0 ≤ k * L.gridDim := Nat.zero_le _
    omega
  · simp [select_init, read_indices]
  · intro j x hj; simp [read_indices] at hj
  · intro p _; exact ⟨rfl, rfl, rfl⟩

/-- A schedule entry never moves `block_input_start` backwards. -/
theorem select_step_mono {T F : Type} (ops : ElemOps T F) (L : Launch) (a : SelectArgs T F)
    (st : SelectState T) (entry : Nat × List Nat) (b : Nat) :
    (st.blocks b).block_input_start ≤
      ((select_step ops L a st entry).blocks b).block_input_start := by
  unfold select_step select_round
  split
  · dsimp only
    split
    · dsimp only
      by_cases e : b = entry.1
      · subst e; simp
      · rw [Function.update_noteq e]
    · exact le_rfl
  · exact le_rfl

theorem foldl_select_step_mono {T F : Type} (ops : ElemOps T F) (L : Launch) (a : SelectArgs T F)
    (l : List (Nat × List Nat)) (b : Nat) :
    ∀ st : SelectState T, (st.blocks b).block_input_start ≤
      ((l.foldl (select_step ops L a) st).blocks b).block_input_start := by
  induction l with
  | nil => intro st; exact le_rfl
  | cons e l ih =>
    intro st
    simp only [List.foldl_cons]
    exact le_trans (select_step_mono ops L a st e b) (ih _)

/-- After `n` turns a block has left its loop or advanced by `n` at least. -/
theorem foldl_select_replicate_progress {T F : Type} (ops : ElemOps T F) (L : Launch)
    (a : SelectArgs T F) (hB : 1 ≤ L.blockDim) (b : Nat) (hb : b < L.gridDim)
    (o : List Nat) (n : Nat) :
    ∀ st : SelectState T,
      a.num_elements ≤
        (((List.replicate n (b, o)).foldl (select_step ops L a) st).blocks b).block_input_start ∨
      (st.blocks b).block_input_start + n ≤
        (((List.replicate n (b, o)).foldl (select_step ops L a) st).blocks b).block_input_start := by
  induction n with
  | zero => intro st; right; simp
  | succ n ih =>
    intro st
    simp only [List.replicate_succ, List.foldl_cons]
    rcases ih (select_step ops L a st (b, o)) with h | h
    · exact Or.inl h
    · by_cases hlt : (st.blocks b).block_input_start < a.num_elements
      · right
        have e : ((select_step ops L a st (b, o)).blocks b).block_input_start =
            (st.blocks b).block_input_start + L.STRIDE := by
          unfold select_step select_round
          simp [hb, hlt]
        have hS : 1 ≤ L.STRIDE := by
          unfold Launch.STRIDE
          exact Nat.mul_pos (by omega) hB
        rw [e] at h
        omega
      · left
        have := foldl_select_step_mono ops L a (List.replicate n (b, o)) b
          (select_step ops L a st (b, o))
        have := select_step_mono ops L a st (b, o) b
        omega

/-- After the closing turns every block has left its loop. -/
theorem foldl_block_completion_done {T F : Type} (ops : ElemOps T F) (L : Launch)
    (a : SelectArgs T F) (hB : 1 ≤ L.blockDim) (n : Nat) (hn : n ≤ L.gridDim) :
    ∀ st : SelectState T, ∀ b, b < n →
      a.num_elements ≤
        ((((List.range n).flatMap
          (fun blockIdx => List.replicate a.num_elements (blockIdx, ([] : List Nat)))).foldl
          (select_step ops L a) st).blocks b).block_input_start := by
  induction n with
  | zero => intro st b h; omega
  | succ n ih =>
    intro st b hbn
    rw [List.range_succ, List.flatMap_append, List.foldl_append]
    simp only [List.flatMap_cons, List.flatMap_nil, List.append_nil]
    by_cases e : b = n
    · subst e
      rcases foldl_select_replicate_progress ops L a hB b (by omega) [] a.num_elements
        (((List.range b).flatMap
          (fun blockIdx => List.replicate a.num_elements (blockIdx, ([] : List Nat)))).foldl
          (select_step ops L a) st) with h | h
      · exact h
      · omega
    · have h1 := ih (by omega) st b (by omega)
      exact le_trans h1 (foldl_select_step_mono ops L a _ b _)

/-- Every block of a finished run has left its loop. -/
theorem select_final_done {T F : Type} (ops : ElemOps T F) (L : Launch) (a : SelectArgs T F)
    (hB : 1 ≤ L.blockDim) (sched : List (Nat × List Nat)) (shared0 : Nat → Nat) (m : Output T)
    (b : Nat) (hb : b < L.gridDim) :
    a.num_elements ≤ ((select_final ops L a sched shared0 m).blocks b).block_input_start := by
  unfold select_final block_completion
  rw [List.foldl_append]
  exact foldl_block_completion_done ops L a hB _ le_rfl _ b hb

/-- A finished run satisfies the invariant and has read every index of the layer
exactly once. -/
theorem select_final_inv {T F : Type} (ops : ElemOps T F) (L : Launch) (a : SelectArgs T F)
    (hG : 1 ≤ L.gridDim) (hB : 1 ≤ L.blockDim) (sched : List (Nat × List Nat))
    (shared0 : Nat → Nat) (m : Output T) :
    ∃ reads, SelectInv ops L a m (select_final ops L a sched shared0 m) reads ∧
      (read_indices reads).Perm (List.range a.num_elements) := by
  obtain ⟨reads, h⟩ := foldl_select_step_inv ops L a m (sched ++ block_completion L a.num_elements)
    (select_init L shared0 m) ⟨[], select_init_inv ops L a shared0 m⟩
  refine ⟨reads, h, ?_⟩
  rw [List.perm_ext_iff_of_nodup h.nodup (List.nodup_range _)]
  intro i
  rw [List.mem_range]
  constructor
  · intro hi
    obtain ⟨r, hr, rfl⟩ := List.mem_map.1 hi
    exact (h.seen r hr).2.2.1
  · intro hi
    have hmodB : i % L.blockDim < L.blockDim := Nat.mod_lt _ (by omega)
    have hmodG : (i / L.blockDim) % L.gridDim < L.gridDim := Nat.mod_lt _ (by omega)
    have e : i = L.blockDim * ((i / L.blockDim) % L.gridDim +
        ((i / L.blockDim) / L.gridDim) * L.gridDim) + i % L.blockDim := by
      have h1 := Nat.div_add_mod i L.blockDim
      have h2 := Nat.div_add_mod' (i / L.blockDim) L.gridDim
      rw [Nat.add_comm ((i / L.blockDim) % L.gridDim), h2]
      exact h1.symm
    have hdone := select_final_done ops L a hB sched shared0 m _ hmodG
    have hc := h.cover ((i / L.blockDim) % L.gridDim) (i % L.blockDim)
      ((i / L.blockDim) / L.gridDim) hmodG hmodB (by rw [← e]; exact hi)
      (by rw [← e]; exact lt_of_lt_of_le hi hdone)
    rw [← e] at hc
    exact List.mem_map.2 ⟨_, hc, rfl⟩

/-- The passing indices among those read are the passing indices of the layer, up
to order. -/
theorem filter_pass_perm {T F : Type} (ops : ElemOps T F) (a : SelectArgs T F)
    (reads : List (Nat × Nat × Nat)) (h : (read_indices reads).Perm (List.range a.num_elements)) :
    ((read_indices reads).filter (select_pass ops a)).length =
      ((List.range a.num_elements).filter (select_pass ops a)).length :=
  (h.filter _).length_eq

/-- What a finished run of `select_kernel` leaves in the slots it filled. -/
theorem select_kernel_filled {T F : Type} (ops : ElemOps T F) (L : Launch)
    (hG : 1 ≤ L.gridDim) (hB : 1 ≤ L.blockDim) (a : SelectArgs T F)
    (sched : List (Nat × List Nat)) (shared0 : Nat → Nat) (m : Output T) :
    (∀ p, m.selected_count ≤ p →
      p < min (select_kernel ops L a sched shared0 m).selected_count a.target_num →
      (select_kernel ops L a sched shared0 m).stores p = m.stores p + 1 ∧
      ∃ i, i < a.num_elements ∧ select_pass ops a i = true ∧
        (select_kernel ops L a sched shared0 m).selected_indices p = (i : Int) ∧
        (select_kernel ops L a sched shared0 m).selected_elements p =
          ops.div (a.elements i) a.global_num_gpus) ∧
    (∀ p q, m.selected_count ≤ p → m.selected_count ≤ q →
      p < min (select_kernel ops L a sched shared0 m).selected_count a.target_num →
      q < min (select_kernel ops L a sched shared0 m).selected_count a.target_num →
      (select_kernel ops L a sched shared0 m).selected_indices p =
        (select_kernel ops L a sched shared0 m).selected_indices q → p = q) := by
  obtain ⟨reads, h, hperm⟩ := select_final_inv ops L a hG hB sched shared0 m
  have hcnt := h.count
  have key : ∀ p, m.selected_count ≤ p →
      p < min (select_kernel ops L a sched shared0 m).selected_count a.target_num →
      ∃ x, ((read_indices reads).filter (select_pass ops a))[p - m.selected_count]? = some x ∧
        (select_kernel ops L a sched shared0 m).selected_indices p = (x : Int) ∧
        (select_kernel ops L a sched shared0 m).selected_elements p =
          ops.div (a.elements x) a.global_num_gpus ∧
        (select_kernel ops L a sched shared0 m).stores p = m.stores p + 1 := by
    intro p hp0 hp
    unfold select_kernel at hp ⊢
    have hlen : p - m.selected_count < ((read_indices reads).filter (select_pass ops a)).length := by
      omega
    have hget := List.getElem?_eq_getElem hlen
    have hs := h.slots (p - m.selected_count) _ hget (by omega)
    have e : m.selected_count + (p - m.selected_count) = p := by omega
    rw [e] at hs
    exact ⟨_, hget, hs⟩
  constructor
  · intro p hp0 hp
    obtain ⟨x, hx, h1, h2, h3⟩ := key p hp0 hp
    have hxm : x ∈ (read_indices reads).filter (select_pass ops a) := List.getElem?_mem hx
    rw [List.mem_filter] at hxm
    exact ⟨h3, x, List.mem_range.1 (hperm.mem_iff.1 hxm.1), hxm.2, h1, h2⟩
  · intro p q hp0 hq0 hp hq heq
    obtain ⟨x, hx, h1, _, _⟩ := key p hp0 hp
    obtain ⟨y, hy, h1', _, _⟩ := key q hq0 hq
    rw [h1, h1'] at heq
    have hxy : x = y := Int.ofNat_inj.1 heq
    subst hxy
    have hnd : ((read_indices reads).filter (select_pass ops a)).Nodup := h.nodup.filter _
    obtain ⟨hpl, hpx⟩ := List.getElem?_eq_some_iff.1 hx
    obtain ⟨hql, hqx⟩ := List.getElem?_eq_some_iff.1 hy
    have hinj := (List.Nodup.get_inj_iff hnd (i := ⟨_, hpl⟩) (j := ⟨_, hql⟩)).1
      (by rw [List.get_eq_getElem, List.get_eq_getElem]; exact hpx.trans hqx.symm)
    have := Fin.mk.inj hinj
    omega

/-- The counter, the reads and the untouched slots after a finished run of
`select_kernel`. -/
theorem select_kernel_count {T F : Type} (ops : ElemOps T F) (L : Launch)
    (hG : 1 ≤ L.gridDim) (hB : 1 ≤ L.blockDim) (a : SelectArgs T F)
    (sched : List (Nat × List Nat)) (shared0 : Nat → Nat) (m : Output T) :
    (select_kernel ops L a sched shared0 m).selected_count =
      m.selected_count + ((List.range a.num_elements).filter (select_pass ops a)).length ∧
    (∃ reads, (select_kernel ops L a sched shared0 m).loads = m.loads ++ reads ∧
      (read_indices reads).Perm (List.range a.num_elements) ∧
      ∀ r ∈ reads, r.1 < L.gridDim ∧ r.2.1 < L.blockDim ∧
        ∃ k, r.2.2 = L.blockDim * r.1 + r.2.1 + k * L.STRIDE) ∧
    (∀ p, (p < m.selected_count ∨ (select_kernel ops L a sched shared0 m).selected_count ≤ p ∨
        a.target_num ≤ p) →
      (select_kernel ops L a sched shared0 m).selected_indices p = m.selected_indices p ∧
      (select_kernel ops L a sched shared0 m).selected_elements p = m.selected_elements p ∧
      (select_kernel ops L a sched shared0 m).stores p = m.stores p) := by
  obtain ⟨reads, h, hperm⟩ := select_final_inv ops L a hG hB sched shared0 m
  refine ⟨?_, ⟨reads, h.loads, hperm, ?_⟩, h.frame⟩
  · unfold select_kernel
    rw [h.count, filter_pass_perm ops a reads hperm]
  · intro r hr
    obtain ⟨r1, r2, _, _, k, hk⟩ := h.seen r hr
    refine ⟨r1, r2, k, ?_⟩
    rw [hk]
    unfold Launch.STRIDE
    ring

/-! ## Claims on `select_kernel` and on selecting then padding -/

/-- C1. For a launch with at least one block and one thread per block, any layer,
threshold, divisor `global_num_gpus` and target, any schedule and any previous
contents of the buffers, if the shared counter starts at `0` and `c` is its final
value, then every output slot `p < min c target_num` has been stored to exactly
once, `selected_indices[p]` is an index `i` in `[0, num_elements)` whose element
passes the threshold test `!(abs(element) < threshold)`,
`selected_elements[p] = elements[i] / global_num_gpus`, and the indices in these
slots are pairwise distinct. (The bounds `target_num ≤ num_elements` and
`global_num_gpus ≥ 1` of the claim are not needed.) -/
theorem select_kernel_output_contents {T F : Type} (ops : ElemOps T F) (L : Launch)
    (hG : 1 ≤ L.gridDim) (hB : 1 ≤ L.blockDim) (a : SelectArgs T F)
    (sched : List (Nat × List Nat)) (shared0 : Nat → Nat) (m : Output T)
    (hc0 : m.selected_count = 0) :
    (∀ p, p < min (select_kernel ops L a sched shared0 m).selected_count a.target_num →
      (select_kernel ops L a sched shared0 m).stores p = m.stores p + 1 ∧
      ∃ i, i < a.num_elements ∧ select_pass ops a i = true ∧
        (select_kernel ops L a sched shared0 m).selected_indices p = (i : Int) ∧
        (select_kernel ops L a sched shared0 m).selected_elements p =
          ops.div (a.elements i) a.global_num_gpus) ∧
    (∀ p q, p < min (select_kernel ops L a sched shared0 m).selected_count a.target_num →
      q < min (select_kernel ops L a sched shared0 m).selected_count a.target_num →
      (select_kernel ops L a sched shared0 m).selected_indices p =
        (select_kernel ops L a sched shared0 m).selected_indices q → p = q) := by
  obtain ⟨h1, h2⟩ := select_kernel_filled ops L hG hB a sched shared0 m
  exact ⟨fun p hp => h1 p (by omega) hp, fun p q hp hq => h2 p q (by omega) (by omega) hp hq⟩

theorem select_kernel_output_contents_witness :
    (∀ p, p < min (select_kernel ElemOps.int exLaunch exArgs [(1, [1, 0]), (0, [1])]
          (fun _ => 77) exOutput).selected_count exArgs.target_num →
      (select_kernel ElemOps.int exLaunch exArgs [(1, [1, 0]), (0, [1])]
          (fun _ => 77) exOutput).stores p = exOutput.stores p + 1 ∧
      ∃ i, i < exArgs.num_elements ∧ select_pass ElemOps.int exArgs i = true ∧
        (select_kernel ElemOps.int exLaunch exArgs [(1, [1, 0]), (0, [1])]
          (fun _ => 77) exOutput).selected_indices p = (i : Int) ∧
        (select_kernel ElemOps.int exLaunch exArgs [(1, [1, 0]), (0, [1])]
          (fun _ => 77) exOutput).selected_elements p =
          ElemOps.int.div (exArgs.elements i) exArgs.global_num_gpus) ∧
    (∀ p q, p < min (select_kernel ElemOps.int exLaunch exArgs [(1, [1, 0]), (0, [1])]
          (fun _ => 77) exOutput).selected_count exArgs.target_num →
      q < min (select_kernel ElemOps.int exLaunch exArgs [(1, [1, 0]), (0, [1])]
          (fun _ => 77) exOutput).selected_count exArgs.target_num →
      (select_kernel ElemOps.int exLaunch exArgs [(1, [1, 0]), (0, [1])]
          (fun _ => 77) exOutput).selected_indices p =
        (select_kernel ElemOps.int exLaunch exArgs [(1, [1, 0]), (0, [1])]
          (fun _ => 77) exOutput).selected_indices q → p = q) :=
  select_kernel_output_contents ElemOps.int exLaunch (by decide) (by decide) exArgs
    [(1, [1, 0]), (0, [1])] (fun _ => 77) exOutput rfl

/-- C3. For a launch with at least one block and one thread per block, any layer,
threshold and target, any schedule and any initial value `c0` of the shared
counter, after `select_kernel` the counter holds `c0` plus the number of indices
`i < num_elements` with `!(abs(elements[i]) < threshold)`; the value is the same
for every other `target_num`; and the reads of `elements` made by the run list
every index of `[0, num_elements)` exactly once, the read of index `i` being made
by the thread `(blockIdx, threadIdx)` with
`i = blockDim * blockIdx + threadIdx + k * STRIDE`. -/
theorem select_kernel_true_count {T F : Type} (ops : ElemOps T F) (L : Launch)
    (hG : 1 ≤ L.gridDim) (hB : 1 ≤ L.blockDim) (a : SelectArgs T F)
    (sched : List (Nat × List Nat)) (shared0 : Nat → Nat) (m : Output T) :
    (select_kernel ops L a sched shared0 m).selected_count =
      m.selected_count + ((List.range a.num_elements).filter (select_pass ops a)).length ∧
    (∀ target_num sched2 shared2,
      (select_kernel ops L { a with target_num := target_num } sched2 shared2 m).selected_count =
        (select_kernel ops L a sched shared0 m).selected_count) ∧
    (∃ reads, (select_kernel ops L a sched shared0 m).loads = m.loads ++ reads ∧
      (read_indices reads).Perm (List.range a.num_elements) ∧
      ∀ r ∈ reads, r.1 < L.gridDim ∧ r.2.1 < L.blockDim ∧
        ∃ k, r.2.2 = L.blockDim * r.1 + r.2.1 + k * L.STRIDE) := by
  obtain ⟨h1, h2, _⟩ := select_kernel_count ops L hG hB a sched shared0 m
  refine ⟨h1, ?_, h2⟩
  intro target_num sched2 shared2
  rw [h1, (select_kernel_count ops L hG hB { a with target_num := target_num } sched2 shared2 m).1]
  rfl

theorem select_kernel_true_count_witness :
    (select_kernel ElemOps.int exLaunch exArgs [(1, [1, 0]), (0, [1])]
        (fun _ => 77) exOutput).selected_count =
      exOutput.selected_count +
        ((List.range exArgs.num_elements).filter (select_pass ElemOps.int exArgs)).length ∧
    (∀ target_num sched2 shared2,
      (select_kernel ElemOps.int exLaunch { exArgs with target_num := target_num } sched2 shared2
          exOutput).selected_count =
        (select_kernel ElemOps.int exLaunch exArgs [(1, [1, 0]), (0, [1])]
          (fun _ => 77) exOutput).selected_count) ∧
    (∃ reads, (select_kernel ElemOps.int exLaunch exArgs [(1, [1, 0]), (0, [1])]
          (fun _ => 77) exOutput).loads = exOutput.loads ++ reads ∧
      (read_indices reads).Perm (List.range exArgs.num_elements) ∧
      ∀ r ∈ reads, r.1 < exLaunch.gridDim ∧ r.2.1 < exLaunch.blockDim ∧
        ∃ k, r.2.2 = exLaunch.blockDim * r.1 + r.2.1 + k * exLaunch.STRIDE) :=
  select_kernel_true_count ElemOps.int exLaunch (by decide) (by decide) exArgs
    [(1, [1, 0]), (0, [1])] (fun _ => 77) exOutput

set_option maxRecDepth 8000 in
/-- C7 (the code departs from the claim). With `IndexT = int64_t` and
`SizeT = uint32_t`, the `int32_t` layer `5, -7, 0, 3, -9, 1`, threshold `6.0f` and
`target_num = 4 ≤ num_elements`, `select_kernel` started with the counter at `0`
reports two selections and fills slots `0` and `1` with them; `pad_kernel` then
stores `PreDefinedValues<int32_t>::InvalidValue` in `selected_elements[2]` and
`selected_elements[3]`, but `PreDefinedValues<uint32_t>::InvalidValue` converted to
`int64_t`, that is `4294967295`, in `selected_indices[2]` and `selected_indices[3]`.
On this index `isValid<int64_t>` is true and it is not below `num_elements`: slots
`2` and `3` hold neither a real selection nor the sentinel pair. -/
theorem select_then_pad_valid_index :
    exArgsSparse.target_num ≤ exArgsSparse.num_elements ∧
    (select_kernel ElemOps.int32 exLaunch exArgsSparse [] (fun _ => 0)
      exOutputStale).selected_count = 2 ∧
    (pad_kernel (PreDefinedValues.ofInt IntTy.int32) IntTy.int64 IntTy.uint32 exLaunch
      exArgsSparse.target_num []
      (select_kernel ElemOps.int32 exLaunch exArgsSparse [] (fun _ => 0)
        exOutputStale)).selected_elements 2 = IntTy.int32.InvalidValue ∧
    (pad_kernel (PreDefinedValues.ofInt IntTy.int32) IntTy.int64 IntTy.uint32 exLaunch
      exArgsSparse.target_num []
      (select_kernel ElemOps.int32 exLaunch exArgsSparse [] (fun _ => 0)
        exOutputStale)).selected_indices 2 = 4294967295 ∧
    isValid (PreDefinedValues.ofInt IntTy.int64)
      ((pad_kernel (PreDefinedValues.ofInt IntTy.int32) IntTy.int64 IntTy.uint32 exLaunch
        exArgsSparse.target_num []
        (select_kernel ElemOps.int32 exLaunch exArgsSparse [] (fun _ => 0)
          exOutputStale)).selected_indices 2) = true ∧
    ¬ (pad_kernel (PreDefinedValues.ofInt IntTy.int32) IntTy.int64 IntTy.uint32 exLaunch
        exArgsSparse.target_num []
        (select_kernel ElemOps.int32 exLaunch exArgsSparse [] (fun _ => 0)
          exOutputStale)).selected_indices 2 < (exArgsSparse.num_elements : Int) ∧
    (pad_kernel (PreDefinedValues.ofInt IntTy.int32) IntTy.int64 IntTy.uint32 exLaunch
      exArgsSparse.target_num []
      (select_kernel ElemOps.int32 exLaunch exArgsSparse [] (fun _ => 0)
        exOutputStale)).selected_indices 3 = 4294967295 ∧
    isValid (PreDefinedValues.ofInt IntTy.int64)
      ((pad_kernel (PreDefinedValues.ofInt IntTy.int32) IntTy.int64 IntTy.uint32 exLaunch
        exArgsSparse.target_num []
        (select_kernel ElemOps.int32 exLaunch exArgsSparse [] (fun _ => 0)
          exOutputStale)).selected_indices 3) = true := by
  decide

/-! ## `select_kernel2` -/

/-- The stores of a thread of `select_kernel2` leave the counter and the slots at
or above `target_num` alone. -/
theorem select2_store_frame {T F : Type} (ops : ElemOps T F) (a : SelectArgs T F)
    (slots : List (T × Nat)) :
    ∀ (output_pos : Nat) (m : Output T),
      (select2_store ops a output_pos slots m).selected_count = m.selected_count ∧
      (select2_store ops a output_pos slots m).loads = m.loads ∧
      ∀ p, a.target_num ≤ p →
        (select2_store ops a output_pos slots m).selected_indices p = m.selected_indices p ∧
        (select2_store ops a output_pos slots m).selected_elements p = m.selected_elements p ∧
        (select2_store ops a output_pos slots m).stores p = m.stores p := by
  induction slots with
  | nil => intro pos m; exact ⟨rfl, rfl, fun p _ => ⟨rfl, rfl, rfl⟩⟩
  | cons slot rest ih =>
    intro pos m
    unfold select2_store
    by_cases hge : pos ≥ a.target_num
    · rw [if_pos hge]
      exact ⟨rfl, rfl, fun p _ => ⟨rfl, rfl, rfl⟩⟩
    · rw [if_neg hge]
      obtain ⟨h1, h2, h3⟩ := ih (pos + 1)
        (m.store pos (ops.div slot.1 a.global_num_gpus) (slot.2 : Int))
      refine ⟨by rw [h1]; rfl, by rw [h2]; rfl, ?_⟩
      intro p hp
      obtain ⟨g1, g2, g3⟩ := h3 p hp
      rw [g1, g2, g3]
      exact store_other _ _ _ _ _ (by omega)

theorem foldl_select2_store_frame {T F : Type} (ops : ElemOps T F) (a : SelectArgs T F)
    (g : Nat) (threads : List (Select2Thread T)) :
    ∀ m : Output T,
      (threads.foldl (fun m th => select2_store ops a g th.slots m) m).selected_count =
        m.selected_count ∧
      (threads.foldl (fun m th => select2_store ops a g th.slots m) m).loads = m.loads ∧
      ∀ p, a.target_num ≤ p →
        (threads.foldl (fun m th => select2_store ops a g th.slots m) m).selected_indices p =
          m.selected_indices p ∧
        (threads.foldl (fun m th => select2_store ops a g th.slots m) m).selected_elements p =
          m.selected_elements p ∧
        (threads.foldl (fun m th => select2_store ops a g th.slots m) m).stores p = m.stores p := by
  induction threads with
  | nil => intro m; exact ⟨rfl, rfl, fun p _ => ⟨rfl, rfl, rfl⟩⟩
  | cons th rest ih =>
    intro m
    simp only [List.foldl_cons]
    obtain ⟨h1, h2, h3⟩ := ih (select2_store ops a g th.slots m)
    obtain ⟨f1, f2, f3⟩ := select2_store_frame ops a th.slots g m
    refine ⟨by rw [h1, f1], by rw [h2, f2], ?_⟩
    intro p hp
    obtain ⟨g1, g2, g3⟩ := h3 p hp
    obtain ⟨e1, e2, e3⟩ := f3 p hp
    exact ⟨by rw [g1, e1], by rw [g2, e2], by rw [g3, e3]⟩

/-- The inner loop of a thread keeps the invariant of the threads and counts the
selected elements among those it reads. -/
theorem select2_scan_inv {T F : Type} (ops : ElemOps T F) (a : SelectArgs T F) (S : Nat)
    (posmap : Nat → Nat) (log : List (Nat × Nat)) (tid : Nat) (htid : tid < S) (fuel : Nat) :
    ∀ (pos : Nat) (slots : List (T × Nat)) (reads : List Nat),
      ThreadsInv S a.num_elements 0 (Function.update posmap tid pos)
        (log ++ reads.map (fun i => (tid, i))) →
      slots.length = (reads.filter (select2_pass ops a)).length →
      ThreadsInv S a.num_elements 0
        (Function.update posmap tid (select2_scan ops a S fuel pos slots reads).1)
        (log ++ (select2_scan ops a S fuel pos slots reads).2.2.map (fun i => (tid, i))) ∧
      (select2_scan ops a S fuel pos slots reads).2.1.length =
        ((select2_scan ops a S fuel pos slots reads).2.2.filter (select2_pass ops a)).length := by
  induction fuel with
  | zero => intro pos slots reads h1 h2; exact ⟨h1, h2⟩
  | succ fuel ih =>
    intro pos slots reads h1 h2
    unfold select2_scan
    by_cases hc : pos < a.num_elements ∧ slots.length < num_local_slots
    · rw [if_pos hc]
      have hadv := threads_inv_advance S a.num_elements 0 (Function.update posmap tid pos)
        (log ++ reads.map (fun i => (tid, i))) tid htid
        (by rw [Function.update_same]; exact hc.1) h1
      rw [Function.update_same, Function.update_idem, List.append_assoc] at hadv
      have hlog : reads.map (fun i => (tid, i)) ++ [(tid, pos)] =
          (reads ++ [pos]).map (fun i => (tid, i)) := by simp
      rw [hlog] at hadv
      dsimp only
      by_cases hp : ops.gt (ops.abs (a.elements pos)) (ops.ofThreshold a.threshold) = true
      · rw [if_pos hp]
        apply ih _ _ _ hadv
        have hp' : select2_pass ops a pos = true := hp
        simp [List.filter_append, List.filter_cons, hp', h2]
      · rw [if_neg hp]
        apply ih _ _ _ hadv
        have hp' : ¬ select2_pass ops a pos = true := hp
        simp [List.filter_append, List.filter_cons, hp', h2]
    · rw [if_neg hc]
      exact ⟨h1, h2⟩

theorem thread_id_lt (L : Launch) (b t : Nat) (hb : b < L.gridDim) (ht : t < L.blockDim) :
    L.blockDim * b + t < L.gridDim * L.blockDim := by
  have h1 : L.blockDim * (b + 1) ≤ L.blockDim * L.gridDim := Nat.mul_le_mul_left _ hb
  rw [Nat.mul_add, Nat.mul_one] at h1
  rw [Nat.mul_comm L.gridDim]
  omega

/-- The scan of one thread (lines 134-150) keeps the invariant of the threads and
adds to `s_block_output_count` the number of selected elements among its reads. -/
theorem select2_scan_thread_inv {T F : Type} (ops : ElemOps T F) (L : Launch)
    (a : SelectArgs T F) (b : Nat) (hb : b < L.gridDim) (log0 : List (Nat × Nat)) (c0 : Nat)
    (acc : Select2Scan T) (t : Nat) (ht : t < L.blockDim)
    (h1 : ThreadsInv (L.gridDim * L.blockDim) a.num_elements 0 acc.thread_pos
      (log0 ++ read_calls L acc.loads))
    (h2 : acc.s_block_output_count =
      c0 + ((read_indices acc.loads).filter (select2_pass ops a)).length) :
    ThreadsInv (L.gridDim * L.blockDim) a.num_elements 0
      (select2_scan_thread ops L a b acc t).thread_pos
      (log0 ++ read_calls L (select2_scan_thread ops L a b acc t).loads) ∧
    (select2_scan_thread ops L a b acc t).s_block_output_count =
      c0 + ((read_indices (select2_scan_thread ops L a b acc t).loads).filter
        (select2_pass ops a)).length := by
  have htid := thread_id_lt L b t hb ht
  obtain ⟨g1, g2⟩ := select2_scan_inv ops a (L.gridDim * L.blockDim) acc.thread_pos
    (log0 ++ read_calls L acc.loads) (L.blockDim * b + t) htid a.num_elements
    (acc.thread_pos (L.blockDim * b + t)) [] []
    (by simpa using h1) rfl
  unfold select2_scan_thread
  dsimp only
  unfold Launch.STRIDE
  constructor
  · have e : read_calls L (acc.loads ++
        (select2_scan ops a (L.gridDim * L.blockDim) a.num_elements
          (acc.thread_pos (L.blockDim * b + t)) [] []).2.2.map (fun i => (b, t, i))) =
        read_calls L acc.loads ++
        (select2_scan ops a (L.gridDim * L.blockDim) a.num_elements
          (acc.thread_pos (L.blockDim * b + t)) [] []).2.2.map
            (fun i => (L.blockDim * b + t, i)) := by
      simp [read_calls, List.map_append, List.map_map, Function.comp_def]
    rw [e, ← List.append_assoc]
    exact g1
  · have e : read_indices (acc.loads ++
        (select2_scan ops a (L.gridDim * L.blockDim) a.num_elements
          (acc.thread_pos (L.blockDim * b + t)) [] []).2.2.map (fun i => (b, t, i))) =
        read_indices acc.loads ++
        (select2_scan ops a (L.gridDim * L.blockDim) a.num_elements
          (acc.thread_pos (L.blockDim * b + t)) [] []).2.2 := by
      simp [read_indices, List.map_append, List.map_map, Function.comp_def]
    rw [e, List.filter_append, List.length_append, ← g2, h2]
    by_cases hz : (select2_scan ops a (L.gridDim * L.blockDim) a.num_elements
        (acc.thread_pos (L.blockDim * b + t)) [] []).2.1.length = 0
    · simp [hz]
    · simp [hz]
      omega

theorem foldl_select2_scan_thread_inv {T F : Type} (ops : ElemOps T F) (L : Launch)
    (a : SelectArgs T F) (b : Nat) (hb : b < L.gridDim) (log0 : List (Nat × Nat)) (c0 : Nat)
    (order : List Nat) (horder : ∀ t ∈ order, t < L.blockDim) :
    ∀ acc : Select2Scan T,
      ThreadsInv (L.gridDim * L.blockDim) a.num_elements 0 acc.thread_pos
        (log0 ++ read_calls L acc.loads) →
      acc.s_block_output_count =
        c0 + ((read_indices acc.loads).filter (select2_pass ops a)).length →
      ThreadsInv (L.gridDim * L.blockDim) a.num_elements 0
        (order.foldl (select2_scan_thread ops L a b) acc).thread_pos
        (log0 ++ read_calls L (order.foldl (select2_scan_thread ops L a b) acc).loads) ∧
      (order.foldl (select2_scan_thread ops L a b) acc).s_block_output_count =
        c0 + ((read_indices (order.foldl (select2_scan_thread ops L a b) acc).loads).filter
          (select2_pass ops a)).length := by
  induction order with
  | nil => intro acc h1 h2; exact ⟨h1, h2⟩
  | cons t ts ih =>
    intro acc h1 h2
    simp only [List.foldl_cons]
    obtain ⟨g1, g2⟩ := select2_scan_thread_inv ops L a b hb log0 c0 acc t
      (horder t (List.mem_cons_self _ _)) h1 h2
    exact ih (fun t' ht' => horder t' (List.mem_cons_of_mem _ ht')) _ g1 g2

/-- One trip of a block of `select_kernel2` keeps the invariant. -/
theorem select2_round_inv {T F : Type} (ops : ElemOps T F) (L : Launch) (a : SelectArgs T F)
    (m0 : Output T) (b : Nat) (hb : b < L.gridDim) (order : List Nat)
    (horder : ∀ t ∈ order, t < L.blockDim) (st : Select2State T)
    (reads : List (Nat × Nat × Nat)) (h : Select2Inv ops L a m0 st reads) :
    ∃ reads', Select2Inv ops L a m0 (select2_round ops L a b order st) reads' := by
  by_cases hcont : (st.blocks b).s_to_continue = true
  swap
  · refine ⟨reads, ?_⟩
    have e : select2_round ops L a b order st = st := by
      unfold select2_round
      simp [hcont]
    rw [e]
    exact h
  obtain ⟨g1, g2⟩ := foldl_select2_scan_thread_inv ops L a b hb (read_calls L reads) 0 order
    horder
    { threads := [], thread_pos := st.thread_pos
      s_block_output_count := (st.blocks b).s_block_output_count, loads := [] }
    (by simpa [read_calls] using h.threads) (by simp [read_indices, h.shared b hb])
  obtain ⟨scan, hscan⟩ : ∃ s, order.foldl (select2_scan_thread ops L a b)
    { threads := [], thread_pos := st.thread_pos
      s_block_output_count := (st.blocks b).s_block_output_count, loads := [] } = s := ⟨_, rfl⟩
  rw [hscan] at g1 g2
  rw [Nat.zero_add] at g2
  unfold select2_round
  simp only [hcont, if_true, hscan]
  obtain ⟨f1, f2, f3⟩ := foldl_select2_store_frame ops a
    ((if (scan.s_block_output_count != 0) = true then st.mem.selected_count
      else (st.blocks b).s_block_output_start) + 0) scan.threads
    { st.mem with
      selected_count :=
        if (scan.s_block_output_count != 0) = true
        then st.mem.selected_count + scan.s_block_output_count
        else st.mem.selected_count
      loads := st.mem.loads ++ scan.loads }
  have hri : read_indices (reads ++ scan.loads) = read_indices reads ++ read_indices scan.loads := by
    simp [read_indices]
  refine ⟨reads ++ scan.loads, ?_, ?_, ?_, ?_, ?_⟩
  · dsimp only
    have e : read_calls L (reads ++ scan.loads) = read_calls L reads ++ read_calls L scan.loads := by
      simp [read_calls]
    rw [e]
    exact g1
  · intro b' hb'
    dsimp only
    by_cases e : b' = b
    · subst e
      rw [Function.update_same]
      dsimp only
      by_cases hz : scan.s_block_output_count = 0
      · simp [hz]
      · simp [hz]
    · rw [Function.update_noteq e]
      exact h.shared b' hb'
  · dsimp only
    rw [f2]
    dsimp only
    rw [h.loads, List.append_assoc]
  · dsimp only
    rw [f1]
    dsimp only
    rw [hri, List.filter_append, List.length_append, ← g2, h.count]
    by_cases hz : scan.s_block_output_count = 0
    · simp [hz]
    · simp [hz]
      omega
  · intro p hp
    dsimp only
    obtain ⟨e1, e2, e3⟩ := f3 p hp
    rw [e1, e2, e3]
    exact h.frame p hp

theorem foldl_select2_step_inv {T F : Type} (ops : ElemOps T F) (L : Launch) (a : SelectArgs T F)
    (m0 : Output T) (l : List (Nat × List Nat)) :
    ∀ st : Select2State T, (∃ reads, Select2Inv ops L a m0 st reads) →
      ∃ reads, Select2Inv ops L a m0 (l.foldl (select2_step ops L a) st) reads := by
  induction l with
  | nil => intro st h; exact h
  | cons e l ih =>
    intro st h
    simp only [List.foldl_cons]
    apply ih
    obtain ⟨reads, h⟩ := h
    unfold select2_step
    split
    · next hb =>
      exact select2_round_inv ops L a m0 e.1 hb _
        (fun t ht => (mem_threadOrder _ _ t).1 ht) st reads h
    · exact ⟨reads, h⟩

/-- The invariant holds when `select_kernel2` enters its loop. -/
theorem select2_init_inv {T F : Type} (ops : ElemOps T F) (L : Launch) (a : SelectArgs T F)
    (shared0 : Nat → Nat) (m0 : Output T) :
    Select2Inv ops L a m0 (select2_init shared0 m0) [] := by
  refine ⟨⟨?_, ?_, ?_, ?_⟩, ?_, ?_, ?_, ?_⟩
  · intro tid _; exact ⟨0, by simp [select2_init]⟩
  · simp [read_calls]
  · intro c hc; simp [read_calls] at hc
  · intro tid _ k _ h2
    simp only [select2_init] at h2
    have : 0 ≤ k * (L.gridDim * L.blockDim) := Nat.zero_le _
    omega
  · intro b _; rfl
  · simp [select2_init]
  · simp [select2_init, read_indices]
  · intro p _; exact ⟨rfl, rfl, rfl⟩

/-- A finished run of `select_kernel2` satisfies the invariant. -/
theorem select2_final_inv {T F : Type} (ops : ElemOps T F) (L : Launch) (a : SelectArgs T F)
    (sched : List (Nat × List Nat)) (shared0 : Nat → Nat) (m : Output T) :
    ∃ reads, Select2Inv ops L a m (select2_final ops L a sched shared0 m) reads :=
  foldl_select2_step_inv ops L a m _ _ ⟨[], select2_init_inv ops L a shared0 m⟩

/-- The counter of `select_kernel2` never exceeds its initial value plus the number
of elements of the layer with `abs(element) > threshold`. -/
theorem select_kernel2_count_le {T F : Type} (ops : ElemOps T F) (L : Launch)
    (a : SelectArgs T F) (sched : List (Nat × List Nat)) (shared0 : Nat → Nat) (m : Output T) :
    (select_kernel2 ops L a sched shared0 m).selected_count ≤
      m.selected_count + ((List.range a.num_elements).filter (select2_pass ops a)).length := by
  obtain ⟨reads, h⟩ := select2_final_inv ops L a sched shared0 m
  unfold select_kernel2
  rw [h.count]
  apply Nat.add_le_add_left
  have hnd : (read_indices reads).Nodup := by
    have := h.threads.nodup
    simpa [read_calls, read_indices, List.map_map, Function.comp_def] using this
  have hsub : (read_indices reads).filter (select2_pass ops a) ⊆
      (List.range a.num_elements).filter (select2_pass ops a) := by
    intro x hx
    rw [List.mem_filter] at hx ⊢
    refine ⟨?_, hx.2⟩
    obtain ⟨r, hr, rfl⟩ := List.mem_map.1 hx.1
    have := (h.threads.made (L.blockDim * r.1 + r.2.1, r.2.2)
      (List.mem_map.2 ⟨r, hr, rfl⟩)).2.1
    exact List.mem_range.2 this
  exact ((hnd.filter _).subperm hsub).length_le

/-- The fuel of the inner loop is enough: with `STRIDE ≥ 1` and at least
`num_elements - thread_pos` trips allowed, the loop of lines 134-146 ends because
its condition is false. -/
theorem select2_scan_exit {T F : Type} (ops : ElemOps T F) (a : SelectArgs T F) (S : Nat)
    (hS : 1 ≤ S) (fuel : Nat) :
    ∀ (pos : Nat) (slots : List (T × Nat)) (reads : List Nat),
      a.num_elements ≤ pos + fuel →
      ¬ ((select2_scan ops a S fuel pos slots reads).1 < a.num_elements ∧
        (select2_scan ops a S fuel pos slots reads).2.1.length < num_local_slots) := by
  induction fuel with
  | zero =>
    intro pos slots reads h
    unfold select2_scan
    dsimp only
    omega
  | succ fuel ih =>
    intro pos slots reads h
    unfold select2_scan
    by_cases hc : pos < a.num_elements ∧ slots.length < num_local_slots
    · rw [if_pos hc]
      dsimp only
      split
      · exact ih _ _ _ (by omega)
      · exact ih _ _ _ (by omega)
    · rw [if_neg hc]
      exact hc

/-! ## Claims on both selectors -/

/-- The slots that a run of `select_kernel` leaves alone, for any launch. -/
theorem select_kernel_frame {T F : Type} (ops : ElemOps T F) (L : Launch) (a : SelectArgs T F)
    (sched : List (Nat × List Nat)) (shared0 : Nat → Nat) (m : Output T) (p : Nat)
    (hp : a.target_num ≤ p) :
    (select_kernel ops L a sched shared0 m).selected_indices p = m.selected_indices p ∧
    (select_kernel ops L a sched shared0 m).selected_elements p = m.selected_elements p ∧
    (select_kernel ops L a sched shared0 m).stores p = m.stores p := by
  obtain ⟨reads, h⟩ := foldl_select_step_inv ops L a m (sched ++ block_completion L a.num_elements)
    (select_init L shared0 m) ⟨[], select_init_inv ops L a shared0 m⟩
  exact h.frame p (Or.inr (Or.inr hp))

/-- C2 (the code departs from the claim). One block of two threads on the layer
`5, -7` with threshold `3` and `target_num = 2`, counter initially `0`: both
elements are selected and the counter ends at `2`, but both threads store to slot
`0` (two stores) and no thread stores to slot `1`, which keeps its previous
contents `-1`; this holds whichever thread is served first. -/
theorem select_kernel2_threads_share_slot :
    ((select_kernel2 ElemOps.int exLaunch2 exArgs2 [] (fun _ => 0) exOutput).selected_count = 2 ∧
      (select_kernel2 ElemOps.int exLaunch2 exArgs2 [] (fun _ => 0) exOutput).stores 0 = 2 ∧
      (select_kernel2 ElemOps.int exLaunch2 exArgs2 [] (fun _ => 0) exOutput).stores 1 = 0 ∧
      (select_kernel2 ElemOps.int exLaunch2 exArgs2 [] (fun _ => 0) exOutput).selected_indices 1
        = -1 ∧
      (select_kernel2 ElemOps.int exLaunch2 exArgs2 [] (fun _ => 0) exOutput).selected_elements 1
        = -1) ∧
    ((select_kernel2 ElemOps.int exLaunch2 exArgs2 [(0, [1, 0])] (fun _ => 0)
        exOutput).selected_count = 2 ∧
      (select_kernel2 ElemOps.int exLaunch2 exArgs2 [(0, [1, 0])] (fun _ => 0)
        exOutput).stores 0 = 2 ∧
      (select_kernel2 ElemOps.int exLaunch2 exArgs2 [(0, [1, 0])] (fun _ => 0)
        exOutput).stores 1 = 0 ∧
      (select_kernel2 ElemOps.int exLaunch2 exArgs2 [(0, [1, 0])] (fun _ => 0)
        exOutput).selected_indices 1 = -1 ∧
      (select_kernel2 ElemOps.int exLaunch2 exArgs2 [(0, [1, 0])] (fun _ => 0)
        exOutput).selected_elements 1 = -1) := by
  decide

/-- C4 as stated fails. On the layer `5, -7` with threshold `3` and
`target_num = 1 ≤ num_elements = 2`, counter initially `0`, both selectors report
the count `2`, which exceeds the target. -/
theorem selected_count_exceeds_target :
    exArgs3.target_num ≤ exArgs3.num_elements ∧ exOutput.selected_count = 0 ∧
    ¬ (select_kernel ElemOps.int exLaunch2 exArgs3 [] (fun _ => 0) exOutput).selected_count ≤
      exArgs3.target_num ∧
    ¬ (select_kernel2 ElemOps.int exLaunch2 exArgs3 [] (fun _ => 0) exOutput).selected_count ≤
      exArgs3.target_num := by
  decide

/-- C4 as amended. For a launch with at least one block and one thread per block,
any layer and target and any schedule, a selector run that starts with the counter
at `0` reports a count that is at most the number of elements that pass the test of
the selector (`!(abs(element) < threshold)` for `select_kernel`, whose count equals
that number; `abs(element) > threshold` for `select_kernel2`), hence at most
`num_elements`, and at most `target_num` whenever that number is at most
`target_num`. -/
theorem selected_count_le_passing {T F : Type} (ops : ElemOps T F) (L : Launch)
    (hG : 1 ≤ L.gridDim) (hB : 1 ≤ L.blockDim) (a : SelectArgs T F)
    (sched : List (Nat × List Nat)) (shared0 : Nat → Nat) (m : Output T)
    (hc0 : m.selected_count = 0) :
    ((select_kernel ops L a sched shared0 m).selected_count =
        ((List.range a.num_elements).filter (select_pass ops a)).length ∧
      (select_kernel ops L a sched shared0 m).selected_count ≤ a.num_elements ∧
      (((List.range a.num_elements).filter (select_pass ops a)).length ≤ a.target_num →
        (select_kernel ops L a sched shared0 m).selected_count ≤ a.target_num)) ∧
    ((select_kernel2 ops L a sched shared0 m).selected_count ≤
        ((List.range a.num_elements).filter (select2_pass ops a)).length ∧
      (select_kernel2 ops L a sched shared0 m).selected_count ≤ a.num_elements ∧
      (((List.range a.num_elements).filter (select2_pass ops a)).length ≤ a.target_num →
        (select_kernel2 ops L a sched shared0 m).selected_count ≤ a.target_num)) := by
  have h1 := (select_kernel_count ops L hG hB a sched shared0 m).1
  have h2 := select_kernel2_count_le ops L a sched shared0 m
  rw [hc0, Nat.zero_add] at h1 h2
  have l1 : ((List.range a.num_elements).filter (select_pass ops a)).length ≤ a.num_elements := by
    have := List.length_filter_le (select_pass ops a) (List.range a.num_elements)
    rwa [List.length_range] at this
  have l2 : ((List.range a.num_elements).filter (select2_pass ops a)).length ≤ a.num_elements := by
    have := List.length_filter_le (select2_pass ops a) (List.range a.num_elements)
    rwa [List.length_range] at this
  refine ⟨⟨h1, ?_, ?_⟩, ⟨h2, ?_, ?_⟩⟩
  · rw [h1]; exact l1
  · intro h; rw [h1]; exact h
  · exact le_trans h2 l2
  · intro h; exact le_trans h2 h

theorem selected_count_le_passing_witness :
    ((select_kernel ElemOps.int exLaunch exArgs [(1, [1, 0])] (fun _ => 77)
          exOutput).selected_count =
        ((List.range exArgs.num_elements).filter (select_pass ElemOps.int exArgs)).length ∧
      (select_kernel ElemOps.int exLaunch exArgs [(1, [1, 0])] (fun _ => 77)
          exOutput).selected_count ≤ exArgs.num_elements ∧
      (((List.range exArgs.num_elements).filter (select_pass ElemOps.int exArgs)).length ≤
          exArgs.target_num →
        (select_kernel ElemOps.int exLaunch exArgs [(1, [1, 0])] (fun _ => 77)
          exOutput).selected_count ≤ exArgs.target_num)) ∧
    ((select_kernel2 ElemOps.int exLaunch exArgs [(1, [1, 0])] (fun _ => 77)
          exOutput).selected_count ≤
        ((List.range exArgs.num_elements).filter (select2_pass ElemOps.int exArgs)).length ∧
      (select_kernel2 ElemOps.int exLaunch exArgs [(1, [1, 0])] (fun _ => 77)
          exOutput).selected_count ≤ exArgs.num_elements ∧
      (((List.range exArgs.num_elements).filter (select2_pass ElemOps.int exArgs)).length ≤
          exArgs.target_num →
        (select_kernel2 ElemOps.int exLaunch exArgs [(1, [1, 0])] (fun _ => 77)
          exOutput).selected_count ≤ exArgs.target_num)) :=
  selected_count_le_passing ElemOps.int exLaunch (by decide) (by decide) exArgs [(1, [1, 0])]
    (fun _ => 77) exOutput rfl

/-- C5. For every input, threshold, launch configuration, schedule, initial counter
value and target, neither `select_kernel` nor `select_kernel2` stores to
`selected_elements[p]` or `selected_indices[p]` for a `p ≥ target_num`: the store
count of such a slot does not change and the slot keeps its contents in both
arrays. -/
theorem over_target_writes_discarded {T F : Type} (ops : ElemOps T F) (L : Launch)
    (a : SelectArgs T F) (sched : List (Nat × List Nat)) (shared0 : Nat → Nat) (m : Output T)
    (p : Nat) (hp : a.target_num ≤ p) :
    ((select_kernel ops L a sched shared0 m).stores p = m.stores p ∧
      (select_kernel ops L a sched shared0 m).selected_elements p = m.selected_elements p ∧
      (select_kernel ops L a sched shared0 m).selected_indices p = m.selected_indices p) ∧
    ((select_kernel2 ops L a sched shared0 m).stores p = m.stores p ∧
      (select_kernel2 ops L a sched shared0 m).selected_elements p = m.selected_elements p ∧
      (select_kernel2 ops L a sched shared0 m).selected_indices p = m.selected_indices p) := by
  obtain ⟨a1, a2, a3⟩ := select_kernel_frame ops L a sched shared0 m p hp
  obtain ⟨reads, h⟩ := select2_final_inv ops L a sched shared0 m
  obtain ⟨b1, b2, b3⟩ := h.frame p hp
  exact ⟨⟨a3, a2, a1⟩, ⟨b3, b2, b1⟩⟩

theorem over_target_writes_discarded_witness :
    ((select_kernel ElemOps.int exLaunch2 exArgs3 [(0, [1, 0])] (fun _ => 0) exOutput).stores 1 =
        exOutput.stores 1 ∧
      (select_kernel ElemOps.int exLaunch2 exArgs3 [(0, [1, 0])] (fun _ => 0)
        exOutput).selected_elements 1 = exOutput.selected_elements 1 ∧
      (select_kernel ElemOps.int exLaunch2 exArgs3 [(0, [1, 0])] (fun _ => 0)
        exOutput).selected_indices 1 = exOutput.selected_indices 1) ∧
    ((select_kernel2 ElemOps.int exLaunch2 exArgs3 [(0, [1, 0])] (fun _ => 0) exOutput).stores 1 =
        exOutput.stores 1 ∧
      (select_kernel2 ElemOps.int exLaunch2 exArgs3 [(0, [1, 0])] (fun _ => 0)
        exOutput).selected_elements 1 = exOutput.selected_elements 1 ∧
      (select_kernel2 ElemOps.int exLaunch2 exArgs3 [(0, [1, 0])] (fun _ => 0)
        exOutput).selected_indices 1 = exOutput.selected_indices 1) :=
  over_target_writes_discarded ElemOps.int exLaunch2 exArgs3 [(0, [1, 0])] (fun _ => 0) exOutput 1
    (by decide)

/-! ## Sentinels and the padding of the index array -/

/-- When the index sentinel that `pad_kernel` stores is the sentinel of the index
type. -/
theorem conv_InvalidValue_iff (IndexT SizeT : IntTy) :
    IndexT.conv SizeT.InvalidValue = IndexT.InvalidValue ↔
      (IndexT.bits ≤ SizeT.bits ∨ SizeT.signed = true) := by
  cases IndexT <;> cases SizeT <;> decide

/-- C13 (the code departs from the claim). With `IndexT = int64_t` and
`SizeT = uint32_t`, one block of one thread, `selected_count[0] = 0` and
`target_num = 1`, `pad_kernel` stores `PreDefinedValues<uint32_t>::InvalidValue`
converted to `int64_t`, that is `4294967295`, in `selected_indices[0]`; this is not
`PreDefinedValues<int64_t>::InvalidValue = -1`, and `isValid<int64_t>` is true on
it. The same happens with `IndexT = uint64_t`. -/
theorem pad_kernel_index_sentinel_mismatch :
    (pad_kernel (PreDefinedValues.ofInt IntTy.int32) IntTy.int64 IntTy.uint32
        (Launch.mk 1 1) 1 [] exOutput).selected_indices 0 = 4294967295 ∧
    (pad_kernel (PreDefinedValues.ofInt IntTy.int32) IntTy.int64 IntTy.uint32
        (Launch.mk 1 1) 1 [] exOutput).selected_indices 0 ≠ IntTy.int64.InvalidValue ∧
    isValid (PreDefinedValues.ofInt IntTy.int64)
      ((pad_kernel (PreDefinedValues.ofInt IntTy.int32) IntTy.int64 IntTy.uint32
        (Launch.mk 1 1) 1 [] exOutput).selected_indices 0) = true ∧
    (pad_kernel (PreDefinedValues.ofInt IntTy.int32) IntTy.uint64 IntTy.uint32
        (Launch.mk 1 1) 1 [] exOutput).selected_indices 0 = 4294967295 ∧
    isValid (PreDefinedValues.ofInt IntTy.uint64)
      ((pad_kernel (PreDefinedValues.ofInt IntTy.int32) IntTy.uint64 IntTy.uint32
        (Launch.mk 1 1) 1 [] exOutput).selected_indices 0) = true := by
  decide

/-- C14. For each of the integer types `int32_t`, `uint32_t`, `int64_t`, `uint64_t`
the constant `InvalidValue` is the all-ones pattern of the width (`-1` for the
signed types, `2 ^ w - 1` for the unsigned ones), `isValid(v)` is false if and only
if `v = InvalidValue`, so exactly one value is invalid, and `0` is valid. For
`float` and `double` the sentinel is a NaN and `isValid(v)` is false exactly when
`v` is a NaN. -/
theorem sentinel_per_numeric_type :
    (∀ ty : IntTy,
      ty.InvalidValue = (if ty.signed = true then -1 else 2 ^ ty.bits - 1) ∧
      ty.InvalidValue % 2 ^ ty.bits = 2 ^ ty.bits - 1 ∧
      (∀ v : Int, isValid (PreDefinedValues.ofInt ty) v = false ↔ v = ty.InvalidValue) ∧
      (∃ v : Int, isValid (PreDefinedValues.ofInt ty) v = false ∧
        ∀ w : Int, isValid (PreDefinedValues.ofInt ty) w = false → w = v) ∧
      isValid (PreDefinedValues.ofInt ty) 0 = true) ∧
    (isnan PreDefinedValues.ofFloat.InvalidValue = true ∧
      ∀ v : float, isValid PreDefinedValues.ofFloat v = false ↔ isnan v = true) ∧
    (isnan PreDefinedValues.ofDouble.InvalidValue = true ∧
      ∀ v : double, isValid PreDefinedValues.ofDouble v = false ↔ isnan v = true) := by
  refine ⟨?_, ⟨by decide, ?_⟩, ⟨by decide, ?_⟩⟩
  · intro ty
    have hiff : ∀ v : Int, isValid (PreDefinedValues.ofInt ty) v = false ↔ v = ty.InvalidValue := by
      intro v
      simp [isValid, PreDefinedValues.ofInt]
    refine ⟨?_, ?_, hiff, ⟨ty.InvalidValue, (hiff _).2 rfl, fun w hw => (hiff w).1 hw⟩, ?_⟩
    · cases ty <;> decide
    · cases ty <;> decide
    · cases ty <;> decide
  · intro v
    simp [isValid, PreDefinedValues.ofFloat]
  · intro v
    simp [isValid, PreDefinedValues.ofDouble]

theorem select_pass_ordered {T : Type} [LinearOrderedField T] (div : T → Int → T)
    (a : SelectArgs T T) (i : Nat) :
    select_pass (ElemOps.ordered T div) a i = true ↔ a.threshold ≤ |a.elements i| := by
  simp [select_pass, ElemOps.ordered]

theorem select2_pass_ordered {T : Type} [LinearOrderedField T] (div : T → Int → T)
    (a : SelectArgs T T) (i : Nat) :
    select2_pass (ElemOps.ordered T div) a i = true ↔ a.threshold < |a.elements i| := by
  simp [select2_pass, ElemOps.ordered]

theorem select_scan_selects {T F : Type} (ops : ElemOps T F) (a : SelectArgs T F)
    (start t c : Nat) :
    (select_scan ops a start t c).1.thread_to_select = true ↔
      (start + t < a.num_elements ∧ select_pass ops a (start + t) = true) := by
  unfold select_scan select_pass
  by_cases h1 : start + t < a.num_elements
  · by_cases h2 : (!(ops.lt (ops.abs (a.elements (start + t))) a.threshold)) = true
    · simp [h1, h2]
    · simp [h1, h2]
  · simp [h1]

theorem select2_scan_selects {T F : Type} (ops : ElemOps T F) (a : SelectArgs T F)
    (S pos : Nat) :
    (select2_scan ops a S 1 pos [] []).2.1 ≠ [] ↔
      (pos < a.num_elements ∧ select2_pass ops a pos = true) := by
  unfold select2_scan select2_pass
  by_cases h1 : pos < a.num_elements
  · by_cases h2 : ops.gt (ops.abs (a.elements pos)) (ops.ofThreshold a.threshold) = true
    · simp [h1, h2, select2_scan, num_local_slots]
    · simp [h1, h2, select2_scan, num_local_slots]
  · simp [h1]

/-- C12. For elements and a threshold of one linearly ordered numeric type (no
NaN), whatever its division: the test of `select_kernel` selects `x` exactly when `abs(x) ≥ threshold`
and that of `select_kernel2` exactly when `abs(x) > threshold`, both at the level
of the tests and of what a thread does with an element it reads (`select_kernel`
sets `thread_to_select`, `select_kernel2` fills a local slot). Hence on any layer
the indices that pass the first test are those that pass the second together with
those with `abs(elements[i]) = threshold`, and the indices that pass the first test
but not the second are exactly the latter. -/
theorem threshold_tie_break_asymmetry {T : Type} [LinearOrderedField T] (div : T → Int → T)
    (a : SelectArgs T T) :
    (∀ i, select_pass (ElemOps.ordered T div) a i = true ↔
      selects_greater_or_equal (a.elements i) a.threshold) ∧
    (∀ i, select2_pass (ElemOps.ordered T div) a i = true ↔
      selects_greater (a.elements i) a.threshold) ∧
    (∀ start t c, (select_scan (ElemOps.ordered T div) a start t c).1.thread_to_select = true ↔
      (start + t < a.num_elements ∧ a.threshold ≤ |a.elements (start + t)|)) ∧
    (∀ S pos, (select2_scan (ElemOps.ordered T div) a S 1 pos [] []).2.1 ≠ [] ↔
      (pos < a.num_elements ∧ a.threshold < |a.elements pos|)) ∧
    (∀ i, select_pass (ElemOps.ordered T div) a i = true ↔
      (select2_pass (ElemOps.ordered T div) a i = true ∨ |a.elements i| = a.threshold)) ∧
    (∀ i, (select_pass (ElemOps.ordered T div) a i = true ∧
        select2_pass (ElemOps.ordered T div) a i = false) ↔ |a.elements i| = a.threshold) ∧
    (List.range a.num_elements).filter (select_pass (ElemOps.ordered T div) a) =
      (List.range a.num_elements).filter
        (fun i => select2_pass (ElemOps.ordered T div) a i || decide (|a.elements i| = a.threshold)) := by
  have h1 := select_pass_ordered div a
  have h2 := select2_pass_ordered div a
  have h5 : ∀ i, select_pass (ElemOps.ordered T div) a i = true ↔
      (select2_pass (ElemOps.ordered T div) a i = true ∨ |a.elements i| = a.threshold) := by
    intro i
    rw [h1, h2, le_iff_lt_or_eq, eq_comm]
  refine ⟨h1, h2, ?_, ?_, h5, ?_, ?_⟩
  · intro start t c
    rw [select_scan_selects, h1]
  · intro S pos
    rw [select2_scan_selects, h2]
  · intro i
    rw [h1, ← Bool.not_eq_true, h2]
    constructor
    · rintro ⟨hle, hnlt⟩
      exact le_antisymm (not_lt.1 hnlt) hle
    · intro h
      rw [h]
      exact ⟨le_rfl, lt_irrefl _⟩
  · apply List.filter_congr
    intro i _
    rw [Bool.eq_iff_iff, h5]
    simp

/-! ## Sizes derived from the default configuration -/

theorem rat_floor_eq (q : ℚ) (z : Int) (h1 : (z : ℚ) ≤ q) (h2 : q < (z : ℚ) + 1) :
    Rat.floor q = z := by
  apply le_antisymm
  · by_contra hc
    have h3 : z + 1 ≤ Rat.floor q := by omega
    have h4 : ((z + 1 : Int) : ℚ) ≤ q := Rat.le_floor.1 h3
    push_cast at h4
    exact absurd h2 (not_lt.2 h4)
  · exact Rat.le_floor.2 h1

theorem round_nearest_eq (x : ℚ) (n : Nat) (h1 : (n : ℚ) ≤ x + 1 / 2) (h2 : x + 1 / 2 < (n : ℚ) + 1) :
    round_nearest x = n := by
  unfold round_nearest
  rw [rat_floor_eq (x + 1 / 2) (n : Int) (by exact_mod_cast h1) (by exact_mod_cast h2)]
  rfl

theorem default_target_round :
    round_nearest ((10000 : ℚ) * (1 - DgcConfig.default.final_sparsity)) = 10 := by
  apply round_nearest_eq <;> norm_num [DgcConfig.default]

theorem default_sample_round :
    round_nearest (DgcConfig.default.sampling_rate * (10000 : ℚ)) = 100 := by
  apply round_nearest_eq <;> norm_num [DgcConfig.default]

theorem default_sample_count : sample_count DgcConfig.default 10000 = 4000 := by
  unfold sample_count
  have h := default_sample_round
  simp only [Nat.cast_ofNat] at h ⊢
  rw [h]
  decide

/-- C15 as stated fails. With the default `DgcConfig` values and `N = 10000`, the
sample count `min(N, max(min_sampling_num, min_selected_samples_per_layer,
round(sampling_rate * N)))` is not `100`: `min_sampling_num = 4000` dominates. -/
theorem default_sample_count_ne_100 : sample_count DgcConfig.default 10000 ≠ 100 := by
  rw [default_sample_count]
  decide

/-- C15 as amended. With the default `DgcConfig` values, for a layer of
`N = 10000` elements at sparsity `final_sparsity = 0.999` the target
`max(min_gradients_comm_per_layer, round(N * (1 - sparsity)))` is `10`;
`round(sampling_rate * N)` with `sampling_rate = 0.01` is `100`, and the sample
count `min(N, max(min_sampling_num, min_selected_samples_per_layer, round(sampling_rate * N)))`
is `4000`, the default `min_sampling_num`. -/
theorem default_sizing :
    target_count DgcConfig.default 10000 DgcConfig.default.final_sparsity = 10 ∧
    round_nearest (DgcConfig.default.sampling_rate * (10000 : ℚ)) = 100 ∧
    sample_count DgcConfig.default 10000 = 4000 := by
  refine ⟨?_, default_sample_round, default_sample_count⟩
  unfold target_count
  have h := default_target_round
  simp only [Nat.cast_ofNat] at h ⊢
  rw [h]
  decide

/-! ## Further properties of `select_kernel` -/

/-- Every passing index of the layer is given a slot by a finished run of
`select_kernel`, and is found there if the slot is below `target_num`. -/
theorem select_kernel_slot_of_pass {T F : Type} (ops : ElemOps T F) (L : Launch)
    (hG : 1 ≤ L.gridDim) (hB : 1 ≤ L.blockDim) (a : SelectArgs T F)
    (sched : List (Nat × List Nat)) (shared0 : Nat → Nat) (m : Output T)
    (i : Nat) (hi : i < a.num_elements) (hpass : select_pass ops a i = true) :
    ∃ p, m.selected_count ≤ p ∧ p < (select_kernel ops L a sched shared0 m).selected_count ∧
      (p < a.target_num →
        (select_kernel ops L a sched shared0 m).stores p = m.stores p + 1 ∧
        (select_kernel ops L a sched shared0 m).selected_indices p = (i : Int) ∧
        (select_kernel ops L a sched shared0 m).selected_elements p =
          ops.div (a.elements i) a.global_num_gpus) := by
  obtain ⟨reads, h, hperm⟩ := select_final_inv ops L a hG hB sched shared0 m
  have hmem : i ∈ (read_indices reads).filter (select_pass ops a) :=
    List.mem_filter.2 ⟨hperm.mem_iff.2 (List.mem_range.2 hi), hpass⟩
  obtain ⟨j, hj, hji⟩ := List.getElem_of_mem hmem
  have hget : ((read_indices reads).filter (select_pass ops a))[j]? = some i := by
    rw [List.getElem?_eq_getElem hj, hji]
  refine ⟨m.selected_count + j, by omega, ?_, ?_⟩
  · unfold select_kernel
    rw [h.count]
    omega
  · intro hlt
    obtain ⟨s1, s2, s3⟩ := h.slots j i hget hlt
    exact ⟨s3, s1, s2⟩

/-- The test of an ordered arithmetic is the exact comparison of the magnitude
with the threshold. -/
theorem ordered_test_exact (div : ℚ → Int → ℚ) (x t : ℚ) :
    (ElemOps.ordered ℚ div).lt ((ElemOps.ordered ℚ div).abs x) t = true ↔ |x| < t := by
  simp [ElemOps.ordered]

/-- In `float` the integers of magnitude below `2 ^ 24` are exact. -/
theorem float_of_int_small (x : Int) (hx : x.natAbs < 2 ^ 24) : float_of_int x = x := by
  unfold float_of_int
  have hshift : float_shift 40 x.natAbs = 0 := by
    unfold float_shift
    rw [if_pos hx]
  simp only [hshift, pow_zero, Nat.div_one, Nat.mod_one, Nat.mul_zero, Nat.mul_one]
  have hq : ¬ (1 < 0 ∨ (0 = 1 ∧ x.natAbs % 2 = 1)) := by omega
  rw [if_neg hq]
  split <;> omega

/-- The test of `select_kernel` on an `int32_t` element of magnitude below `2 ^ 24`
against a finite `float` threshold is the exact comparison of `|x|` with the
number the threshold stands for. -/
theorem int32_test_exact (x : Int) (t : float) (hx : |x| < 2 ^ 24) (hnan : isnan t = false)
    (hfin : t.exponent ≠ 255) :
    ElemOps.int32.lt (ElemOps.int32.abs x) t = true ↔ |(x : ℚ)| < t.toRat := by
  have h0 : (0 : Int) ≤ |x| := abs_nonneg x
  have habs : IntTy.int32.conv |x| = |x| := by
    have hm : |x| % 4294967296 = |x| := Int.emod_eq_of_lt h0 (by omega)
    have hlt : ¬ (2147483648 : Int) ≤ |x| := by omega
    simp [IntTy.conv, IntTy.bits, IntTy.signed, hm, hlt]
  have hnat : (|x|).natAbs < 2 ^ 24 := by omega
  have hpos : (0 : ℚ) < ((2 ^ 150 : Nat) : ℚ) := by positivity
  have hbias : 2 ^ (8 - 1) - 1 + 23 = 150 := by norm_num
  show int_lt_float (IntTy.int32.conv |x|) t = true ↔ _
  unfold int_lt_float
  rw [habs, float_of_int_small _ hnat, if_neg (by simp [hnan]), if_neg hfin, decide_eq_true_iff]
  unfold IEEE.toRat
  rw [hbias, lt_div_iff₀ hpos, ← Int.cast_abs]
  norm_cast

/-- The shift of `float_of_int` is the least one that leaves 24 bits. -/
theorem float_shift_spec : ∀ (fuel n : Nat), n < 2 ^ (24 + fuel) →
    n < 2 ^ (24 + float_shift fuel n) ∧
      (float_shift fuel n = 0 ∨ 2 ^ (23 + float_shift fuel n) ≤ n) := by
  intro fuel
  induction fuel with
  | zero =>
    intro n hn
    exact ⟨by simpa [float_shift] using hn, Or.inl rfl⟩
  | succ f ih =>
    intro n hn
    unfold float_shift
    by_cases h : n < 2 ^ 24
    · rw [if_pos h]
      exact ⟨by simpa using h, Or.inl rfl⟩
    · rw [if_neg h]
      have hn2 : n / 2 < 2 ^ (24 + f) := by
        have e : 2 ^ (24 + (f + 1)) = 2 ^ (24 + f) * 2 := by rw [← Nat.add_assoc, pow_succ]
        omega
      obtain ⟨h1, h2⟩ := ih (n / 2) hn2
      have e1 : 2 ^ (24 + (float_shift f (n / 2) + 1)) = 2 ^ (24 + float_shift f (n / 2)) * 2 := by
        rw [← Nat.add_assoc, pow_succ]
      have e2 : 2 ^ (23 + (float_shift f (n / 2) + 1)) = 2 ^ (23 + float_shift f (n / 2)) * 2 := by
        rw [← Nat.add_assoc, pow_succ]
      refine ⟨by omega, Or.inr ?_⟩
      rcases h2 with h2 | h2
      · rw [h2]
        norm_num
        omega
      · omega

/-- Rounding to `float`, up or down, never takes a magnitude from at or above a
`float` to below it: if the rounded magnitude is below `s * 2 ^ k / 2 ^ 150` with
`s < 2 ^ 24`, so is the magnitude itself. -/
theorem float_round_sound (n s k : Nat) (hn : n < 2 ^ 64) (hs : s < 2 ^ 24)
    (q1 : Nat)
    (hq1 : q1 = n / 2 ^ float_shift 40 n ∨
      (q1 = n / 2 ^ float_shift 40 n + 1))
    (h : q1 * 2 ^ float_shift 40 n * 2 ^ 150 < s * 2 ^ k) :
    n * 2 ^ 150 < s * 2 ^ k := by
  obtain ⟨h1, h2⟩ := float_shift_spec 40 n (by omega)
  generalize float_shift 40 n = e at *
  have hpos : 0 < 2 ^ e := by positivity
  have hdm := Nat.div_add_mod n (2 ^ e)
  have hr := Nat.mod_lt n hpos
  rcases hq1 with rfl | rfl
  · by_cases hr0 : n % 2 ^ e = 0
    · have : n / 2 ^ e * 2 ^ e = n := by rw [Nat.mul_comm]; omega
      rwa [this] at h
    · have he : e ≠ 0 := by
        rintro rfl
        exact hr0 (by rw [pow_zero, Nat.mod_one])
      have h23 : 2 ^ 23 ≤ n / 2 ^ e := by
        rcases h2 with h2 | h2
        · exact absurd h2 he
        · rw [Nat.le_div_iff_mul_le hpos, ← pow_add]
          exact h2
      have hk : e + 150 ≤ k := by
        by_contra hk
        have hk1 : k ≤ e + 149 := by omega
        have c1 : s * 2 ^ k < 2 ^ 24 * 2 ^ k := Nat.mul_lt_mul_of_pos_right hs (by positivity)
        have c2 : 2 ^ 24 * 2 ^ k ≤ 2 ^ 24 * 2 ^ (e + 149) :=
          Nat.mul_le_mul_left _ (Nat.pow_le_pow_right (by norm_num) hk1)
        have c3 : 2 ^ 24 * 2 ^ (e + 149) = 2 ^ 23 * (2 ^ e * 2 ^ 150) := by
          rw [← pow_add, ← pow_add, ← pow_add]
          congr 1
          omega
        have c4 : 2 ^ 23 * (2 ^ e * 2 ^ 150) ≤ n / 2 ^ e * (2 ^ e * 2 ^ 150) :=
          Nat.mul_le_mul_right _ h23
        rw [Nat.mul_assoc] at h
        omega
      obtain ⟨j, rfl⟩ := Nat.exists_eq_add_of_le hk
      have e3 : s * 2 ^ (e + 150 + j) = s * 2 ^ j * (2 ^ e * 2 ^ 150) := by
        rw [pow_add, pow_add]
        ring
      rw [e3, Nat.mul_assoc] at h
      have hlt : n / 2 ^ e < s * 2 ^ j := Nat.lt_of_mul_lt_mul_right h
      rw [e3]
      have hn' : n < s * 2 ^ j * 2 ^ e := by
        have : (n / 2 ^ e + 1) * 2 ^ e ≤ s * 2 ^ j * 2 ^ e := Nat.mul_le_mul_right _ hlt
        have e4 : (n / 2 ^ e + 1) * 2 ^ e = 2 ^ e * (n / 2 ^ e) + 2 ^ e := by ring
        omega
      calc n * 2 ^ 150 < s * 2 ^ j * 2 ^ e * 2 ^ 150 :=
            Nat.mul_lt_mul_of_pos_right hn' (by positivity)
        _ = s * 2 ^ j * (2 ^ e * 2 ^ 150) := by ring
  · have hn' : n < (n / 2 ^ e + 1) * 2 ^ e := by
      have e4 : (n / 2 ^ e + 1) * 2 ^ e = 2 ^ e * (n / 2 ^ e) + 2 ^ e := by ring
      omega
    calc n * 2 ^ 150 < (n / 2 ^ e + 1) * 2 ^ e * 2 ^ 150 :=
          Nat.mul_lt_mul_of_pos_right hn' (by positivity)
      _ < s * 2 ^ k := h

/-- The same for `float_of_int` on a non-negative integer. -/
theorem float_of_int_sound (n s k : Nat) (hn : n < 2 ^ 64) (hs : s < 2 ^ 24)
    (h : float_of_int (n : Int) * ((2 ^ 150 : Nat) : Int) < ((s * 2 ^ k : Nat) : Int)) :
    (n : Int) * ((2 ^ 150 : Nat) : Int) < ((s * 2 ^ k : Nat) : Int) := by
  unfold float_of_int at h
  simp only [Int.natAbs_ofNat] at h
  rw [if_neg (by omega), ← Nat.cast_mul, Nat.cast_lt] at h
  rw [← Nat.cast_mul, Nat.cast_lt]
  split at h
  · exact float_round_sound n s k hn hs _ (Or.inr rfl) h
  · exact float_round_sound n s k hn hs _ (Or.inl rfl) h

/-- The test of `select_kernel` on an `int32_t` element other than `INT32_MIN`
against a finite `float` threshold is sound: it is true only when `|x|` is below the
number the threshold stands for. -/
theorem int32_test_sound (x : Int) (t : float) (hlo : -2147483648 < x) (hhi : x ≤ 2147483647)
    (hnan : isnan t = false) (hfin : t.exponent ≠ 255) (hwf : t.mantissa < 2 ^ 23)
    (h : ElemOps.int32.lt (ElemOps.int32.abs x) t = true) : |(x : ℚ)| < t.toRat := by
  have h0 : (0 : Int) ≤ |x| := abs_nonneg x
  have hle : |x| ≤ 2147483647 := abs_le.2 ⟨by omega, hhi⟩
  have habs : IntTy.int32.conv |x| = |x| := by
    have hm : |x| % 4294967296 = |x| := Int.emod_eq_of_lt h0 (by omega)
    have hlt : ¬ (2147483648 : Int) ≤ |x| := by omega
    simp [IntTy.conv, IntTy.bits, IntTy.signed, hm, hlt]
  have hcast : ((|x|).natAbs : Int) = |x| := Int.natAbs_of_nonneg h0
  have hpos : (0 : ℚ) < ((2 ^ 150 : Nat) : ℚ) := by positivity
  have hbias : 2 ^ (8 - 1) - 1 + 23 = 150 := by norm_num
  have hsig : t.significand < 2 ^ 24 := by
    unfold IEEE.significand
    split <;> omega
  change int_lt_float (IntTy.int32.conv |x|) t = true at h
  unfold int_lt_float at h
  rw [habs, if_neg (by simp [hnan]), if_neg hfin, decide_eq_true_iff, ← hcast] at h
  unfold IEEE.toRat
  rw [hbias, lt_div_iff₀ hpos, ← Int.cast_abs, ← hcast]
  have key : (((|x|).natAbs : Nat) : Int) * ((2 ^ 150 : Nat) : Int) < t.numerator := by
    unfold IEEE.numerator at h ⊢
    split at h
    · have hf : (0 : Int) ≤ float_of_int ((|x|).natAbs : Int) := by
        unfold float_of_int
        rw [if_neg (by omega)]
        exact Int.ofNat_nonneg _
      have hneg : -((t.significand * 2 ^ t.scale : Nat) : Int) ≤ 0 := by omega
      have hmul : (0 : Int) ≤ float_of_int ((|x|).natAbs : Int) * ((2 ^ 150 : Nat) : Int) :=
        mul_nonneg hf (Int.ofNat_nonneg _)
      omega
    · rename_i hs
      rw [if_neg hs]
      exact float_of_int_sound _ _ _ (by omega) hsig h
  exact_mod_cast key

/-- C16 (as stated, refuted). The layer of the single `int32_t` element
`INT32_MIN = -2147483648` with threshold `3.0f`, one block of one thread, counter
at `0`, `target_num = 1`: the layer is not empty and the threshold `3` is at most
`|elements[0]| = 2147483648`, yet `abs(INT32_MIN)` is `INT32_MIN`, which is below
the threshold, and `select_kernel` reports a count of `0` and stores nothing in
slot `0`. -/
theorem select_kernel_starves_on_int32_min :
    1 ≤ exArgsMin.num_elements ∧ 1 ≤ exArgsMin.target_num ∧ exOutput.selected_count = 0 ∧
    exArgsMin.threshold.toRat = 3 ∧
    exArgsMin.threshold.toRat ≤ |((exArgsMin.elements 0 : Int) : ℚ)| ∧
    (select_kernel ElemOps.int32 (Launch.mk 1 1) exArgsMin [] (fun _ => 0)
      exOutput).selected_count = 0 ∧
    (select_kernel ElemOps.int32 (Launch.mk 1 1) exArgsMin [] (fun _ => 0)
      exOutput).stores 0 = 0 := by
  have ht : exArgsMin.threshold.toRat = 3 := by
    norm_num [exArgsMin, IEEE.toRat, IEEE.numerator, IEEE.significand, IEEE.scale]
  refine ⟨by decide, by decide, rfl, ht, ?_, by decide, by decide⟩
  rw [ht]
  norm_num [exArgsMin]

/-- C16 (amended). Let the test `abs(x) < threshold` be sound on the layer: for
every element it is true only when `|x|`, the magnitude of the number the element
stands for, is below the number the threshold stands for (no overflow of `abs`,
no rounding of an element at or above the threshold to below it; for `int32_t`
every element other than `INT32_MIN`). For a launch with
at least one block and one thread per block, any schedule and any previous contents
of the buffers: if some element `i < num_elements` has `threshold ≤ |elements[i]|`
(as is the case for every non-empty layer when the threshold is `0`, the all-zero
layer included), then `select_kernel` started with the counter at `0` reports a
count of at least `1`, and if `target_num ≥ 1` it stores a real selection in slot
`0`: exactly one store, an index `k < num_elements` that passes the test of the
kernel, and the value `elements[k] / global_num_gpus` as the element type computes
it. -/
theorem select_kernel_does_not_starve {T F : Type} (ops : ElemOps T F) (val : T → ℚ)
    (thr : F → ℚ) (L : Launch) (hG : 1 ≤ L.gridDim) (hB : 1 ≤ L.blockDim)
    (a : SelectArgs T F) (sched : List (Nat × List Nat)) (shared0 : Nat → Nat) (m : Output T)
    (hc0 : m.selected_count = 0)
    (hsound : ∀ i, i < a.num_elements →
      ops.lt (ops.abs (a.elements i)) a.threshold = true →
        |val (a.elements i)| < thr a.threshold)
    (hmax : ∃ i, i < a.num_elements ∧ thr a.threshold ≤ |val (a.elements i)|) :
    1 ≤ (select_kernel ops L a sched shared0 m).selected_count ∧
    (1 ≤ a.target_num →
      (select_kernel ops L a sched shared0 m).stores 0 = m.stores 0 + 1 ∧
      ∃ k, k < a.num_elements ∧ select_pass ops a k = true ∧
        (select_kernel ops L a sched shared0 m).selected_indices 0 = (k : Int) ∧
        (select_kernel ops L a sched shared0 m).selected_elements 0 =
          ops.div (a.elements k) a.global_num_gpus) := by
  obtain ⟨i, hi, hle⟩ := hmax
  have hpass : select_pass ops a i = true := by
    unfold select_pass
    rw [Bool.not_eq_true', ← Bool.not_eq_true]
    exact fun h => absurd (hsound i hi h) (not_lt.2 hle)
  obtain ⟨p, _, hp, _⟩ := select_kernel_slot_of_pass ops L hG hB a sched shared0 m i hi hpass
  refine ⟨by omega, ?_⟩
  intro ht
  obtain ⟨f1, _⟩ := select_kernel_filled ops L hG hB a sched shared0 m
  exact f1 0 (by omega) (by omega)

theorem select_kernel_does_not_starve_witness :
    1 ≤ (select_kernel ElemOps.int32 exLaunch exArgsZero [(1, [1, 0])] (fun _ => 5)
        exOutput).selected_count ∧
    (1 ≤ exArgsZero.target_num →
      (select_kernel ElemOps.int32 exLaunch exArgsZero [(1, [1, 0])] (fun _ => 5)
        exOutput).stores 0 = exOutput.stores 0 + 1 ∧
      ∃ k, k < exArgsZero.num_elements ∧ select_pass ElemOps.int32 exArgsZero k = true ∧
        (select_kernel ElemOps.int32 exLaunch exArgsZero [(1, [1, 0])] (fun _ => 5)
          exOutput).selected_indices 0 = (k : Int) ∧
        (select_kernel ElemOps.int32 exLaunch exArgsZero [(1, [1, 0])] (fun _ => 5)
          exOutput).selected_elements 0 =
          ElemOps.int32.div (exArgsZero.elements k) exArgsZero.global_num_gpus) :=
  select_kernel_does_not_starve ElemOps.int32 (fun x => (x : ℚ)) IEEE.toRat exLaunch
    (by decide) (by decide) exArgsZero [(1, [1, 0])] (fun _ => 5) exOutput rfl
    (fun _ _ => (int32_test_exact 0 ⟨false, 0, 0⟩ (by decide) (by decide) (by decide)).1)
    ⟨0, by decide, by norm_num [exArgsZero, IEEE.toRat, IEEE.numerator, IEEE.significand,
      IEEE.scale]⟩

/-- The pairs in the filled slots of a finished run of `select_kernel` whose count
is within the target are the pairs `(i, elements[i] / global_num_gpus)` of the
passing indices. -/
theorem select_kernel_pairs {T F : Type} (ops : ElemOps T F) (L : Launch)
    (hG : 1 ≤ L.gridDim) (hB : 1 ≤ L.blockDim) (a : SelectArgs T F)
    (sched : List (Nat × List Nat)) (shared0 : Nat → Nat) (m : Output T)
    (hc0 : m.selected_count = 0)
    (hle : (select_kernel ops L a sched shared0 m).selected_count ≤ a.target_num)
    (ix : Int) (v : T) :
    (∃ p, p < (select_kernel ops L a sched shared0 m).selected_count ∧
      (select_kernel ops L a sched shared0 m).selected_indices p = ix ∧
      (select_kernel ops L a sched shared0 m).selected_elements p = v) ↔
    ∃ i, i < a.num_elements ∧ select_pass ops a i = true ∧ ix = (i : Int) ∧
      v = ops.div (a.elements i) a.global_num_gpus := by
  constructor
  · rintro ⟨p, hp, h1, h2⟩
    obtain ⟨f1, _⟩ := select_kernel_filled ops L hG hB a sched shared0 m
    obtain ⟨_, i, hi, hpass, g1, g2⟩ := f1 p (by omega) (by omega)
    exact ⟨i, hi, hpass, by rw [← h1, g1], by rw [← h2, g2]⟩
  · rintro ⟨i, hi, hpass, rfl, rfl⟩
    obtain ⟨p, _, hp, hslot⟩ := select_kernel_slot_of_pass ops L hG hB a sched shared0 m i hi hpass
    obtain ⟨_, s1, s2⟩ := hslot (by omega)
    exact ⟨p, hp, s1, s2⟩

/-- C20. For a fixed layer, threshold, divisor, target, launch configuration (at
least one block and one thread per block) and initial buffers with the counter at
`0`, any two schedules (and any stale contents of the shared variables) give the
same final counter, and when that count is at most `target_num` the same set of
`(index, value)` pairs in the slots `[0, count)`: a pair is found in some slot of
the first run if and only if it is found in some slot of the second. -/
theorem select_kernel_schedule_independent {T F : Type} (ops : ElemOps T F) (L : Launch)
    (hG : 1 ≤ L.gridDim) (hB : 1 ≤ L.blockDim) (a : SelectArgs T F)
    (sched1 sched2 : List (Nat × List Nat)) (shared1 shared2 : Nat → Nat) (m : Output T)
    (hc0 : m.selected_count = 0) :
    (select_kernel ops L a sched1 shared1 m).selected_count =
      (select_kernel ops L a sched2 shared2 m).selected_count ∧
    ((select_kernel ops L a sched1 shared1 m).selected_count ≤ a.target_num →
      ∀ (ix : Int) (v : T),
        (∃ p, p < (select_kernel ops L a sched1 shared1 m).selected_count ∧
          (select_kernel ops L a sched1 shared1 m).selected_indices p = ix ∧
          (select_kernel ops L a sched1 shared1 m).selected_elements p = v) ↔
        (∃ q, q < (select_kernel ops L a sched2 shared2 m).selected_count ∧
          (select_kernel ops L a sched2 shared2 m).selected_indices q = ix ∧
          (select_kernel ops L a sched2 shared2 m).selected_elements q = v)) := by
  have e : (select_kernel ops L a sched1 shared1 m).selected_count =
      (select_kernel ops L a sched2 shared2 m).selected_count := by
    rw [(select_kernel_count ops L hG hB a sched1 shared1 m).1,
      (select_kernel_count ops L hG hB a sched2 shared2 m).1]
  refine ⟨e, ?_⟩
  intro hle ix v
  rw [select_kernel_pairs ops L hG hB a sched1 shared1 m hc0 hle ix v,
    select_kernel_pairs ops L hG hB a sched2 shared2 m hc0 (by rw [← e]; exact hle) ix v]

theorem select_kernel_schedule_independent_witness :
    (select_kernel ElemOps.int exLaunch exArgs [(1, [1, 0]), (0, [1])] (fun _ => 77)
        exOutput).selected_count =
      (select_kernel ElemOps.int exLaunch exArgs [] (fun _ => 3) exOutput).selected_count ∧
    ((select_kernel ElemOps.int exLaunch exArgs [(1, [1, 0]), (0, [1])] (fun _ => 77)
        exOutput).selected_count ≤ exArgs.target_num →
      ∀ (ix : Int) (v : Int),
        (∃ p, p < (select_kernel ElemOps.int exLaunch exArgs [(1, [1, 0]), (0, [1])]
            (fun _ => 77) exOutput).selected_count ∧
          (select_kernel ElemOps.int exLaunch exArgs [(1, [1, 0]), (0, [1])] (fun _ => 77)
            exOutput).selected_indices p = ix ∧
          (select_kernel ElemOps.int exLaunch exArgs [(1, [1, 0]), (0, [1])] (fun _ => 77)
            exOutput).selected_elements p = v) ↔
        (∃ q, q < (select_kernel ElemOps.int exLaunch exArgs [] (fun _ => 3)
            exOutput).selected_count ∧
          (select_kernel ElemOps.int exLaunch exArgs [] (fun _ => 3) exOutput).selected_indices q
            = ix ∧
          (select_kernel ElemOps.int exLaunch exArgs [] (fun _ => 3) exOutput).selected_elements q
            = v)) :=
  select_kernel_schedule_independent ElemOps.int exLaunch (by decide) (by decide) exArgs
    [(1, [1, 0]), (0, [1])] [] (fun _ => 77) (fun _ => 3) exOutput rfl

/-! ## Selecting, then reconstructing by scatter -/

theorem scatter_succ {T : Type} (zero : T) (m : Output T) (count : Nat) :
    scatter zero m (count + 1) =
      Function.update (scatter zero m count) (m.selected_indices count).toNat
        (m.selected_elements count) := by
  unfold scatter
  rw [List.range_succ, List.foldl_append]
  rfl

/-- Scatter of pairs with pairwise different indices: every pair is found at its
index, every other position is zero. -/
theorem scatter_spec {T : Type} (zero : T) (m : Output T) (count : Nat) :
    (∀ p q, p < count → q < count →
      (m.selected_indices p).toNat = (m.selected_indices q).toNat → p = q) →
    (∀ p, p < count → scatter zero m count (m.selected_indices p).toNat = m.selected_elements p) ∧
    (∀ i, (∀ p, p < count → (m.selected_indices p).toNat ≠ i) → scatter zero m count i = zero) := by
  induction count with
  | zero =>
    intro _
    exact ⟨fun p hp => absurd hp (Nat.not_lt_zero p), fun i _ => rfl⟩
  | succ n ih =>
    intro hinj
    obtain ⟨ih1, ih2⟩ := ih (fun p q hp hq => hinj p q (by omega) (by omega))
    rw [scatter_succ]
    constructor
    · intro p hp
      by_cases e : p = n
      · subst e
        rw [Function.update_same]
      · have hne : (m.selected_indices p).toNat ≠ (m.selected_indices n).toNat :=
          fun h => e (hinj p n hp (by omega) h)
        rw [Function.update_noteq hne]
        exact ih1 p (by omega)
    · intro i hi
      rw [Function.update_noteq (fun h => hi n (by omega) h.symm)]
      exact ih2 i (fun p hp => hi p (by omega))

/-- C11 as stated fails. On the layer `5, -7, 0, 3, -9, 1` with threshold `3`,
`global_num_gpus = 2` and `target_num = 4` (four elements are selected),
`select_kernel` from a zero counter followed by the scatter of the slots
`[0, count)` leaves `5 / 2 = 2` at the selected position `0`, not `input[0] = 5`. -/
theorem scatter_not_input :
    exOutput.selected_count = 0 ∧
    (select_kernel ElemOps.int exLaunch exArgs [] (fun _ => 0) exOutput).selected_count ≤
      exArgs.target_num ∧
    select_pass ElemOps.int exArgs 0 = true ∧
    scatter ElemOps.int.zero (select_kernel ElemOps.int exLaunch exArgs [] (fun _ => 0) exOutput)
      (select_kernel ElemOps.int exLaunch exArgs [] (fun _ => 0) exOutput).selected_count 0 = 2 ∧
    scatter ElemOps.int.zero (select_kernel ElemOps.int exLaunch exArgs [] (fun _ => 0) exOutput)
      (select_kernel ElemOps.int exLaunch exArgs [] (fun _ => 0) exOutput).selected_count 0 ≠
      exArgs.elements 0 := by
  decide

/-- C11 as amended. For a launch with at least one block and one thread per block,
any layer, threshold, divisor and schedule, and a target that is at least the
number of selected elements: `select_kernel` from a zero counter followed by the
scatter of the `(index, value)` pairs of the slots `[0, count)` into a zero-filled
dense buffer yields `input[i] / global_num_gpus` at every selected position
`i < num_elements` and zero at every other position; it yields `input[i]` at the
selected positions when division by `global_num_gpus` leaves every value as it is
(one worker). -/
theorem select_then_scatter {T F : Type} (ops : ElemOps T F) (L : Launch)
    (hG : 1 ≤ L.gridDim) (hB : 1 ≤ L.blockDim) (a : SelectArgs T F)
    (sched : List (Nat × List Nat)) (shared0 : Nat → Nat) (m : Output T)
    (hc0 : m.selected_count = 0)
    (htarget : ((List.range a.num_elements).filter (select_pass ops a)).length ≤ a.target_num) :
    (∀ i, scatter ops.zero (select_kernel ops L a sched shared0 m)
        (select_kernel ops L a sched shared0 m).selected_count i =
      if i < a.num_elements ∧ select_pass ops a i = true
      then ops.div (a.elements i) a.global_num_gpus else ops.zero) ∧
    ((∀ x, ops.div x a.global_num_gpus = x) →
      ∀ i, scatter ops.zero (select_kernel ops L a sched shared0 m)
        (select_kernel ops L a sched shared0 m).selected_count i =
      if i < a.num_elements ∧ select_pass ops a i = true then a.elements i else ops.zero) := by
  have hcount := (select_kernel_count ops L hG hB a sched shared0 m).1
  rw [hc0, Nat.zero_add] at hcount
  have hle : (select_kernel ops L a sched shared0 m).selected_count ≤ a.target_num := by
    rw [hcount]; exact htarget
  obtain ⟨f1, f2⟩ := select_kernel_filled ops L hG hB a sched shared0 m
  have hinj : ∀ p q, p < (select_kernel ops L a sched shared0 m).selected_count →
      q < (select_kernel ops L a sched shared0 m).selected_count →
      ((select_kernel ops L a sched shared0 m).selected_indices p).toNat =
        ((select_kernel ops L a sched shared0 m).selected_indices q).toNat → p = q := by
    intro p q hp hq h
    obtain ⟨_, i, _, _, g1, _⟩ := f1 p (by omega) (by omega)
    obtain ⟨_, j, _, _, g1', _⟩ := f1 q (by omega) (by omega)
    apply f2 p q (by omega) (by omega) (by omega) (by omega)
    rw [g1, g1'] at h ⊢
    simp only [Int.toNat_ofNat] at h
    rw [h]
  obtain ⟨s1, s2⟩ := scatter_spec ops.zero (select_kernel ops L a sched shared0 m)
    (select_kernel ops L a sched shared0 m).selected_count hinj
  have main : ∀ i, scatter ops.zero (select_kernel ops L a sched shared0 m)
      (select_kernel ops L a sched shared0 m).selected_count i =
      if i < a.num_elements ∧ select_pass ops a i = true
      then ops.div (a.elements i) a.global_num_gpus else ops.zero := by
    intro i
    by_cases hi : i < a.num_elements ∧ select_pass ops a i = true
    · rw [if_pos hi]
      obtain ⟨p, _, hp, hslot⟩ := select_kernel_slot_of_pass ops L hG hB a sched shared0 m i
        hi.1 hi.2
      obtain ⟨_, g1, g2⟩ := hslot (by omega)
      have := s1 p hp
      rw [g1, g2, Int.toNat_ofNat] at this
      exact this
    · rw [if_neg hi]
      apply s2
      intro p hp heq
      obtain ⟨_, j, hj, hpass, g1, _⟩ := f1 p (by omega) (by omega)
      rw [g1, Int.toNat_ofNat] at heq
      subst heq
      exact hi ⟨hj, hpass⟩
  refine ⟨main, ?_⟩
  intro hdiv i
  rw [main i, hdiv]

theorem select_then_scatter_witness :
    (∀ i, scatter ElemOps.int.zero
        (select_kernel ElemOps.int exLaunch exArgs [(1, [1, 0])] (fun _ => 0) exOutput)
        (select_kernel ElemOps.int exLaunch exArgs [(1, [1, 0])] (fun _ => 0)
          exOutput).selected_count i =
      if i < exArgs.num_elements ∧ select_pass ElemOps.int exArgs i = true
      then ElemOps.int.div (exArgs.elements i) exArgs.global_num_gpus else ElemOps.int.zero) ∧
    ((∀ x, ElemOps.int.div x exArgs.global_num_gpus = x) →
      ∀ i, scatter ElemOps.int.zero
        (select_kernel ElemOps.int exLaunch exArgs [(1, [1, 0])] (fun _ => 0) exOutput)
        (select_kernel ElemOps.int exLaunch exArgs [(1, [1, 0])] (fun _ => 0)
          exOutput).selected_count i =
      if i < exArgs.num_elements ∧ select_pass ElemOps.int exArgs i = true
      then exArgs.elements i else ElemOps.int.zero) :=
  select_then_scatter ElemOps.int exLaunch (by decide) (by decide) exArgs [(1, [1, 0])]
    (fun _ => 0) exOutput rfl (by decide)

/-! ## Progress and termination of `select_kernel2` -/

/-- The inner loop never moves `thread_pos` backwards and never drops a read. -/
theorem select2_scan_mono {T F : Type} (ops : ElemOps T F) (a : SelectArgs T F) (S : Nat)
    (fuel : Nat) :
    ∀ (pos : Nat) (slots : List (T × Nat)) (reads : List Nat),
      pos ≤ (select2_scan ops a S fuel pos slots reads).1 ∧
      reads.length ≤ (select2_scan ops a S fuel pos slots reads).2.2.length := by
  induction fuel with
  | zero => intro pos slots reads; exact ⟨le_rfl, le_rfl⟩
  | succ fuel ih =>
    intro pos slots reads
    unfold select2_scan
    split
    · dsimp only
      split
      · obtain ⟨h1, h2⟩ := ih (pos + S) (slots ++ [(a.elements pos, pos)]) (reads ++ [pos])
        rw [List.length_append] at h2
        exact ⟨by omega, by simp at h2; omega⟩
      · obtain ⟨h1, h2⟩ := ih (pos + S) slots (reads ++ [pos])
        rw [List.length_append] at h2
        exact ⟨by omega, by simp at h2; omega⟩
    · exact ⟨le_rfl, le_rfl⟩

/-- An inner loop that fills a local slot has read an element and moved
`thread_pos` on by `STRIDE` at least. -/
theorem select2_scan_advance {T F : Type} (ops : ElemOps T F) (a : SelectArgs T F) (S : Nat)
    (fuel : Nat) (pos : Nat) (slots : List (T × Nat)) (reads : List Nat)
    (h : (select2_scan ops a S fuel pos slots reads).2.1.length ≠ slots.length) :
    pos + S ≤ (select2_scan ops a S fuel pos slots reads).1 ∧
    reads.length + 1 ≤ (select2_scan ops a S fuel pos slots reads).2.2.length := by
  cases fuel with
  | zero => exact absurd rfl h
  | succ fuel =>
    unfold select2_scan at h ⊢
    split
    · next hc =>
      rw [if_pos hc] at h
      dsimp only at h ⊢
      split
      · obtain ⟨h1, h2⟩ := select2_scan_mono ops a S fuel (pos + S)
          (slots ++ [(a.elements pos, pos)]) (reads ++ [pos])
        rw [List.length_append] at h2
        exact ⟨h1, by simp at h2; omega⟩
      · obtain ⟨h1, h2⟩ := select2_scan_mono ops a S fuel (pos + S) slots (reads ++ [pos])
        rw [List.length_append] at h2
        exact ⟨h1, by simp at h2; omega⟩
    · next hc =>
      rw [if_neg hc] at h
      exact absurd rfl h

/-- What the scan of one thread (lines 134-150) does to `thread_pos`, to
`s_block_output_count` and to the number of reads. -/
theorem select2_scan_thread_facts {T F : Type} (ops : ElemOps T F) (L : Launch)
    (a : SelectArgs T F) (hS : 1 ≤ L.STRIDE) (b : Nat) (acc : Select2Scan T) (t : Nat) :
    (∀ x, acc.thread_pos x ≤ (select2_scan_thread ops L a b acc t).thread_pos x) ∧
    acc.s_block_output_count ≤ (select2_scan_thread ops L a b acc t).s_block_output_count ∧
    acc.loads.length ≤ (select2_scan_thread ops L a b acc t).loads.length ∧
    ((select2_scan_thread ops L a b acc t).s_block_output_count = acc.s_block_output_count →
      a.num_elements ≤ (select2_scan_thread ops L a b acc t).thread_pos (L.blockDim * b + t)) ∧
    ((select2_scan_thread ops L a b acc t).s_block_output_count ≠ acc.s_block_output_count →
      acc.thread_pos (L.blockDim * b + t) + L.STRIDE ≤
        (select2_scan_thread ops L a b acc t).thread_pos (L.blockDim * b + t) ∧
      acc.loads.length + 1 ≤ (select2_scan_thread ops L a b acc t).loads.length) := by
  obtain ⟨m1, m2⟩ := select2_scan_mono ops a L.STRIDE a.num_elements
    (acc.thread_pos (L.blockDim * b + t)) [] []
  have hexit := select2_scan_exit ops a L.STRIDE hS a.num_elements
    (acc.thread_pos (L.blockDim * b + t)) [] [] (by omega)
  unfold select2_scan_thread
  dsimp only
  refine ⟨?_, ?_, ?_, ?_, ?_⟩
  · intro x
    by_cases e : x = L.blockDim * b + t
    · subst e
      rw [Function.update_same]
      exact m1
    · rw [Function.update_noteq e]
  · split <;> omega
  · rw [List.length_append, List.length_map]
    omega
  · intro h
    rw [Function.update_same]
    by_cases hz : (select2_scan ops a L.STRIDE a.num_elements
        (acc.thread_pos (L.blockDim * b + t)) [] []).2.1.length = 0
    · rw [hz] at hexit
      simp only [num_local_slots, not_and, not_lt] at hexit
      by_contra hc
      have := hexit (by omega)
      omega
    · simp [hz] at h
  · intro h
    rw [Function.update_same]
    have hz : (select2_scan ops a L.STRIDE a.num_elements
        (acc.thread_pos (L.blockDim * b + t)) [] []).2.1.length ≠ ([] : List (T × Nat)).length := by
      intro hz
      apply h
      simp at hz
      simp [hz]
    obtain ⟨a1, a2⟩ := select2_scan_advance ops a L.STRIDE a.num_elements
      (acc.thread_pos (L.blockDim * b + t)) [] [] hz
    refine ⟨a1, ?_⟩
    rw [List.length_append, List.length_map]
    simp only [List.length_nil] at a2
    omega

/-- What the scan phase of a block does: positions, counter and reads only grow; a
count that did not grow means every thread served is past the end of the layer; a
count that grew means some thread served moved on by `STRIDE` at least and a read
was made. -/
theorem foldl_select2_scan_thread_facts {T F : Type} (ops : ElemOps T F) (L : Launch)
    (a : SelectArgs T F) (hS : 1 ≤ L.STRIDE) (b : Nat) (order : List Nat) :
    ∀ acc : Select2Scan T,
      (∀ x, acc.thread_pos x ≤ (order.foldl (select2_scan_thread ops L a b) acc).thread_pos x) ∧
      acc.s_block_output_count ≤
        (order.foldl (select2_scan_thread ops L a b) acc).s_block_output_count ∧
      acc.loads.length ≤ (order.foldl (select2_scan_thread ops L a b) acc).loads.length ∧
      ((order.foldl (select2_scan_thread ops L a b) acc).s_block_output_count =
          acc.s_block_output_count →
        ∀ t ∈ order, a.num_elements ≤
          (order.foldl (select2_scan_thread ops L a b) acc).thread_pos (L.blockDim * b + t)) ∧
      ((order.foldl (select2_scan_thread ops L a b) acc).s_block_output_count ≠
          acc.s_block_output_count →
        (∃ t ∈ order, acc.thread_pos (L.blockDim * b + t) + L.STRIDE ≤
          (order.foldl (select2_scan_thread ops L a b) acc).thread_pos (L.blockDim * b + t)) ∧
        acc.loads.length + 1 ≤ (order.foldl (select2_scan_thread ops L a b) acc).loads.length) := by
  induction order with
  | nil =>
    intro acc
    exact ⟨fun _ => le_rfl, le_rfl, le_rfl, fun _ t ht => absurd ht (List.not_mem_nil t),
      fun h => absurd rfl h⟩
  | cons t ts ih =>
    intro acc
    simp only [List.foldl_cons]
    obtain ⟨f1, f2, f3, f4, f5⟩ := select2_scan_thread_facts ops L a hS b acc t
    obtain ⟨g1, g2, g3, g4, g5⟩ := ih (select2_scan_thread ops L a b acc t)
    refine ⟨fun x => le_trans (f1 x) (g1 x), le_trans f2 g2, le_trans f3 g3, ?_, ?_⟩
    · intro h t' ht'
      rcases List.mem_cons.1 ht' with e | hmem
      · subst e
        exact le_trans (f4 (by omega)) (g1 _)
      · exact g4 (by omega) t' hmem
    · intro h
      by_cases h1 : (select2_scan_thread ops L a b acc t).s_block_output_count =
          acc.s_block_output_count
      · obtain ⟨⟨t', ht', hadv⟩, hl⟩ := g5 (by omega)
        refine ⟨⟨t', List.mem_cons_of_mem _ ht', ?_⟩, by omega⟩
        have := f1 (L.blockDim * b + t')
        omega
      · obtain ⟨hadv, hl⟩ := f5 h1
        refine ⟨⟨t, List.mem_cons_self _ _, ?_⟩, by omega⟩
        have := g1 (L.blockDim * b + t)
        omega

/-- The state after a trip of a block of `select_kernel2` that is still in its loop
and finds `s_block_output_count = 0` on entry, in terms of the scan phase. -/
theorem select2_round_pos {T F : Type} (ops : ElemOps T F) (L : Launch) (a : SelectArgs T F)
    (b : Nat) (order : List Nat) (st : Select2State T)
    (hcont : (st.blocks b).s_to_continue = true)
    (hc0 : (st.blocks b).s_block_output_count = 0) :
    ∃ scan : Select2Scan T,
      scan = order.foldl (select2_scan_thread ops L a b)
        { threads := [], thread_pos := st.thread_pos, s_block_output_count := 0, loads := [] } ∧
      (select2_round ops L a b order st).thread_pos = scan.thread_pos ∧
      (select2_round ops L a b order st).mem.selected_count =
        st.mem.selected_count + scan.s_block_output_count ∧
      (select2_round ops L a b order st).mem.loads = st.mem.loads ++ scan.loads ∧
      ((select2_round ops L a b order st).blocks b).s_to_continue =
        (scan.s_block_output_count != 0 && !(decide (st.mem.selected_count ≥ a.target_num))) ∧
      ((select2_round ops L a b order st).blocks b).s_block_output_count = 0 ∧
      ∀ b', b' ≠ b → (select2_round ops L a b order st).blocks b' = st.blocks b' := by
  refine ⟨_, rfl, ?_⟩
  unfold select2_round
  simp only [hcont, if_true, hc0]
  obtain ⟨scan, hscan⟩ : ∃ s, order.foldl (select2_scan_thread ops L a b)
    { threads := [], thread_pos := st.thread_pos, s_block_output_count := 0, loads := [] } = s :=
    ⟨_, rfl⟩
  rw [hscan]
  obtain ⟨f1, f2, _⟩ := foldl_select2_store_frame ops a
    ((if (scan.s_block_output_count != 0) = true then st.mem.selected_count
      else (st.blocks b).s_block_output_start) + 0) scan.threads
    { st.mem with
      selected_count :=
        if (scan.s_block_output_count != 0) = true
        then st.mem.selected_count + scan.s_block_output_count
        else st.mem.selected_count
      loads := st.mem.loads ++ scan.loads }
  refine ⟨trivial, ?_, ?_, ?_, ?_, ?_⟩
  · dsimp only
    rw [f1]
    dsimp only
    by_cases hz : scan.s_block_output_count = 0
    · simp [hz]
    · simp [hz]
  · rw [f2]
  · dsimp only
    rw [Function.update_same]
    dsimp only
    by_cases hz : scan.s_block_output_count = 0
    · simp [hz]
    · simp [hz]
  · dsimp only
    rw [Function.update_same]
    dsimp only
    by_cases hz : scan.s_block_output_count = 0
    · simp [hz]
    · simp [hz]
  · intro b' hb'
    rw [Function.update_noteq hb']

/-- One trip of a block of `select_kernel2` that is still in its loop: positions,
counter and reads only grow and the other blocks are not touched; a trip with a zero
block count clears `s_to_continue` and finds every thread of the block past the end
of the layer; a trip with a non-zero block count moves some thread on by `STRIDE` at
least and makes a read, clears `s_to_continue` exactly when the block start (the
counter before the trip) is at least `target_num`, and then leaves the counter
above `target_num`. -/
theorem select2_round_facts {T F : Type} (ops : ElemOps T F) (L : Launch) (a : SelectArgs T F)
    (hS : 1 ≤ L.STRIDE) (b : Nat) (order : List Nat)
    (hmem : ∀ t, t ∈ order ↔ t < L.blockDim) (st : Select2State T)
    (hcont : (st.blocks b).s_to_continue = true)
    (hc0 : (st.blocks b).s_block_output_count = 0) :
    (∀ x, st.thread_pos x ≤ (select2_round ops L a b order st).thread_pos x) ∧
    st.mem.selected_count ≤ (select2_round ops L a b order st).mem.selected_count ∧
    st.mem.loads.length ≤ (select2_round ops L a b order st).mem.loads.length ∧
    (∀ b', b' ≠ b → (select2_round ops L a b order st).blocks b' = st.blocks b') ∧
    ((select2_round ops L a b order st).mem.selected_count = st.mem.selected_count →
      ((select2_round ops L a b order st).blocks b).s_to_continue = false ∧
      ∀ t, t < L.blockDim →
        a.num_elements ≤ (select2_round ops L a b order st).thread_pos (L.blockDim * b + t)) ∧
    ((select2_round ops L a b order st).mem.selected_count ≠ st.mem.selected_count →
      (∃ t, t < L.blockDim ∧ st.thread_pos (L.blockDim * b + t) + L.STRIDE ≤
        (select2_round ops L a b order st).thread_pos (L.blockDim * b + t)) ∧
      st.mem.loads.length + 1 ≤ (select2_round ops L a b order st).mem.loads.length ∧
      (((select2_round ops L a b order st).blocks b).s_to_continue = false ↔
        a.target_num ≤ st.mem.selected_count) ∧
      (((select2_round ops L a b order st).blocks b).s_to_continue = false →
        a.target_num < (select2_round ops L a b order st).mem.selected_count)) := by
  obtain ⟨scan, hscan, r1, r2, r3, r4, _, r6⟩ := select2_round_pos ops L a b order st hcont hc0
  obtain ⟨g1, _, g3, g4, g5⟩ := foldl_select2_scan_thread_facts ops L a hS b order
    { threads := [], thread_pos := st.thread_pos, s_block_output_count := 0, loads := [] }
  rw [← hscan] at g1 g3 g4 g5
  dsimp only at g1 g3 g4 g5
  rw [r1, r2, r3, r4, List.length_append]
  refine ⟨g1, by omega, by omega, r6, ?_, ?_⟩
  · intro h
    have hz : scan.s_block_output_count = 0 := by omega
    refine ⟨by simp [hz], ?_⟩
    intro t ht
    exact g4 hz t ((hmem t).2 ht)
  · intro h
    have hz : scan.s_block_output_count ≠ 0 := by omega
    obtain ⟨⟨t, ht, hadv⟩, hl⟩ := g5 hz
    simp only [List.length_nil, Nat.zero_add] at hl
    refine ⟨⟨t, (hmem t).1 ht, hadv⟩, by omega, ?_, ?_⟩
    · simp [hz]
    · intro hstop
      simp [hz] at hstop
      omega

/-- One schedule entry of `select_kernel2` from a state that satisfies the
invariant: positions, counter and reads only grow, a block that has left its loop
stays out, the reason for which it left stays true, and the block named by the
entry leaves its loop or makes a read. -/
theorem select2_step_facts {T F : Type} (ops : ElemOps T F) (L : Launch) (a : SelectArgs T F)
    (hS : 1 ≤ L.STRIDE) (m0 : Output T) (st : Select2State T) (reads : List (Nat × Nat × Nat))
    (h : Select2Inv ops L a m0 st reads) (entry : Nat × List Nat) :
    (∀ x, st.thread_pos x ≤ (select2_step ops L a st entry).thread_pos x) ∧
    st.mem.selected_count ≤ (select2_step ops L a st entry).mem.selected_count ∧
    st.mem.loads.length ≤ (select2_step ops L a st entry).mem.loads.length ∧
    (∀ b, (st.blocks b).s_to_continue = false →
      ((select2_step ops L a st entry).blocks b).s_to_continue = false) ∧
    (Select2Stopped L a st → Select2Stopped L a (select2_step ops L a st entry)) ∧
    (entry.1 < L.gridDim →
      ((select2_step ops L a st entry).blocks entry.1).s_to_continue = false ∨
      st.mem.loads.length + 1 ≤ (select2_step ops L a st entry).mem.loads.length) := by
  unfold select2_step
  by_cases hb : entry.1 < L.gridDim
  swap
  · rw [if_neg hb]
    exact ⟨fun _ => le_rfl, le_rfl, le_rfl, fun _ hx => hx, fun hx => hx, fun hh => absurd hh hb⟩
  rw [if_pos hb]
  by_cases hcont : (st.blocks entry.1).s_to_continue = true
  swap
  · have e : select2_round ops L a entry.1 (threadOrder L.blockDim entry.2) st = st := by
      unfold select2_round
      simp [hcont]
    rw [e]
    exact ⟨fun _ => le_rfl, le_rfl, le_rfl, fun _ hx => hx, fun hx => hx,
      fun _ => Or.inl (by simpa using hcont)⟩
  obtain ⟨r1, r2, r3, r4, r5, r6⟩ := select2_round_facts ops L a hS entry.1
    (threadOrder L.blockDim entry.2) (mem_threadOrder _ _) st hcont (h.shared entry.1 hb)
  refine ⟨r1, r2, r3, ?_, ?_, ?_⟩
  · intro b hbs
    have hne : b ≠ entry.1 := by
      intro e
      rw [e, hcont] at hbs
      exact absurd hbs (by decide)
    rw [r4 b hne]
    exact hbs
  · intro hstop b hbG hbs
    by_cases e : b = entry.1
    · rw [e] at hbs ⊢
      by_cases hcnt : (select2_round ops L a entry.1 (threadOrder L.blockDim entry.2)
          st).mem.selected_count = st.mem.selected_count
      · exact Or.inr (r5 hcnt).2
      · exact Or.inl ((r6 hcnt).2.2.2 hbs)
    · rw [r4 b e] at hbs
      rcases hstop b hbG hbs with h1 | h1
      · exact Or.inl (by omega)
      · exact Or.inr (fun t ht => le_trans (h1 t ht) (r1 _))
  · intro _
    by_cases hcnt : (select2_round ops L a entry.1 (threadOrder L.blockDim entry.2) st).mem.selected_count
        = st.mem.selected_count
    · exact Or.inl (r5 hcnt).1
    · exact Or.inr (r6 hcnt).2.1

/-- The invariant, the reasons for leaving the loop and the growth of the reads
along any sequence of schedule entries of `select_kernel2`. -/
theorem foldl_select2_step_facts {T F : Type} (ops : ElemOps T F) (L : Launch)
    (a : SelectArgs T F) (hS : 1 ≤ L.STRIDE) (m0 : Output T) (l : List (Nat × List Nat)) :
    ∀ st : Select2State T, (∃ reads, Select2Inv ops L a m0 st reads) → Select2Stopped L a st →
      (∃ reads, Select2Inv ops L a m0 (l.foldl (select2_step ops L a) st) reads) ∧
      Select2Stopped L a (l.foldl (select2_step ops L a) st) ∧
      st.mem.loads.length ≤ (l.foldl (select2_step ops L a) st).mem.loads.length ∧
      (∀ b, (st.blocks b).s_to_continue = false →
        ((l.foldl (select2_step ops L a) st).blocks b).s_to_continue = false) := by
  induction l with
  | nil => intro st h1 h2; exact ⟨h1, h2, le_rfl, fun _ hx => hx⟩
  | cons e l ih =>
    intro st h1 h2
    simp only [List.foldl_cons]
    obtain ⟨reads, hinv⟩ := h1
    obtain ⟨_, _, f3, f4, f5, _⟩ := select2_step_facts ops L a hS m0 st reads hinv e
    have hinv' := foldl_select2_step_inv ops L a m0 [e] st ⟨reads, hinv⟩
    simp only [List.foldl_cons, List.foldl_nil] at hinv'
    obtain ⟨g1, g2, g3, g4⟩ := ih _ hinv' (f5 h2)
    exact ⟨g1, g2, le_trans f3 g3, fun b hb => g4 b (f4 b hb)⟩

/-- The reads of a run of `select_kernel2` are at most `num_elements`. -/
theorem select2_loads_le {T F : Type} (ops : ElemOps T F) (L : Launch) (a : SelectArgs T F)
    (m0 : Output T) (st : Select2State T) (reads : List (Nat × Nat × Nat))
    (h : Select2Inv ops L a m0 st reads) :
    st.mem.loads.length ≤ m0.loads.length + a.num_elements := by
  rw [h.loads, List.length_append]
  apply Nat.add_le_add_left
  have hnd : (read_indices reads).Nodup := by
    have := h.threads.nodup
    simpa [read_calls, read_indices, List.map_map, Function.comp_def] using this
  have hsub : read_indices reads ⊆ List.range a.num_elements := by
    intro x hx
    obtain ⟨r, hr, rfl⟩ := List.mem_map.1 hx
    have := (h.threads.made (L.blockDim * r.1 + r.2.1, r.2.2)
      (List.mem_map.2 ⟨r, hr, rfl⟩)).2.1
    exact List.mem_range.2 this
  have := (hnd.subperm hsub).length_le
  rw [List.length_range] at this
  unfold read_indices at this
  rw [List.length_map] at this
  exact this

/-- After `n` turns a block of `select_kernel2` has left its loop or `n` reads have
been made. -/
theorem foldl_select2_replicate_progress {T F : Type} (ops : ElemOps T F) (L : Launch)
    (a : SelectArgs T F) (hS : 1 ≤ L.STRIDE) (m0 : Output T) (b : Nat) (hb : b < L.gridDim)
    (o : List Nat) (n : Nat) :
    ∀ st : Select2State T, (∃ reads, Select2Inv ops L a m0 st reads) →
      (((List.replicate n (b, o)).foldl (select2_step ops L a) st).blocks b).s_to_continue = false ∨
      st.mem.loads.length + n ≤
        ((List.replicate n (b, o)).foldl (select2_step ops L a) st).mem.loads.length := by
  induction n with
  | zero => intro st _; right; simp
  | succ n ih =>
    intro st h1
    simp only [List.replicate_succ, List.foldl_cons]
    obtain ⟨reads, hinv⟩ := h1
    obtain ⟨_, _, _, _, _, f6⟩ := select2_step_facts ops L a hS m0 st reads hinv (b, o)
    have hinv' := foldl_select2_step_inv ops L a m0 [(b, o)] st ⟨reads, hinv⟩
    simp only [List.foldl_cons, List.foldl_nil] at hinv'
    rcases ih _ hinv' with h | h
    · exact Or.inl h
    · rcases f6 hb with hs | hl
      · left
        obtain ⟨reads', hinv''⟩ := hinv'
        have hpersist : ∀ (k : Nat) (s : Select2State T),
            (∃ r, Select2Inv ops L a m0 s r) → (s.blocks b).s_to_continue = false →
            (((List.replicate k (b, o)).foldl (select2_step ops L a) s).blocks b).s_to_continue
              = false := by
          intro k
          induction k with
          | zero => intro s _ hs'; exact hs'
          | succ k ihk =>
            intro s hs1 hs'
            simp only [List.replicate_succ, List.foldl_cons]
            obtain ⟨r, hr⟩ := hs1
            have hr' := foldl_select2_step_inv ops L a m0 [(b, o)] s ⟨r, hr⟩
            simp only [List.foldl_cons, List.foldl_nil] at hr'
            exact ihk _ hr' ((select2_step_facts ops L a hS m0 s r hr (b, o)).2.2.2.1 b hs')
        exact hpersist n _ ⟨reads', hinv''⟩ hs
      · right
        omega

/-- After the closing turns every block of `select_kernel2` has left its loop. -/
theorem foldl_select2_completion_done {T F : Type} (ops : ElemOps T F) (L : Launch)
    (a : SelectArgs T F) (hS : 1 ≤ L.STRIDE) (m0 : Output T) (n : Nat) (hn : n ≤ L.gridDim) :
    ∀ st : Select2State T, (∃ reads, Select2Inv ops L a m0 st reads) → Select2Stopped L a st →
      ∀ b, b < n →
        ((((List.range n).flatMap
          (fun blockIdx => List.replicate (a.num_elements + 1) (blockIdx, ([] : List Nat)))).foldl
          (select2_step ops L a) st).blocks b).s_to_continue = false := by
  induction n with
  | zero => intro st _ _ b h; omega
  | succ n ih =>
    intro st h1 h2 b hbn
    rw [List.range_succ, List.flatMap_append, List.foldl_append]
    simp only [List.flatMap_cons, List.flatMap_nil, List.append_nil]
    obtain ⟨g1, g2, g3, _⟩ := foldl_select2_step_facts ops L a hS m0
      ((List.range n).flatMap
        (fun blockIdx => List.replicate (a.num_elements + 1) (blockIdx, ([] : List Nat))))
      st h1 h2
    obtain ⟨k1, _, _, k4⟩ := foldl_select2_step_facts ops L a hS m0
      (List.replicate (a.num_elements + 1) (n, ([] : List Nat))) _ g1 g2
    by_cases e : b = n
    · rw [e]
      rcases foldl_select2_replicate_progress ops L a hS m0 n (by omega) [] (a.num_elements + 1)
        _ g1 with h | h
      · exact h
      · exfalso
        obtain ⟨reads, hinv⟩ := k1
        have hub := select2_loads_le ops L a m0 _ reads hinv
        obtain ⟨reads1, hinv1⟩ := g1
        have hlb : m0.loads.length ≤ (((List.range n).flatMap
            (fun blockIdx => List.replicate (a.num_elements + 1)
              (blockIdx, ([] : List Nat)))).foldl (select2_step ops L a) st).mem.loads.length := by
          rw [hinv1.loads, List.length_append]
          omega
        omega
    · exact k4 b (ih (by omega) st h1 h2 b (by omega))

/-- A finished run of `select_kernel2`: the invariant holds, every block has left
its loop, and it did so because the counter is above `target_num` or because all
its threads are past the end of the layer. -/
theorem select2_final_facts {T F : Type} (ops : ElemOps T F) (L : Launch) (a : SelectArgs T F)
    (hG : 1 ≤ L.gridDim) (hB : 1 ≤ L.blockDim) (sched : List (Nat × List Nat))
    (shared0 : Nat → Nat) (m : Output T) :
    (∃ reads, Select2Inv ops L a m (select2_final ops L a sched shared0 m) reads) ∧
    Select2Stopped L a (select2_final ops L a sched shared0 m) ∧
    ∀ b, b < L.gridDim →
      ((select2_final ops L a sched shared0 m).blocks b).s_to_continue = false := by
  have hS : 1 ≤ L.STRIDE := Nat.mul_pos hG hB
  have hinit : Select2Stopped L a (select2_init shared0 m) := by
    intro b _ hb
    simp [select2_init] at hb
  obtain ⟨g1, g2, _, _⟩ := foldl_select2_step_facts ops L a hS m sched (select2_init shared0 m)
    ⟨[], select2_init_inv ops L a shared0 m⟩ hinit
  obtain ⟨k1, k2, _, _⟩ := foldl_select2_step_facts ops L a hS m
    (block_completion L (a.num_elements + 1)) _ g1 g2
  unfold select2_final
  rw [List.foldl_append]
  refine ⟨k1, k2, ?_⟩
  intro b hb
  exact foldl_select2_completion_done ops L a hS m L.gridDim le_rfl _ g1 g2 b hb

/-- The counter and the reads of a finished run of `select_kernel2`: the counter is
above `target_num`, or the run has read every index of the layer exactly once and
the counter is the initial value plus the number of elements with
`abs(element) > threshold`. -/
theorem select_kernel2_count_cases {T F : Type} (ops : ElemOps T F) (L : Launch)
    (a : SelectArgs T F) (hG : 1 ≤ L.gridDim) (hB : 1 ≤ L.blockDim)
    (sched : List (Nat × List Nat)) (shared0 : Nat → Nat) (m : Output T) :
    a.target_num < (select_kernel2 ops L a sched shared0 m).selected_count ∨
    ((select_kernel2 ops L a sched shared0 m).selected_count =
        m.selected_count + ((List.range a.num_elements).filter (select2_pass ops a)).length ∧
      ∃ reads, (select_kernel2 ops L a sched shared0 m).loads = m.loads ++ reads ∧
        (read_indices reads).Perm (List.range a.num_elements)) := by
  obtain ⟨⟨reads, hinv⟩, hstop, hdone⟩ := select2_final_facts ops L a hG hB sched shared0 m
  by_cases hgt : a.target_num < (select_kernel2 ops L a sched shared0 m).selected_count
  · exact Or.inl hgt
  right
  have hS : 0 < L.gridDim * L.blockDim := Nat.mul_pos hG hB
  have hexh : ∀ tid, tid < L.gridDim * L.blockDim →
      a.num_elements ≤ (select2_final ops L a sched shared0 m).thread_pos tid := by
    intro tid htid
    have hb : tid / L.blockDim < L.gridDim :=
      Nat.div_lt_of_lt_mul (by rw [Nat.mul_comm]; exact htid)
    rcases hstop (tid / L.blockDim) hb (hdone _ hb) with h | h
    · exact absurd h hgt
    · have := h (tid % L.blockDim) (Nat.mod_lt _ (by omega))
      rw [Nat.div_add_mod] at this
      exact this
  have hnd : (read_indices reads).Nodup := by
    have := hinv.threads.nodup
    simpa [read_calls, read_indices, List.map_map, Function.comp_def] using this
  have hperm : (read_indices reads).Perm (List.range a.num_elements) := by
    rw [List.perm_ext_iff_of_nodup hnd (List.nodup_range _)]
    intro x
    rw [List.mem_range]
    constructor
    · intro hx
      obtain ⟨r, hr, rfl⟩ := List.mem_map.1 hx
      exact (hinv.threads.made (L.blockDim * r.1 + r.2.1, r.2.2)
        (List.mem_map.2 ⟨r, hr, rfl⟩)).2.1
    · intro hx
      have hmod : x % (L.gridDim * L.blockDim) < L.gridDim * L.blockDim := Nat.mod_lt _ hS
      have hxe : x = 0 + x % (L.gridDim * L.blockDim) +
          (x / (L.gridDim * L.blockDim)) * (L.gridDim * L.blockDim) := by
        have := Nat.div_add_mod' x (L.gridDim * L.blockDim)
        omega
      have hc := hinv.threads.cover _ hmod (x / (L.gridDim * L.blockDim))
        (by rw [← hxe]; exact hx) (by rw [← hxe]; exact lt_of_lt_of_le hx (hexh _ hmod))
      rw [← hxe] at hc
      obtain ⟨r, hr, hrx⟩ := List.mem_map.1 hc
      exact List.mem_map.2 ⟨r, hr, (Prod.mk.inj hrx).2⟩
  refine ⟨?_, reads, hinv.loads, hperm⟩
  unfold select_kernel2
  rw [hinv.count, (hperm.filter _).length_eq]

/-! ## Claims on the count and the termination of `select_kernel2` -/

/-- C17. Let `K` be the number of indices `i < num_elements` with
`abs(elements[i]) > threshold` and `c` the shared counter after a run of
`select_kernel2` that started with the counter at `0`, for a launch with at least
one block and one thread per block and any schedule. Then `c ≤ K`; if
`K ≤ target_num` then `c = K` and the run has read every index of the layer exactly
once (no block stops early); if `K > target_num` then `c > target_num`; and
`min K target_num ≤ c`. -/
theorem select_kernel2_reported_count {T F : Type} (ops : ElemOps T F) (L : Launch)
    (hG : 1 ≤ L.gridDim) (hB : 1 ≤ L.blockDim) (a : SelectArgs T F)
    (sched : List (Nat × List Nat)) (shared0 : Nat → Nat) (m : Output T)
    (hc0 : m.selected_count = 0) :
    (select_kernel2 ops L a sched shared0 m).selected_count ≤
      ((List.range a.num_elements).filter (select2_pass ops a)).length ∧
    (((List.range a.num_elements).filter (select2_pass ops a)).length ≤ a.target_num →
      (select_kernel2 ops L a sched shared0 m).selected_count =
        ((List.range a.num_elements).filter (select2_pass ops a)).length ∧
      ∃ reads, (select_kernel2 ops L a sched shared0 m).loads = m.loads ++ reads ∧
        (read_indices reads).Perm (List.range a.num_elements)) ∧
    (a.target_num < ((List.range a.num_elements).filter (select2_pass ops a)).length →
      a.target_num < (select_kernel2 ops L a sched shared0 m).selected_count) ∧
    min ((List.range a.num_elements).filter (select2_pass ops a)).length a.target_num ≤
      (select_kernel2 ops L a sched shared0 m).selected_count := by
  have hle := select_kernel2_count_le ops L a sched shared0 m
  have hcases := select_kernel2_count_cases ops L a hG hB sched shared0 m
  rw [hc0, Nat.zero_add] at hle hcases
  refine ⟨hle, ?_, ?_, ?_⟩
  · intro hK
    rcases hcases with h | h
    · omega
    · exact h
  · intro hK
    rcases hcases with h | h
    · exact h
    · rw [h.1]; exact hK
  · rcases hcases with h | h
    · exact le_trans (Nat.min_le_right _ _) (le_of_lt h)
    · rw [h.1]; exact Nat.min_le_left _ _

theorem select_kernel2_reported_count_witness :
    (select_kernel2 ElemOps.int exLaunch exArgs [(1, [1, 0])] (fun _ => 77)
        exOutput).selected_count ≤
      ((List.range exArgs.num_elements).filter (select2_pass ElemOps.int exArgs)).length ∧
    (((List.range exArgs.num_elements).filter (select2_pass ElemOps.int exArgs)).length ≤
        exArgs.target_num →
      (select_kernel2 ElemOps.int exLaunch exArgs [(1, [1, 0])] (fun _ => 77)
          exOutput).selected_count =
        ((List.range exArgs.num_elements).filter (select2_pass ElemOps.int exArgs)).length ∧
      ∃ reads, (select_kernel2 ElemOps.int exLaunch exArgs [(1, [1, 0])] (fun _ => 77)
          exOutput).loads = exOutput.loads ++ reads ∧
        (read_indices reads).Perm (List.range exArgs.num_elements)) ∧
    (exArgs.target_num <
        ((List.range exArgs.num_elements).filter (select2_pass ElemOps.int exArgs)).length →
      exArgs.target_num < (select_kernel2 ElemOps.int exLaunch exArgs [(1, [1, 0])] (fun _ => 77)
        exOutput).selected_count) ∧
    min ((List.range exArgs.num_elements).filter (select2_pass ElemOps.int exArgs)).length
        exArgs.target_num ≤
      (select_kernel2 ElemOps.int exLaunch exArgs [(1, [1, 0])] (fun _ => 77)
        exOutput).selected_count :=
  select_kernel2_reported_count ElemOps.int exLaunch (by decide) (by decide) exArgs
    [(1, [1, 0])] (fun _ => 77) exOutput rfl

/-- C18. For a launch with at least one block and one thread per block and any
layer, threshold and target: under every schedule every block of `select_kernel2`
has left its `while (s_to_continue)` loop when the run ends (the closing
`num_elements + 1` trips per block are enough from any reachable state), and a run
makes at most `num_elements` reads. In every trip of a block that is in its loop
(with `s_block_output_count = 0` on entry, as in every reachable state): a non-zero
block count, seen as a change of the counter, moves the scan position of some thread
of the block on by `STRIDE` at least; a zero block count clears `s_to_continue`; and
a block start (the counter before the trip) of at least `target_num` clears
`s_to_continue`. -/
theorem select_kernel2_terminates {T F : Type} (ops : ElemOps T F) (L : Launch)
    (hG : 1 ≤ L.gridDim) (hB : 1 ≤ L.blockDim) (a : SelectArgs T F) :
    (∀ (sched : List (Nat × List Nat)) (shared0 : Nat → Nat) (m : Output T) (b : Nat),
      b < L.gridDim →
      ((select2_final ops L a sched shared0 m).blocks b).s_to_continue = false) ∧
    (∀ (sched : List (Nat × List Nat)) (shared0 : Nat → Nat) (m : Output T),
      (select_kernel2 ops L a sched shared0 m).loads.length ≤
        m.loads.length + a.num_elements) ∧
    (∀ (st : Select2State T) (b : Nat) (o : List Nat), b < L.gridDim →
      (st.blocks b).s_to_continue = true → (st.blocks b).s_block_output_count = 0 →
      ((select2_step ops L a st (b, o)).mem.selected_count ≠ st.mem.selected_count →
        ∃ t, t < L.blockDim ∧ st.thread_pos (L.blockDim * b + t) + L.STRIDE ≤
          (select2_step ops L a st (b, o)).thread_pos (L.blockDim * b + t)) ∧
      ((select2_step ops L a st (b, o)).mem.selected_count = st.mem.selected_count →
        ((select2_step ops L a st (b, o)).blocks b).s_to_continue = false) ∧
      (a.target_num ≤ st.mem.selected_count →
        ((select2_step ops L a st (b, o)).blocks b).s_to_continue = false)) := by
  have hS : 1 ≤ L.STRIDE := Nat.mul_pos hG hB
  refine ⟨?_, ?_, ?_⟩
  · intro sched shared0 m b hb
    exact (select2_final_facts ops L a hG hB sched shared0 m).2.2 b hb
  · intro sched shared0 m
    obtain ⟨reads, hinv⟩ := select2_final_inv ops L a sched shared0 m
    exact select2_loads_le ops L a m _ reads hinv
  · intro st b o hb hcont hc0
    have e : select2_step ops L a st (b, o) =
        select2_round ops L a b (threadOrder L.blockDim o) st := by
      unfold select2_step
      simp [hb]
    rw [e]
    obtain ⟨_, _, _, _, r5, r6⟩ := select2_round_facts ops L a hS b
      (threadOrder L.blockDim o) (mem_threadOrder _ _) st hcont hc0
    refine ⟨fun h => (r6 h).1, fun h => (r5 h).1, ?_⟩
    intro ht
    by_cases hcnt : (select2_round ops L a b (threadOrder L.blockDim o) st).mem.selected_count =
        st.mem.selected_count
    · exact (r5 hcnt).1
    · exact (r6 hcnt).2.2.1.2 ht

theorem select_kernel2_terminates_witness :
    (∀ (sched : List (Nat × List Nat)) (shared0 : Nat → Nat) (m : Output Int) (b : Nat),
      b < exLaunch.gridDim →
      ((select2_final ElemOps.int exLaunch exArgs sched shared0 m).blocks b).s_to_continue
        = false) ∧
    (∀ (sched : List (Nat × List Nat)) (shared0 : Nat → Nat) (m : Output Int),
      (select_kernel2 ElemOps.int exLaunch exArgs sched shared0 m).loads.length ≤
        m.loads.length + exArgs.num_elements) ∧
    (∀ (st : Select2State Int) (b : Nat) (o : List Nat), b < exLaunch.gridDim →
      (st.blocks b).s_to_continue = true → (st.blocks b).s_block_output_count = 0 →
      ((select2_step ElemOps.int exLaunch exArgs st (b, o)).mem.selected_count ≠
          st.mem.selected_count →
        ∃ t, t < exLaunch.blockDim ∧ st.thread_pos (exLaunch.blockDim * b + t) + exLaunch.STRIDE ≤
          (select2_step ElemOps.int exLaunch exArgs st (b, o)).thread_pos
            (exLaunch.blockDim * b + t)) ∧
      ((select2_step ElemOps.int exLaunch exArgs st (b, o)).mem.selected_count =
          st.mem.selected_count →
        ((select2_step ElemOps.int exLaunch exArgs st (b, o)).blocks b).s_to_continue = false) ∧
      (exArgs.target_num ≤ st.mem.selected_count →
        ((select2_step ElemOps.int exLaunch exArgs st (b, o)).blocks b).s_to_continue = false)) :=
  select_kernel2_terminates ElemOps.int exLaunch (by decide) (by decide) exArgs

end horovod.dgc
